import Mathlib

/-!
# Verification of the hijri-rrule recurrence engine

A shallow embedding, in Lean 4, of the core of the hijri-rrule library:
the tabular Islamic calendar provider, the Hijri/Julian-day and
Gregorian/Julian-day conversions, the Hijri date arithmetic, the rule
options normalizer, and the recurrence iterator.

Conventions of the embedding:

* JavaScript numbers used as integers are modelled as `Int`.
  `Math.floor(a / b)` is modelled as `Int.fdiv a b` (floor division) and
  the JS remainder `a % b` as `Int.tmod a b` (truncated remainder); they
  agree with JS semantics on all inputs.
* `HijriDate` keeps only the year, month and day fields.  The hour,
  minute and second fields of the source class never influence equality,
  ordering, conversion at day granularity, or the iterator (the spec
  states time fields are ignored), so they are dropped.
* Julian day numbers are kept at day granularity: for a date-only value
  (hour = minute = second = 0) the source computes the real number
  `HIJRI_EPOCH_JD + days - 1/2 = 1948439 + days`, an integer, and the
  inverse conversion applies `floor(jdn - HIJRI_EPOCH_JD + 1/2)`, which
  recovers exactly `days`.  The embedding therefore works with the
  integer `1948439 + days` directly.  Likewise for the Gregorian side,
  where the integer `z = floor(jdn + 1/2)` is the value the inverse
  algorithm works on.
* Functions that `throw` in the source are modelled with `Option`
  results, or return a documented junk value on argument ranges that the
  source rejects with an exception and that no caller reaches.
* The calendar backend is fixed to the deterministic tabular provider
  (`islamic-tbla`).  The observational provider delegates to the host
  Intl API and has no algorithmic content to embed.
-/

/-- Years within the 30-year tabular cycle that are leap years
(`LEAP_YEARS_IN_CYCLE` in `constants/calendar.ts`). -/
def LEAP_YEARS_IN_CYCLE : List Int := [2, 5, 7, 10, 13, 16, 18, 21, 24, 26, 29]

/-- Days of each Hijri month in a common year (`MONTH_DAYS`). -/
def MONTH_DAYS : List Int := [30, 29, 30, 29, 30, 29, 30, 29, 30, 29, 30, 29]

/-- `TabularCalendarProvider.isLeapYear`: the year position inside the
30-year cycle (with non-positive remainders shifted into `[1, 30]`) is
looked up in the leap-year table. -/
def isLeapYear (year : Int) : Bool :=
  let yearInCycle := year.tmod 30
  let yearInCycle := if yearInCycle ≤ 0 then yearInCycle + 30 else yearInCycle
  LEAP_YEARS_IN_CYCLE.contains yearInCycle

/-- `TabularCalendarProvider.getMonthLength`.  The source throws for a
month outside `[1, 12]`; the embedding returns 0 there (no caller below
reaches that case).  Month 12 has 30 days in leap years; otherwise the
fixed alternating table applies. -/
def getMonthLength (year month : Int) : Int :=
  if month < 1 ∨ 12 < month then 0
  else if month = 12 ∧ isLeapYear year then 30
  else MONTH_DAYS.getD (month - 1).toNat 0

/-- `TabularCalendarProvider.getYearLength`. -/
def getYearLength (year : Int) : Int :=
  if isLeapYear year then 355 else 354

/-- `isValidHijriDate` from `hijri-calendar.ts` (equivalently
`TabularCalendarProvider.isValidDate`): year at least 1, month in
`[1, 12]`, day in `[1, monthLength]`. -/
def isValidHijriDate (year month day : Int) : Bool :=
  1 ≤ year ∧ 1 ≤ month ∧ month ≤ 12 ∧ 1 ≤ day ∧ day ≤ getMonthLength year month

/-- The `HijriDate` value class, restricted to its date fields. -/
structure HijriDate where
  year : Int
  month : Int
  day : Int
deriving DecidableEq, Repr

namespace HijriDate

/-- `HijriDate.equals`: time fields are ignored. -/
def equals (a b : HijriDate) : Bool :=
  a.year = b.year ∧ a.month = b.month ∧ a.day = b.day

/-- `HijriDate.isBefore`. -/
def isBefore (a b : HijriDate) : Bool :=
  if a.year ≠ b.year then a.year < b.year
  else if a.month ≠ b.month then a.month < b.month
  else a.day < b.day

/-- `HijriDate.isAfter`. -/
def isAfter (a b : HijriDate) : Bool :=
  if a.year ≠ b.year then b.year < a.year
  else if a.month ≠ b.month then b.month < a.month
  else b.day < a.day

/-- `HijriDate.isOnOrBefore`. -/
def isOnOrBefore (a b : HijriDate) : Bool := a.equals b || a.isBefore b

/-- `HijriDate.isOnOrAfter`. -/
def isOnOrAfter (a b : HijriDate) : Bool := a.equals b || a.isAfter b

/-- `HijriDate.compare`: negative, zero or positive according to date
order (year, then month, then day). -/
def compare (a b : HijriDate) : Int :=
  if a.year ≠ b.year then a.year - b.year
  else if a.month ≠ b.month then a.month - b.month
  else a.day - b.day

/-- Validity of a `HijriDate` value: the source constructor throws
unless `isValidHijriDate` holds. -/
def valid (d : HijriDate) : Bool := isValidHijriDate d.year d.month d.day

end HijriDate

/-- Length in days of year position `y` of the 30-year cycle, as used by
the conversion loops (`LEAP_YEARS_IN_CYCLE.includes(y) ? 355 : 354`). -/
def yearLengthInCycle (y : Int) : Int :=
  if LEAP_YEARS_IN_CYCLE.contains y then 355 else 354

/-- The 30 year lengths of one cycle, in order. -/
def yearLengthsOfCycle : List Int :=
  (List.range 30).map fun i => yearLengthInCycle (Int.ofNat i + 1)

/-- Days contributed by the first `k` years of a cycle: the source loop
`for (y = 1; y < yearsInCycle; y++) days += ...` summed. -/
def daysInYearsOfCycle (k : Nat) : Int :=
  (yearLengthsOfCycle.take k).sum

/-- The 12 month lengths of a year, in order. -/
def monthLengthsOfYear (year : Int) : List Int :=
  (List.range 12).map fun i => getMonthLength year (Int.ofNat i + 1)

/-- Days contributed by the months before month `m`: the source loop
`for (let mm = 1; mm < month; mm++) days += getMonthLength(year, mm)`. -/
def daysBeforeMonthInYear (year m : Int) : Int :=
  ((monthLengthsOfYear year).take (m - 1).toNat).sum

/-- Integer day count since 1 Muharram 1 AH, the quantity `days`
computed by `hijriToJulianDay` in `hijri-converter.ts`: complete
30-year cycles, then years within the cycle, then months, then days. -/
def hijriDaysSinceEpoch (year month day : Int) : Int :=
  (year - 1).fdiv 30 * 10631
    + daysInYearsOfCycle ((year - 1).tmod 30).toNat
    + daysBeforeMonthInYear year month
    + (day - 1)

/-- `hijriToJulianDay` at day granularity: the source returns the real
`1948439.5 + days + fraction`, which equals `1948439 + days` for a
midnight date. -/
def hijriToJulianDay (d : HijriDate) : Int :=
  1948439 + hijriDaysSinceEpoch d.year d.month d.day

/-- One pass of the break-on-`rem < len` loops of `julianDayToHijri`:
given the list of segment lengths, returns the 1-based index of the
segment where the loop broke (`none` when it ran off the end) and the
remaining day count. -/
def scanList : List Int → Int → Option Int × Int
  | [], rem => (none, rem)
  | l :: ls, rem =>
    if rem < l then (some 1, rem)
    else
      let p := scanList ls (rem - l)
      (p.1.map (· + 1), p.2)

/-- `julianDayToHijri` at day granularity.  For the integer `jdn` of the
embedding, `floor(jdn - 1948439.5 + 0.5) = jdn - 1948439`.  Dates before
the epoch throw in the source (`none` here).  The year loop falls back
to year 30 of the cycle with zero remainder; the month loop falls back
to month 12 keeping the decremented remainder — both exactly as in the
source. -/
def julianDayToHijri (jdn : Int) : Option HijriDate :=
  let daysSinceEpoch := jdn - 1948439
  if daysSinceEpoch < 0 then none
  else
    let cycles := daysSinceEpoch.fdiv 10631
    let rem0 := daysSinceEpoch.tmod 10631
    let yr := match scanList yearLengthsOfCycle rem0 with
      | (some y, r) => (y, r)
      | (none, _) => (30, 0)
    let year := cycles * 30 + yr.1
    let md := match scanList (monthLengthsOfYear year) yr.2 with
      | (some m, r) => (m, r)
      | (none, r) => (12, r)
    some ⟨year, md.1, md.2 + 1⟩

/-- `gregorianToJulianDay` at day granularity: the integer part of the
Meeus formula.  For a midnight date the source returns this value minus
one half, and `floor(· + 1/2)` recovers it. -/
def gregorianToJulianDay (year month day : Int) : Int :=
  let a := (14 - month).fdiv 12
  let y := year + 4800 - a
  let m := month + 12 * a - 3
  day + (153 * m + 2).fdiv 5 + 365 * y + y.fdiv 4 - y.fdiv 100 + y.fdiv 400 - 32045

/-- `julianDayToGregorian` at day granularity, applied to the integer
`z = floor(jdn + 1/2)`.  The fractional divisions of the source are
rendered as exact integer floor divisions:
`floor((z - 1867216.25) / 36524.25) = (4z - 7468865) fdiv 146097`,
`floor((b - 122.1) / 365.25) = (20b - 2442) fdiv 7305`,
`floor(365.25 c) = 1461c fdiv 4`,
`floor(x / 30.6001) = 10000x fdiv 306001` and
`floor(30.6001 e) = 306001e fdiv 10000`. -/
def julianDayToGregorian (z : Int) : Int × Int × Int :=
  let a := if 2299161 ≤ z then
      let alpha := (4 * z - 7468865).fdiv 146097
      z + 1 + alpha - alpha.fdiv 4
    else z
  let b := a + 1524
  let c := (20 * b - 2442).fdiv 7305
  let d := (1461 * c).fdiv 4
  let e := ((b - d) * 10000).fdiv 306001
  let day := b - d - (306001 * e).fdiv 10000
  let month := if e < 14 then e - 1 else e - 13
  let year := if 2 < month then c - 4716 else c - 4715
  (year, month, day)

/-- Validity of a (proleptic) Gregorian calendar date: the domain of the
round-trip property of the spec.  Month lengths follow the standard
Gregorian rules. -/
def isValidGregorianDate (year month day : Int) : Bool :=
  1 ≤ month ∧ month ≤ 12 ∧ 1 ≤ day ∧
    day ≤ (if month = 2 then
             (if year.tmod 4 = 0 ∧ (year.tmod 100 ≠ 0 ∨ year.tmod 400 = 0) then 29 else 28)
           else if month = 4 ∨ month = 6 ∨ month = 9 ∨ month = 11 then 30 else 31)

/-- `addDays` from `hijri-date-math.ts`: convert to Julian day, add, and
convert back.  The source throws when the result precedes the epoch; the
embedding yields the junk date `(0, 0, 0)` there (the theorems below
show the case is unreachable in the iterator). -/
def addDays (date : HijriDate) (days : Int) : HijriDate :=
  if days = 0 then date
  else (julianDayToHijri (hijriToJulianDay date + days)).getD ⟨0, 0, 0⟩

/-- `addMonths`: integer month arithmetic with borrow for non-positive
remainders, clamping the day or returning `none` (the source `null`)
when the day does not exist in the target month.  The source throws when
the target year precedes year 1; the embedding conflates that abnormal
exit with `none` (unreachable from the iterator, whose cursor years stay
at least 1). -/
def addMonths (date : HijriDate) (months : Int) (clampDay : Bool) : Option HijriDate :=
  if months = 0 then some date
  else
    let totalMonths := (date.year - 1) * 12 + (date.month - 1) + months
    let newYear0 := totalMonths.fdiv 12 + 1
    let newMonth0 := totalMonths.tmod 12 + 1
    let newMonth := if newMonth0 ≤ 0 then newMonth0 + 12 else newMonth0
    let newYear := if newMonth0 ≤ 0 then newYear0 - 1 else newYear0
    if newYear < 1 then none
    else
      let maxDay := getMonthLength newYear newMonth
      if maxDay < date.day then
        if clampDay then some ⟨newYear, newMonth, maxDay⟩ else none
      else some ⟨newYear, newMonth, date.day⟩

/-- `addYears`: only the year changes; the day is clamped (or the result
dropped) when day 30 of Dhu al-Hijjah does not exist in the target year.
The epoch throw is conflated with `none` as in `addMonths`. -/
def addYears (date : HijriDate) (years : Int) (clampDay : Bool) : Option HijriDate :=
  if years = 0 then some date
  else
    let newYear := date.year + years
    if newYear < 1 then none
    else
      let maxDay := getMonthLength newYear date.month
      if maxDay < date.day then
        if clampDay then some ⟨newYear, date.month, maxDay⟩ else none
      else some ⟨newYear, date.month, date.day⟩

/-- `hijriDayOfWeek`: `(floor(jdn + 1/2) mod 7 + 2) mod 7`, mapping the
epoch so that 0 is Saturday through 6 Friday. -/
def hijriDayOfWeek (d : HijriDate) : Int :=
  ((hijriToJulianDay d).tmod 7 + 2).tmod 7

/-- `dayOfWeek` from `hijri-date-math.ts`. -/
def dayOfWeek (d : HijriDate) : Int := hijriDayOfWeek d

/-- The counting loops of `nthWeekdayOfMonth`: the `k`-th element of
`days` satisfying `pred` (`k` at least 1). -/
def nthMatch (pred : Int → Bool) : List Int → Int → Option Int
  | [], _ => none
  | d :: ds, k =>
    if pred d then
      if k = 1 then some d else nthMatch pred ds (k - 1)
    else nthMatch pred ds k

/-- `nthWeekdayOfMonth`: scan forward from day 1 for positive `n`,
backward from the last day for negative `n`; `none` when the month has
too few matching weekdays (or `n = 0`). -/
def nthWeekdayOfMonth (year month weekday n : Int) : Option HijriDate :=
  if n = 0 then none
  else
    let monthLength := getMonthLength year month
    let days := (List.range monthLength.toNat).map fun i => Int.ofNat i + 1
    let pred := fun d => dayOfWeek ⟨year, month, d⟩ = weekday
    if 0 < n then (nthMatch pred days n).map fun d => (⟨year, month, d⟩ : HijriDate)
    else (nthMatch pred days.reverse (-n)).map fun d => (⟨year, month, d⟩ : HijriDate)

/-- `Frequency` enum (YEARLY = 0 through SECONDLY = 6). -/
inductive Frequency
  | YEARLY | MONTHLY | WEEKLY | DAILY | HOURLY | MINUTELY | SECONDLY
deriving DecidableEq, Repr

/-- `Skip` enum: strategy for days that do not exist in a month. -/
inductive Skip
  | OMIT | FORWARD | BACKWARD
deriving DecidableEq, Repr

/-- `WeekdaySpec`: a weekday (0 = Saturday … 6 = Friday) with an
optional ordinal `n`. -/
structure WeekdaySpec where
  weekday : Int
  n : Option Int
deriving DecidableEq, Repr

/-- The two calendar variant identifiers of `IslamicCalendarType`. -/
inductive CalendarType
  | umalqura | tbla
deriving DecidableEq, Repr

/-- `HijriRRuleParsedOptions`: the normalized options consumed by the
iterator.  Fields unused by any claim (`tzid`) are carried as data. -/
structure ParsedOptions where
  freq : Frequency
  dtstart : HijriDate
  interval : Int
  wkst : Int
  count : Option Int
  untilD : Option HijriDate
  tzid : Option String
  bysetpos : Option (List Int)
  bymonth : Option (List Int)
  bymonthday : Option (List Int)
  bynmonthday : Option (List Int)
  byyearday : Option (List Int)
  byweekno : Option (List Int)
  byweekday : Option (List WeekdaySpec)
  bynweekday : Option (List WeekdaySpec)
  byhour : Option (List Int)
  byminute : Option (List Int)
  bysecond : Option (List Int)
  skip : Skip
  calendar : CalendarType
deriving DecidableEq, Repr

/-- The truthiness test `options.x && options.x.length > 0` used
throughout the iterator: present and non-empty. -/
def hasSome {α : Type} (l : Option (List α)) : Bool :=
  match l with
  | some xs => !xs.isEmpty
  | none => false

/-- `tryCreateDate`: the skip-policy day resolver.  Days below 1 give no
candidate; days beyond the month length are dropped (OMIT), replaced by
the month's last day (BACKWARD) or by day 1 of the next month, rolling
the year after month 12 (FORWARD); otherwise the date is built, with the
construction guarded by the validity check (the source `try`/`catch`). -/
def tryCreateDate (year month day : Int) (strategy : Skip) : Option HijriDate :=
  let maxDay := getMonthLength year month
  if day < 1 then none
  else if maxDay < day then
    match strategy with
    | Skip.OMIT => none
    | Skip.BACKWARD => some ⟨year, month, maxDay⟩
    | Skip.FORWARD =>
      if month = 12 then some ⟨year + 1, 1, 1⟩ else some ⟨year, month + 1, 1⟩
  else if isValidHijriDate year month day then some ⟨year, month, day⟩ else none

/-- The month scan of `dayOfYearToDate`: note the `≤` comparison (the
converter loops use `<`). -/
def dayOfYearScan (year : Int) : List Int → Int → Option (Int × Int)
  | [], _ => none
  | m :: ms, rem =>
    if rem ≤ getMonthLength year m then some (m, rem)
    else dayOfYearScan year ms (rem - getMonthLength year m)

/-- `dayOfYearToDate` from `iterator.ts`: resolve a day-of-year into a
month and day by scanning cumulative month lengths; the `try`/`catch`
around the construction is modelled by the validity guard. -/
def dayOfYearToDate (year dayOfYear : Int) : Option HijriDate :=
  (dayOfYearScan year ((List.range 12).map fun i => Int.ofNat i + 1) dayOfYear).bind
    fun p => if isValidHijriDate year p.1 p.2 then some ⟨year, p.1, p.2⟩ else none

/-- Insertion step of the embedding of `dates.sort((a, b) => a.compare(b))`. -/
def insertDate (x : HijriDate) : List HijriDate → List HijriDate
  | [] => [x]
  | y :: ys => if x.compare y ≤ 0 then x :: y :: ys else y :: insertDate x ys

/-- Sorting by the `compare` comparator (insertion sort; the comparator
is a total order on the date triple, so the sorted result is the same
list the source sort produces). -/
def sortDates : List HijriDate → List HijriDate
  | [] => []
  | x :: xs => insertDate x (sortDates xs)

/-- The duplicate-removal pass of `sortAndDedupe`: drop elements equal
to the last kept one. -/
def dedupeAux (prev : HijriDate) : List HijriDate → List HijriDate
  | [] => []
  | y :: ys => if prev.equals y then dedupeAux prev ys else y :: dedupeAux y ys

/-- `sortAndDedupe`: sort ascending, then remove adjacent duplicates. -/
def sortAndDedupe (dates : List HijriDate) : List HijriDate :=
  match sortDates dates with
  | [] => []
  | x :: xs => x :: dedupeAux x xs

/-- `generateYearlyCandidates`.  Branch order and guards follow the
source: per `bymonth` month, the first present filter among positive
month days (through the skip resolver), negative month days, nth
weekdays, then plain weekdays applies, with the clamped cursor day as
fallback; without `bymonth`, positive month days apply to the cursor
month, else year days resolve, else the clamped fallback.  A plain
weekday list additionally post-filters only when `bymonth` is the
JavaScript value `undefined` (an empty array is truthy and suppresses
the post-filter). -/
def generateYearlyCandidates (periodStart : HijriDate) (o : ParsedOptions) :
    List HijriDate :=
  let year := periodStart.year
  let candidates :=
    if hasSome o.bymonth then
      (o.bymonth.getD []).flatMap fun month =>
        if hasSome o.bymonthday then
          (o.bymonthday.getD []).filterMap fun day => tryCreateDate year month day o.skip
        else if hasSome o.bynmonthday then
          (o.bynmonthday.getD []).filterMap fun nday =>
            let maxDay := getMonthLength year month
            let day := maxDay + nday + 1
            if 1 ≤ day then some (⟨year, month, day⟩ : HijriDate) else none
        else if hasSome o.bynweekday then
          (o.bynweekday.getD []).filterMap fun wd =>
            match wd.n with
            | some n => nthWeekdayOfMonth year month wd.weekday n
            | none => none
        else if hasSome o.byweekday then
          ((List.range (getMonthLength year month).toNat).map fun i => Int.ofNat i + 1).filterMap
            fun d =>
              let date : HijriDate := ⟨year, month, d⟩
              if (o.byweekday.getD []).any fun wd => wd.weekday = dayOfWeek date then
                some date
              else none
        else
          [⟨year, month, min periodStart.day (getMonthLength year month)⟩]
    else if hasSome o.bymonthday then
      let month := periodStart.month
      (o.bymonthday.getD []).filterMap fun day => tryCreateDate year month day o.skip
    else if hasSome o.byyearday then
      let yearLength := getYearLength year
      (o.byyearday.getD []).filterMap fun yday =>
        let actualDay := if 0 < yday then yday else yearLength + yday + 1
        if 1 ≤ actualDay ∧ actualDay ≤ yearLength then dayOfYearToDate year actualDay
        else none
    else
      [⟨year, periodStart.month, min periodStart.day (getMonthLength year periodStart.month)⟩]
  let candidates :=
    if hasSome o.byweekday ∧ o.bymonth = none then
      candidates.filter fun c => (o.byweekday.getD []).any fun wd => wd.weekday = dayOfWeek c
    else candidates
  sortAndDedupe candidates

/-- `generateMonthlyCandidates`: the per-month logic scoped to the
cursor's month. -/
def generateMonthlyCandidates (periodStart : HijriDate) (o : ParsedOptions) :
    List HijriDate :=
  let year := periodStart.year
  let month := periodStart.month
  let candidates :=
    if hasSome o.bymonthday then
      (o.bymonthday.getD []).filterMap fun day => tryCreateDate year month day o.skip
    else if hasSome o.bynmonthday then
      (o.bynmonthday.getD []).filterMap fun nday =>
        let maxDay := getMonthLength year month
        let day := maxDay + nday + 1
        if 1 ≤ day then some (⟨year, month, day⟩ : HijriDate) else none
    else if hasSome o.bynweekday then
      (o.bynweekday.getD []).filterMap fun wd =>
        match wd.n with
        | some n => nthWeekdayOfMonth year month wd.weekday n
        | none => none
    else if hasSome o.byweekday then
      ((List.range (getMonthLength year month).toNat).map fun i => Int.ofNat i + 1).filterMap
        fun d =>
          let date : HijriDate := ⟨year, month, d⟩
          if (o.byweekday.getD []).any fun wd => wd.weekday = dayOfWeek date then some date
          else none
    else
      [⟨year, month, min periodStart.day (getMonthLength year month)⟩]
  sortAndDedupe candidates

/-- `generateWeeklyCandidates`: matching days of the 7-day window, or
the cursor itself. -/
def generateWeeklyCandidates (periodStart : HijriDate) (o : ParsedOptions) :
    List HijriDate :=
  let candidates :=
    if hasSome o.byweekday then
      ((List.range 7).map fun i => addDays periodStart (Int.ofNat i)).filter fun date =>
        (o.byweekday.getD []).any fun wd => wd.weekday = dayOfWeek date
    else [periodStart]
  sortAndDedupe candidates

/-- `generateDailyCandidates`: the cursor, suppressed by any failing
`bymonth`, `bymonthday` or plain weekday filter. -/
def generateDailyCandidates (periodStart : HijriDate) (o : ParsedOptions) :
    List HijriDate :=
  if hasSome o.bymonth ∧ ¬ (o.bymonth.getD []).contains periodStart.month then []
  else if hasSome o.bymonthday ∧ ¬ (o.bymonthday.getD []).contains periodStart.day then []
  else if hasSome o.byweekday ∧
      ¬ (o.byweekday.getD []).any (fun wd => wd.weekday = dayOfWeek periodStart) then []
  else [periodStart]

/-- `generateCandidates`: dispatch on frequency; the sub-daily
frequencies pass the cursor through. -/
def generateCandidates (periodStart : HijriDate) (o : ParsedOptions) : List HijriDate :=
  match o.freq with
  | Frequency.YEARLY => generateYearlyCandidates periodStart o
  | Frequency.MONTHLY => generateMonthlyCandidates periodStart o
  | Frequency.WEEKLY => generateWeeklyCandidates periodStart o
  | Frequency.DAILY => generateDailyCandidates periodStart o
  | _ => [periodStart]

/-- `advancePeriod`: add one interval of the frequency's granularity.
The `|| addMonths(..., true)!` fallbacks of the source re-run the same
call (the clamping default is `true`), so a single call is taken; its
`none` case is unreachable and yields the junk date. -/
def advancePeriod (current : HijriDate) (freq : Frequency) (interval : Int) : HijriDate :=
  match freq with
  | Frequency.YEARLY => (addYears current interval true).getD ⟨0, 0, 0⟩
  | Frequency.MONTHLY => (addMonths current interval true).getD ⟨0, 0, 0⟩
  | Frequency.WEEKLY => addDays current (interval * 7)
  | Frequency.DAILY => addDays current interval
  | _ => addDays current 1

/-- `applyBySetPos`: 1-based positive indices from the start, negative
from the end; out-of-bounds positions select nothing. -/
def applyBySetPos (candidates : List HijriDate) (positions : List Int) : List HijriDate :=
  sortAndDedupe <| positions.filterMap fun pos =>
    let len : Int := candidates.length
    let index := if 0 < pos then pos - 1 else len + pos
    if 0 ≤ index ∧ index < len then candidates.get? index.toNat else none

/-- The iteration ceiling of `iterate`:
`options.count ? options.count * 100 : 100000`.  The condition is the
JavaScript truthiness of `options.count`, so a count of zero is falsy
and selects the fixed 100000 ceiling, not `0 * 100`. -/
def maxIterations (o : ParsedOptions) : Nat :=
  match o.count with
  | some c => if c = 0 then 100000 else c.toNat * 100
  | none => 100000

/-- The yield loop over one period's filtered candidates.  Returns the
yielded dates, the updated occurrence count, and whether the generator
returned (after a candidate beyond `until`, or on reaching `count`).
Candidates before `dtstart` are skipped. -/
def yieldLoop (o : ParsedOptions) : List HijriDate → Int → List HijriDate × Int × Bool
  | [], count => ([], count, false)
  | c :: rest, count =>
    if c.isBefore o.dtstart then yieldLoop o rest count
    else if (match o.untilD with | some u => c.isAfter u | none => false) then
      ([], count, true)
    else
      let count' := count + 1
      if (match o.count with | some n => decide (n ≤ count') | none => false) then
        ([c], count', true)
      else
        let r := yieldLoop o rest count'
        (c :: r.1, r.2.1, r.2.2)

/-- The edge-case block of `iterate` run when the advanced cursor passed
`until`: one further batch of candidates, yielding those between
`dtstart` and `until`, honouring `count`. -/
def untilTail (o : ParsedOptions) (u : HijriDate) : List HijriDate → Int → List HijriDate
  | [], _ => []
  | c :: rest, count =>
    if c.isOnOrBefore u ∧ c.isOnOrAfter o.dtstart then
      let count' := count + 1
      if (match o.count with | some n => decide (n ≤ count') | none => false) then [c]
      else c :: untilTail o u rest count'
    else untilTail o u rest count

/-- The while loop of `iterate`, with the remaining iteration budget as
fuel.  Returns the yielded dates and, when the budget ran out before the
generator returned, the final count and cursor (this lets a prefix of
the enumeration be composed with the remainder).  Note `bysetpos` is
applied whenever present — a JavaScript array is truthy even when
empty. -/
def iterAuxB (o : ParsedOptions) : Nat → Int → HijriDate → List HijriDate × Option (Int × HijriDate)
  | 0, count, current => ([], some (count, current))
  | fuel + 1, count, current =>
    let candidates := generateCandidates current o
    let filtered := match o.bysetpos with
      | some ps => applyBySetPos candidates ps
      | none => candidates
    let yl := yieldLoop o filtered count
    if yl.2.2 then (yl.1, none)
    else
      let current' := advancePeriod current o.freq o.interval
      match o.untilD with
      | some u =>
        if current'.isAfter u then
          (yl.1 ++ untilTail o u (generateCandidates current' o) yl.2.1, none)
        else
          let r := iterAuxB o fuel yl.2.1 current'
          (yl.1 ++ r.1, r.2)
      | none =>
        let r := iterAuxB o fuel yl.2.1 current'
        (yl.1 ++ r.1, r.2)

/-- `iterate`: the full enumeration, starting from `dtstart` with zero
occurrences and the documented iteration ceiling. -/
def iterate (o : ParsedOptions) : List HijriDate :=
  (iterAuxB o (maxIterations o) 0 o.dtstart).1

/-- The consuming loop of `HijriRRule.betweenHijri`, with the source's
break semantics: on meeting the upper boundary the loop breaks unless
the date equals `before` in inclusive mode, in which case the include
check still runs. -/
def betweenLoop (afterH beforeH : HijriDate) (inc : Bool) : List HijriDate → List HijriDate
  | [] => []
  | date :: rest =>
    if (if inc then date.isAfter beforeH else date.isOnOrAfter beforeH) ∧
        (¬ date.equals beforeH ∨ ¬ inc) then []
    else
      let isAfterStart := if inc then date.isOnOrAfter afterH else date.isAfter afterH
      let isBeforeEnd := if inc then date.isOnOrBefore beforeH else date.isBefore beforeH
      if isAfterStart ∧ isBeforeEnd then date :: betweenLoop afterH beforeH inc rest
      else betweenLoop afterH beforeH inc rest

/-- `HijriRRule.betweenHijri` (cache and callback omitted — they do not
affect the returned dates): filter the lazily pulled enumeration,
stopping at the upper boundary. -/
def betweenHijri (o : ParsedOptions) (afterH beforeH : HijriDate) (inc : Bool) :
    List HijriDate :=
  betweenLoop afterH beforeH inc (iterate o)

/-- A scalar-or-array input value, as accepted by the sparse options
shape. -/
inductive OneOrMany (α : Type)
  | one : α → OneOrMany α
  | many : List α → OneOrMany α
deriving DecidableEq, Repr

/-- `toArray` from `options-parser.ts`: absent stays absent, a scalar
becomes a one-element array, an array passes through (an empty array
stays an empty array). -/
def toArray {α : Type} : Option (OneOrMany α) → Option (List α)
  | none => none
  | some (OneOrMany.one a) => some [a]
  | some (OneOrMany.many l) => some l

/-- A weekday input entry: a plain weekday number, or a weekday
specification (the `HijriWeekday` class instance and the plain
`WeekdaySpec` object of the source behave identically here). -/
inductive WeekdayInput
  | num : Int → WeekdayInput
  | spec : WeekdaySpec → WeekdayInput
deriving DecidableEq, Repr

/-- `normalizeWeekdays`: scalars-or-arrays of weekday inputs become
arrays of `WeekdaySpec`. -/
def normalizeWeekdays : Option (OneOrMany WeekdayInput) → Option (List WeekdaySpec)
  | none => none
  | some v =>
    let values := match v with
      | OneOrMany.one a => [a]
      | OneOrMany.many l => l
    some (values.map fun w => match w with
      | WeekdayInput.num n => ⟨n, none⟩
      | WeekdayInput.spec s => s)

/-- `separateMonthDays`: split a month-day list into its positive and
negative entries, each list `none` when empty. -/
def separateMonthDays : Option (List Int) → Option (List Int) × Option (List Int)
  | none => (none, none)
  | some days =>
    let positive := days.filter fun d => 0 < d
    let negative := days.filter fun d => d < 0
    (if 0 < positive.length then some positive else none,
     if 0 < negative.length then some negative else none)

/-- `separateWeekdays`: split weekday specifications into those without
and with an ordinal, each list `none` when empty. -/
def separateWeekdays : Option (List WeekdaySpec) → Option (List WeekdaySpec) × Option (List WeekdaySpec)
  | none => (none, none)
  | some weekdays =>
    let simple := weekdays.filter fun wd => wd.n.isNone
    let nth := weekdays.filter fun wd => wd.n.isSome
    (if 0 < simple.length then some simple else none,
     if 0 < nth.length then some nth else none)

/-- The sparse options shape accepted by the normalizer
(`HijriRRulePartialOptions`).  The `dtstart`/`until` inputs are modelled
as Hijri dates (the Gregorian `Date` input branch routes through the
host-configured backend and is outside this embedding). -/
structure SparseOptions where
  freq : Frequency
  dtstart : Option HijriDate
  interval : Option Int
  wkst : Option Int
  count : Option Int
  untilD : Option HijriDate
  tzid : Option String
  bysetpos : Option (OneOrMany Int)
  bymonth : Option (OneOrMany Int)
  bymonthday : Option (OneOrMany Int)
  byyearday : Option (OneOrMany Int)
  byweekno : Option (OneOrMany Int)
  byweekday : Option (OneOrMany WeekdayInput)
  byhour : Option (OneOrMany Int)
  byminute : Option (OneOrMany Int)
  bysecond : Option (OneOrMany Int)
  skip : Option Skip
  calendar : Option CalendarType
deriving DecidableEq, Repr

/-- `validateOptions` as an acceptance predicate (the source throws on
the first violation; the acceptance set is identical).  Frequency
presence and the integrality checks are guaranteed by the types; the
range checks are as in the source.  `byweekno` and `byweekday` have no
checks in the source. -/
def validateOptions (o : SparseOptions) : Bool :=
  (match o.interval with | some i => decide (1 ≤ i) | none => true) &&
  (match o.count with | some c => decide (0 ≤ c) | none => true) &&
  ((toArray o.bymonth).getD []).all (fun m => decide (1 ≤ m ∧ m ≤ 12)) &&
  ((toArray o.bymonthday).getD []).all (fun d => decide (d ≠ 0 ∧ -30 ≤ d ∧ d ≤ 30)) &&
  ((toArray o.byyearday).getD []).all (fun d => decide (d ≠ 0 ∧ -355 ≤ d ∧ d ≤ 355)) &&
  ((toArray o.bysetpos).getD []).all (fun p => decide (p ≠ 0 ∧ -366 ≤ p ∧ p ≤ 366)) &&
  ((toArray o.byhour).getD []).all (fun h => decide (0 ≤ h ∧ h ≤ 23)) &&
  ((toArray o.byminute).getD []).all (fun m => decide (0 ≤ m ∧ m ≤ 59)) &&
  ((toArray o.bysecond).getD []).all (fun s => decide (0 ≤ s ∧ s ≤ 59))

/-- `parseOptions`: validate, then normalize.  `today` stands for the
current date converted to Hijri, used only when `dtstart` is absent.
Defaults: interval 1, week start Sunday (1), skip OMIT, calendar the
process-wide default (umalqura).  Month days split into sign-separated
lists; weekday inputs split into plain and ordinal lists. -/
def parseOptions (today : HijriDate) (o : SparseOptions) : Option ParsedOptions :=
  if validateOptions o then
    some {
      freq := o.freq
      dtstart := o.dtstart.getD today
      interval := o.interval.getD 1
      wkst := o.wkst.getD 1
      count := o.count
      untilD := o.untilD
      tzid := o.tzid
      bysetpos := toArray o.bysetpos
      bymonth := toArray o.bymonth
      bymonthday := (separateMonthDays (toArray o.bymonthday)).1
      bynmonthday := (separateMonthDays (toArray o.bymonthday)).2
      byyearday := toArray o.byyearday
      byweekno := toArray o.byweekno
      byweekday := (separateWeekdays (normalizeWeekdays o.byweekday)).1
      bynweekday := (separateWeekdays (normalizeWeekdays o.byweekday)).2
      byhour := toArray o.byhour
      byminute := toArray o.byminute
      bysecond := toArray o.bysecond
      skip := o.skip.getD Skip.OMIT
      calendar := o.calendar.getD CalendarType.umalqura }
  else none

/-- A `ParsedOptions` value read back through the sparse input shape, as
TypeScript structural typing does when the normalizer's output is fed to
the normalizer again: only the fields the sparse shape declares survive
— the negative month-day list and the ordinal weekday list are not among
them and are dropped. -/
def parsedAsSparse (p : ParsedOptions) : SparseOptions where
  freq := p.freq
  dtstart := some p.dtstart
  interval := some p.interval
  wkst := some p.wkst
  count := p.count
  untilD := p.untilD
  tzid := p.tzid
  bysetpos := p.bysetpos.map OneOrMany.many
  bymonth := p.bymonth.map OneOrMany.many
  bymonthday := p.bymonthday.map OneOrMany.many
  byyearday := p.byyearday.map OneOrMany.many
  byweekno := p.byweekno.map OneOrMany.many
  byweekday := p.byweekday.map fun l => OneOrMany.many (l.map WeekdayInput.spec)
  byhour := p.byhour.map OneOrMany.many
  byminute := p.byminute.map OneOrMany.many
  bysecond := p.bysecond.map OneOrMany.many
  skip := some p.skip
  calendar := some p.calendar

/-! ## Basic facts about the tabular calendar -/

theorem isLeapYear_eq_of_pos (y : Int) (hy : 1 ≤ y) :
    isLeapYear y = LEAP_YEARS_IN_CYCLE.contains ((y - 1) % 30 + 1) := by
  unfold isLeapYear
  have h1 : y.tmod 30 = y % 30 := Int.tmod_eq_emod (by omega) (by norm_num)
  have h2 : (if y.tmod 30 ≤ 0 then y.tmod 30 + 30 else y.tmod 30) = (y - 1) % 30 + 1 := by
    rw [h1]; split <;> omega
  simp only [h2]

theorem getMonthLength_congr {y y' : Int} (m : Int) (h : isLeapYear y = isLeapYear y') :
    getMonthLength y m = getMonthLength y' m := by
  unfold getMonthLength
  rw [h]

theorem monthLengthsOfYear_congr {y y' : Int} (h : isLeapYear y = isLeapYear y') :
    monthLengthsOfYear y = monthLengthsOfYear y' := by
  unfold monthLengthsOfYear
  exact List.map_congr_left fun a _ => getMonthLength_congr _ h

theorem monthLengthsOfYear_sum (y : Int) :
    (monthLengthsOfYear y).sum = if isLeapYear y then 355 else 354 := by
  cases h : isLeapYear y <;>
    simp [monthLengthsOfYear, show List.range 12 = [0,1,2,3,4,5,6,7,8,9,10,11] from rfl,
      getMonthLength, MONTH_DAYS, h]

theorem getMonthLength_pos (y m : Int) (h1 : 1 ≤ m) (h2 : m ≤ 12) :
    29 ≤ getMonthLength y m ∧ getMonthLength y m ≤ 30 := by
  unfold getMonthLength
  interval_cases m <;> cases h : isLeapYear y <;> simp [MONTH_DAYS, h]

/-- **C5** — Tabular leap cycle: for every year `y ≥ 1`, `isLeapYear y`
holds exactly when `y mod 30` (with remainder 0 treated as 30) is one of
{2, 5, 7, 10, 13, 16, 18, 21, 24, 26, 29}, equivalently exactly when
`getMonthLength y 12 = 30`; every other month has the fixed alternating
length (odd months 30 days, even months 29); and the twelve month
lengths of year `y` sum to 355 in leap years and 354 otherwise. -/
theorem tabular_leap_cycle (y : Int) (hy : 1 ≤ y) :
    (isLeapYear y = true ↔
      (if y % 30 = 0 then (30 : Int) else y % 30) ∈
        ([2, 5, 7, 10, 13, 16, 18, 21, 24, 26, 29] : List Int)) ∧
    (isLeapYear y = true ↔ getMonthLength y 12 = 30) ∧
    (∀ m : Int, 1 ≤ m → m ≤ 12 → m ≠ 12 →
      getMonthLength y m = if m % 2 = 1 then 30 else 29) ∧
    ((monthLengthsOfYear y).sum = if isLeapYear y then 355 else 354) := by
  refine ⟨?_, ?_, ?_, monthLengthsOfYear_sum y⟩
  · rw [isLeapYear_eq_of_pos y hy]
    have h2 : (if y % 30 = 0 then (30 : Int) else y % 30) = (y - 1) % 30 + 1 := by
      split <;> omega
    rw [h2]
    simp [LEAP_YEARS_IN_CYCLE]
  · rw [isLeapYear_eq_of_pos y hy]
    unfold getMonthLength
    have h3 : 0 ≤ (y - 1) % 30 ∧ (y - 1) % 30 < 30 := ⟨Int.emod_nonneg _ (by norm_num),
      Int.emod_lt_of_pos _ (by norm_num)⟩
    have h4 := isLeapYear_eq_of_pos y hy
    rcases h3 with ⟨h3a, h3b⟩
    set r := (y - 1) % 30 with hr
    interval_cases r <;> simp [LEAP_YEARS_IN_CYCLE, MONTH_DAYS, ← h4, isLeapYear_eq_of_pos y hy, ← hr]
  · intro m hm1 hm2 hm12
    unfold getMonthLength
    interval_cases m <;> simp_all [MONTH_DAYS]

/-- Witness for `tabular_leap_cycle` at `y = 1446`. -/
theorem tabular_leap_cycle_witness :
    (1 : Int) ≤ 1446 ∧
    ((isLeapYear 1446 = true ↔
      (if (1446 : Int) % 30 = 0 then (30 : Int) else 1446 % 30) ∈
        ([2, 5, 7, 10, 13, 16, 18, 21, 24, 26, 29] : List Int)) ∧
    (isLeapYear 1446 = true ↔ getMonthLength 1446 12 = 30) ∧
    (∀ m : Int, 1 ≤ m → m ≤ 12 → m ≠ 12 →
      getMonthLength 1446 m = if m % 2 = 1 then 30 else 29) ∧
    ((monthLengthsOfYear 1446).sum = if isLeapYear 1446 then 355 else 354)) :=
  ⟨by norm_num, tabular_leap_cycle 1446 (by norm_num)⟩

/-! ## C1: the skip-policy day resolver -/

/-- The MONTHLY `byMonthDay = 30` rule of the spec's skip-policy
scenarios: start (1446, 1, 30), count 3, tabular backend. -/
def monthly30Rule (skip : Skip) : ParsedOptions where
  freq := Frequency.MONTHLY
  dtstart := ⟨1446, 1, 30⟩
  interval := 1
  wkst := 1
  count := some 3
  untilD := none
  tzid := none
  bysetpos := none
  bymonth := none
  bymonthday := some [30]
  bynmonthday := none
  byyearday := none
  byweekno := none
  byweekday := none
  bynweekday := none
  byhour := none
  byminute := none
  bysecond := none
  skip := skip
  calendar := CalendarType.tbla

/-- **C1** — Skip-policy equivalence.  For every year `y ≥ 1`, month in
`[1, 12]` and requested day `d ≥ 1`: the resolver returns `(y, m, d)`
under every policy when `d` fits the month; when `d` exceeds the month
length it returns no candidate under OMIT, the month's last day under
BACKWARD, and day 1 of the following month (rolling the year after
month 12) under FORWARD.  Consequently the MONTHLY `byMonthDay = 30`
rule from (1446, 1, 30) with count 3 yields the three documented
sequences. -/
theorem skip_policy_equivalence (y m d : Int) (p : Skip)
    (hy : 1 ≤ y) (hm1 : 1 ≤ m) (hm2 : m ≤ 12) (hd : 1 ≤ d) :
    (d ≤ getMonthLength y m → tryCreateDate y m d p = some ⟨y, m, d⟩) ∧
    (getMonthLength y m < d →
      tryCreateDate y m d Skip.OMIT = none ∧
      tryCreateDate y m d Skip.BACKWARD = some ⟨y, m, getMonthLength y m⟩ ∧
      tryCreateDate y m d Skip.FORWARD =
        some (if m = 12 then (⟨y + 1, 1, 1⟩ : HijriDate) else ⟨y, m + 1, 1⟩)) ∧
    iterate (monthly30Rule Skip.OMIT) =
      [⟨1446, 1, 30⟩, ⟨1446, 3, 30⟩, ⟨1446, 5, 30⟩] ∧
    iterate (monthly30Rule Skip.BACKWARD) =
      [⟨1446, 1, 30⟩, ⟨1446, 2, 29⟩, ⟨1446, 3, 30⟩] ∧
    iterate (monthly30Rule Skip.FORWARD) =
      [⟨1446, 1, 30⟩, ⟨1446, 3, 1⟩, ⟨1446, 3, 30⟩] := by
  refine ⟨fun h => ?_, fun h => ⟨?_, ?_, ?_⟩, by decide, by decide, by decide⟩
  · unfold tryCreateDate
    rw [if_neg (by omega), if_neg (by omega), if_pos]
    simp [isValidHijriDate]
    omega
  · unfold tryCreateDate
    rw [if_neg (by omega), if_pos (by omega)]
  · unfold tryCreateDate
    rw [if_neg (by omega), if_pos (by omega)]
  · unfold tryCreateDate
    rw [if_neg (by omega), if_pos (by omega)]
    by_cases hm : m = 12 <;> simp [hm]

/-- Witness for `skip_policy_equivalence` at (1446, 2, 30), a 29-day
month. -/
theorem skip_policy_equivalence_witness :
    ((1 : Int) ≤ 1446 ∧ (1 : Int) ≤ 2 ∧ (2 : Int) ≤ 12 ∧ (1 : Int) ≤ 30) ∧
    (((30 : Int) ≤ getMonthLength 1446 2 → tryCreateDate 1446 2 30 Skip.OMIT = some ⟨1446, 2, 30⟩) ∧
    (getMonthLength 1446 2 < 30 →
      tryCreateDate 1446 2 30 Skip.OMIT = none ∧
      tryCreateDate 1446 2 30 Skip.BACKWARD = some ⟨1446, 2, getMonthLength 1446 2⟩ ∧
      tryCreateDate 1446 2 30 Skip.FORWARD =
        some (if (2 : Int) = 12 then (⟨1447, 1, 1⟩ : HijriDate) else ⟨1446, 3, 1⟩)) ∧
    iterate (monthly30Rule Skip.OMIT) =
      [⟨1446, 1, 30⟩, ⟨1446, 3, 30⟩, ⟨1446, 5, 30⟩] ∧
    iterate (monthly30Rule Skip.BACKWARD) =
      [⟨1446, 1, 30⟩, ⟨1446, 2, 29⟩, ⟨1446, 3, 30⟩] ∧
    iterate (monthly30Rule Skip.FORWARD) =
      [⟨1446, 1, 30⟩, ⟨1446, 3, 1⟩, ⟨1446, 3, 30⟩]) :=
  ⟨by norm_num, skip_policy_equivalence 1446 2 30 Skip.OMIT (by norm_num) (by norm_num)
    (by norm_num) (by norm_num)⟩

/-! ## C3: the no-filter fallback candidate -/

/-- A MONTHLY rule with no BY-filters from (1446, 1, 30), count 3,
tabular backend: the spec's fallback scenario. -/
def monthlyFallbackRule : ParsedOptions where
  freq := Frequency.MONTHLY
  dtstart := ⟨1446, 1, 30⟩
  interval := 1
  wkst := 1
  count := some 3
  untilD := none
  tzid := none
  bysetpos := none
  bymonth := none
  bymonthday := none
  bynmonthday := none
  byyearday := none
  byweekno := none
  byweekday := none
  bynweekday := none
  byhour := none
  byminute := none
  bysecond := none
  skip := Skip.OMIT
  calendar := CalendarType.tbla

/-- **C3** — the fallback candidate uses the advancing cursor's day, not
the start date's: the no-filter MONTHLY rule starting (1446, 1, 30)
yields day 29 in month 3 even though month 3 has 30 days, because the
cursor's day was clamped to 29 while crossing the 29-day month 2 (the
spec and the inline comment of the source promise the start date's
day-of-month, which would give (1446, 3, 30)). -/
theorem fallback_day_degrades :
    iterate monthlyFallbackRule =
      [⟨1446, 1, 30⟩, ⟨1446, 2, 29⟩, ⟨1446, 3, 29⟩] ∧
    getMonthLength 1446 3 = 30 := by
  exact ⟨by decide, by decide⟩

/-! ## C6: bounded enumeration -/

/-- A rule whose filters can never match on the tabular backend: YEARLY,
`byMonth = [2]`, `byMonthDay = [30]`, OMIT — month 2 always has 29
days.  No count and no until, so the fixed iteration ceiling governs. -/
def pathologicalRule : ParsedOptions where
  freq := Frequency.YEARLY
  dtstart := ⟨1446, 1, 1⟩
  interval := 1
  wkst := 1
  count := none
  untilD := none
  tzid := none
  bysetpos := none
  bymonth := some [2]
  bymonthday := some [30]
  bynmonthday := none
  byyearday := none
  byweekno := none
  byweekday := none
  bynweekday := none
  byhour := none
  byminute := none
  bysecond := none
  skip := Skip.OMIT
  calendar := CalendarType.tbla

theorem pathological_candidates_empty (cur : HijriDate) :
    generateCandidates cur pathologicalRule = [] := by
  show generateYearlyCandidates cur pathologicalRule = []
  unfold generateYearlyCandidates
  simp only [pathologicalRule]
  rfl

theorem pathological_iterAuxB (fuel : Nat) :
    ∀ count cur, (iterAuxB pathologicalRule fuel count cur).1 = [] := by
  induction fuel with
  | zero => intro count cur; rfl
  | succ n ih =>
    intro count cur
    show (iterAuxB pathologicalRule (n + 1) count cur).1 = []
    unfold iterAuxB
    simp only [pathological_candidates_empty]
    simpa [yieldLoop, pathologicalRule] using ih count (advancePeriod cur Frequency.YEARLY 1)

theorem yieldLoop_count_le (o : ParsedOptions) (n : Int) (hn : o.count = some n) :
    ∀ lst count, count < n →
      (yieldLoop o lst count).1.length ≤ (n - count).toNat ∧
      (yieldLoop o lst count).2.1 = count + (yieldLoop o lst count).1.length ∧
      ((yieldLoop o lst count).2.2 = false → (yieldLoop o lst count).2.1 < n) := by
  intro lst
  induction lst with
  | nil =>
    intro count hc
    refine ⟨by simp [yieldLoop], by simp [yieldLoop], fun _ => by simpa [yieldLoop] using hc⟩
  | cons c rest ih =>
    intro count hc
    by_cases hb : c.isBefore o.dtstart = true
    · simpa [yieldLoop, hb] using ih count hc
    · by_cases hu : (match o.untilD with | some u => c.isAfter u | none => false) = true
      · refine ⟨by simp [yieldLoop, hb, hu], by simp [yieldLoop, hb, hu], fun hf => ?_⟩
        simp [yieldLoop, hb, hu] at hf
      · by_cases hs : n ≤ count + 1
        · refine ⟨?_, ?_, fun hf => ?_⟩
          · simp [yieldLoop, hb, hu, hn, hs]; omega
          · simp [yieldLoop, hb, hu, hn, hs]
          · simp [yieldLoop, hb, hu, hn, hs] at hf
        · obtain ⟨h2a, h2b, h2c⟩ := ih (count + 1) (by omega)
          refine ⟨?_, ?_, fun hf => ?_⟩
          · simp [yieldLoop, hb, hu, hn, hs]; omega
          · simp [yieldLoop, hb, hu, hn, hs]; omega
          · simp [yieldLoop, hb, hu, hn, hs] at hf ⊢
            exact h2c hf

theorem untilTail_count_le (o : ParsedOptions) (n : Int) (hn : o.count = some n) (u : HijriDate) :
    ∀ lst count, count < n → (untilTail o u lst count).length ≤ (n - count).toNat := by
  intro lst
  induction lst with
  | nil => intro count hc; simp [untilTail]
  | cons c rest ih =>
    intro count hc
    rw [untilTail]
    by_cases hin : (c.isOnOrBefore u = true ∧ c.isOnOrAfter o.dtstart = true)
    · rw [if_pos hin]
      by_cases hs : n ≤ count + 1
      · rw [if_pos (by simp [hn, hs])]
        simp
        omega
      · rw [if_neg (by simp [hn, hs])]
        have h2 := ih (count + 1) (by omega)
        simp only [List.length_cons]
        omega
    · rw [if_neg hin]
      exact ih count hc

theorem iterAuxB_count_le (o : ParsedOptions) (n : Int) (hn : o.count = some n) :
    ∀ fuel count cur, count < n →
      (iterAuxB o fuel count cur).1.length ≤ (n - count).toNat := by
  intro fuel
  induction fuel with
  | zero => intro count cur hc; simp [iterAuxB]
  | succ f ih =>
    intro count cur hc
    rw [iterAuxB]
    simp only []
    set cands := generateCandidates cur o with hcands
    set filtered := (match o.bysetpos with
      | some ps => applyBySetPos cands ps
      | none => cands) with hfil
    obtain ⟨hy1, hy2, hy3⟩ := yieldLoop_count_le o n hn filtered count hc
    set yl := yieldLoop o filtered count with hyl
    by_cases hstop : yl.2.2 = true
    · simp [hstop]
      exact hy1
    · have hlt : yl.2.1 < n := hy3 (by simpa using hstop)
      simp only [hstop, if_false, Bool.false_eq_true]
      set cur' := advancePeriod cur o.freq o.interval with hcur'
      cases huntil : o.untilD with
      | some u =>
        simp only [huntil]
        by_cases hafter : cur'.isAfter u = true
        · have ht := untilTail_count_le o n hn u (generateCandidates cur' o) yl.2.1 hlt
          simp [hafter]
          omega
        · have hrec := ih yl.2.1 cur' hlt
          simp [hafter]
          omega
      | none =>
        have hrec := ih yl.2.1 cur' hlt
        simp only [huntil]
        simp
        omega

/-- **C6** — Bounded enumeration, amended.  The enumeration runs the
while loop with exactly the source's iteration ceiling
(`options.count ? options.count * 100 : 100000`): `count * 100` when a
non-zero count is set, and the fixed 100000 ceiling when the count is
absent — or zero, since a JavaScript `0` is falsy, so the original
claim's count-proportional bound does not apply to a set count of zero
(see the counterexample).  When a positive count is set the enumeration
yields at most that many dates; and for a pathological rule whose
filters never match (`byMonthDay = 30` restricted to month 2, which
always has 29 days on the tabular backend) the enumeration exhausts its
ceiling and silently ends with no yields and no error. -/
theorem bounded_enumeration :
    (∀ o : ParsedOptions, iterate o = (iterAuxB o (maxIterations o) 0 o.dtstart).1) ∧
    (∀ (o : ParsedOptions) (n : Int), o.count = some n → 0 < n →
      maxIterations o = n.toNat * 100) ∧
    (∀ o : ParsedOptions, o.count = none ∨ o.count = some 0 →
      maxIterations o = 100000) ∧
    (∀ (o : ParsedOptions) (n : Int), o.count = some n → 0 < n →
      (iterate o).length ≤ n.toNat) ∧
    iterate pathologicalRule = [] := by
  refine ⟨fun o => rfl, ?_, ?_, ?_,
    pathological_iterAuxB (maxIterations pathologicalRule) 0 pathologicalRule.dtstart⟩
  · intro o n hn hpos
    simp only [maxIterations, hn]
    rw [if_neg (by omega)]
  · intro o h
    rcases h with h | h <;> simp [maxIterations, h]
  · intro o n hn hpos
    have := iterAuxB_count_le o n hn (maxIterations o) 0 o.dtstart hpos
    simpa [iterate] using this

/-- Witness for `bounded_enumeration`: the count-3 OMIT rule has
ceiling 300 and yields at most three dates; the pathological rule has
no count and ceiling 100000. -/
theorem bounded_enumeration_witness :
    ((monthly30Rule Skip.OMIT).count = some 3 ∧ (0 : Int) < 3 ∧
      maxIterations (monthly30Rule Skip.OMIT) = (3 : Int).toNat * 100 ∧
      (iterate (monthly30Rule Skip.OMIT)).length ≤ (3 : Int).toNat) ∧
    (pathologicalRule.count = none ∧ maxIterations pathologicalRule = 100000) :=
  ⟨⟨rfl, by norm_num,
    bounded_enumeration.2.1 (monthly30Rule Skip.OMIT) 3 rfl (by norm_num),
    bounded_enumeration.2.2.2.1 (monthly30Rule Skip.OMIT) 3 rfl (by norm_num)⟩,
   ⟨rfl, bounded_enumeration.2.2.1 pathologicalRule (Or.inl rfl)⟩⟩

/-! ## C7, C8: the normalizer -/

theorem toArray_map_many {α : Type} (x : Option (List α)) :
    toArray (x.map OneOrMany.many) = x := by
  cases x <;> rfl

theorem separateMonthDays_fst_ne_nil (x : Option (List Int)) (l : List Int)
    (h : (separateMonthDays x).1 = some l) : l ≠ [] := by
  cases x with
  | none => simp [separateMonthDays] at h
  | some days =>
    simp only [separateMonthDays] at h
    split at h
    · cases h
      rename_i hlen
      intro hnil
      rw [hnil] at hlen
      simp at hlen
    · cases h

theorem separateMonthDays_snd_ne_nil (x : Option (List Int)) (l : List Int)
    (h : (separateMonthDays x).2 = some l) : l ≠ [] := by
  cases x with
  | none => simp [separateMonthDays] at h
  | some days =>
    simp only [separateMonthDays] at h
    split at h
    · cases h
      rename_i hlen
      intro hnil
      rw [hnil] at hlen
      simp at hlen
    · cases h

theorem separateWeekdays_fst_ne_nil (x : Option (List WeekdaySpec)) (l : List WeekdaySpec)
    (h : (separateWeekdays x).1 = some l) : l ≠ [] := by
  cases x with
  | none => simp [separateWeekdays] at h
  | some wds =>
    simp only [separateWeekdays] at h
    split at h
    · cases h
      rename_i hlen
      intro hnil
      rw [hnil] at hlen
      simp at hlen
    · cases h

theorem separateWeekdays_snd_ne_nil (x : Option (List WeekdaySpec)) (l : List WeekdaySpec)
    (h : (separateWeekdays x).2 = some l) : l ≠ [] := by
  cases x with
  | none => simp [separateWeekdays] at h
  | some wds =>
    simp only [separateWeekdays] at h
    split at h
    · cases h
      rename_i hlen
      intro hnil
      rw [hnil] at hlen
      simp at hlen
    · cases h

/-- The all-BY-arrays-absent sparse input except for an empty `bymonth`
array: accepted by validation, it flows through `toArray` unchanged. -/
def emptyByMonthInput : SparseOptions where
  freq := Frequency.YEARLY
  dtstart := some ⟨1446, 1, 1⟩
  interval := none
  wkst := none
  count := none
  untilD := none
  tzid := none
  bysetpos := none
  bymonth := some (OneOrMany.many [])
  bymonthday := none
  byyearday := none
  byweekno := none
  byweekday := none
  byhour := none
  byminute := none
  bysecond := none
  skip := none
  calendar := none

/-- **C8 counterexample** — the normalizer accepts an empty `bymonth`
array and stores it as a present empty array (`some []`), not as an
absent field: "every BY-part field of the result is either absent or a
non-empty array" fails at this input. -/
theorem normalized_empty_bymonth :
    (parseOptions ⟨1446, 1, 1⟩ emptyByMonthInput).map (fun p => p.bymonth) =
      some (some ([] : List Int)) := by
  decide

/-- **C8 (amended)** — Normalized-options invariant, as the code
enforces it: the frequency is always carried over; the sign-separated
month-day lists and the split plain/nth weekday lists are absent or
non-empty; every other BY field is the `toArray` image of its input —
absent exactly when the input field is absent, and an empty array
exactly when the input was an empty array. -/
theorem normalized_options_invariant (today : HijriDate) (o : SparseOptions)
    (p : ParsedOptions) (h : parseOptions today o = some p) :
    p.freq = o.freq ∧
    (∀ l, p.bymonthday = some l → l ≠ []) ∧
    (∀ l, p.bynmonthday = some l → l ≠ []) ∧
    (∀ l, p.byweekday = some l → l ≠ []) ∧
    (∀ l, p.bynweekday = some l → l ≠ []) ∧
    p.bysetpos = toArray o.bysetpos ∧
    p.bymonth = toArray o.bymonth ∧
    p.byyearday = toArray o.byyearday ∧
    p.byweekno = toArray o.byweekno ∧
    p.byhour = toArray o.byhour ∧
    p.byminute = toArray o.byminute ∧
    p.bysecond = toArray o.bysecond := by
  unfold parseOptions at h
  split at h
  · cases h
    refine ⟨rfl, ?_, ?_, ?_, ?_, rfl, rfl, rfl, rfl, rfl, rfl, rfl⟩
    · exact separateMonthDays_fst_ne_nil _
    · exact separateMonthDays_snd_ne_nil _
    · exact separateWeekdays_fst_ne_nil _
    · exact separateWeekdays_snd_ne_nil _
  · cases h

/-- The normalized form of `emptyByMonthInput`. -/
def emptyByMonthParsed : ParsedOptions where
  freq := Frequency.YEARLY
  dtstart := ⟨1446, 1, 1⟩
  interval := 1
  wkst := 1
  count := none
  untilD := none
  tzid := none
  bysetpos := none
  bymonth := some []
  bymonthday := none
  bynmonthday := none
  byyearday := none
  byweekno := none
  byweekday := none
  bynweekday := none
  byhour := none
  byminute := none
  bysecond := none
  skip := Skip.OMIT
  calendar := CalendarType.umalqura

/-- Witness for `normalized_options_invariant` at the empty-`bymonth`
input. -/
theorem normalized_options_invariant_witness :
    parseOptions ⟨1446, 1, 1⟩ emptyByMonthInput = some emptyByMonthParsed ∧
    emptyByMonthParsed.freq = emptyByMonthInput.freq :=
  ⟨by decide,
   (normalized_options_invariant ⟨1446, 1, 1⟩ emptyByMonthInput emptyByMonthParsed
      (by decide)).1⟩

/-- A sparse input with a negative month-day (last day of the month). -/
def negativeMonthDayInput : SparseOptions where
  freq := Frequency.MONTHLY
  dtstart := some ⟨1446, 1, 1⟩
  interval := none
  wkst := none
  count := none
  untilD := none
  tzid := none
  bysetpos := none
  bymonth := none
  bymonthday := some (OneOrMany.one (-1))
  byyearday := none
  byweekno := none
  byweekday := none
  byhour := none
  byminute := none
  bysecond := none
  skip := none
  calendar := none

/-- **C7 counterexample** — normalization is not a fixed point under
re-normalization: the sparse input shape has no negative month-day
field, so feeding the normalizer's output (which keeps `-1` in the
separated negative list) back into the normalizer loses it, and the
results differ. -/
theorem normalization_not_idempotent :
    ((parseOptions ⟨1446, 1, 1⟩ negativeMonthDayInput).bind fun p =>
        parseOptions ⟨1446, 1, 1⟩ (parsedAsSparse p)) ≠
      parseOptions ⟨1446, 1, 1⟩ negativeMonthDayInput := by
  decide

theorem separateMonthDays_of_pos (x : Option (List Int))
    (hp : ∀ d ∈ x.getD [], 0 < d) :
    (separateMonthDays x).2 = none ∧
    separateMonthDays ((separateMonthDays x).1) = ((separateMonthDays x).1, none) := by
  cases x with
  | none => exact ⟨rfl, rfl⟩
  | some days =>
    simp only [Option.getD_some] at hp
    have hfp : days.filter (fun d => 0 < d) = days :=
      List.filter_eq_self.mpr fun a ha => by simpa using hp a ha
    have hfn : days.filter (fun d => d < 0) = [] :=
      List.filter_eq_nil_iff.mpr fun a ha => by simpa using by have := hp a ha; omega
    constructor
    · simp [separateMonthDays, hfn]
    · cases days with
      | nil => simp [separateMonthDays]
      | cons d ds => simp [separateMonthDays, hfp, hfn]

theorem normalizeWeekdays_map_spec (x : Option (List WeekdaySpec)) :
    normalizeWeekdays (x.map fun l => OneOrMany.many (l.map WeekdayInput.spec)) = x := by
  cases x with
  | none => rfl
  | some l =>
    show normalizeWeekdays (some (OneOrMany.many (l.map WeekdayInput.spec))) = some l
    simp only [normalizeWeekdays, List.map_map, Option.some.injEq]
    induction l with
    | nil => rfl
    | cons a as ih => simpa using ih

theorem separateWeekdays_of_plain (x : Option (List WeekdaySpec))
    (hp : ∀ s ∈ x.getD [], s.n = none) :
    (separateWeekdays x).2 = none ∧
    separateWeekdays ((separateWeekdays x).1) = ((separateWeekdays x).1, none) := by
  cases x with
  | none => exact ⟨rfl, rfl⟩
  | some wds =>
    simp only [Option.getD_some] at hp
    have hfp : wds.filter (fun s => s.n.isNone) = wds :=
      List.filter_eq_self.mpr fun a ha => by simp [hp a ha]
    have hfn : wds.filter (fun s => s.n.isSome) = [] :=
      List.filter_eq_nil_iff.mpr fun a ha => by simp [hp a ha]
    constructor
    · simp [separateWeekdays, hfn]
    · cases wds with
      | nil => simp [separateWeekdays]
      | cons w ws => simp [separateWeekdays, hfp, hfn]

/-- **C7 (amended)** — Idempotent normalization on the inputs whose
normalized form survives the sparse shape: when the input has no
negative month-days and no ordinal weekdays, re-normalizing the
normalizer's output returns it unchanged, field by field. -/
theorem normalization_idempotent (today : HijriDate) (o : SparseOptions)
    (p : ParsedOptions) (h : parseOptions today o = some p)
    (hpos : ∀ d ∈ (toArray o.bymonthday).getD [], 0 < d)
    (hplain : ∀ s ∈ (normalizeWeekdays o.byweekday).getD [], s.n = none) :
    parseOptions today (parsedAsSparse p) = some p := by
  unfold parseOptions at h
  split at h
  case isFalse => cases h
  rename_i hv
  cases h
  unfold validateOptions at hv
  simp only [Bool.and_eq_true, List.all_eq_true, decide_eq_true_eq] at hv
  obtain ⟨⟨⟨⟨⟨⟨⟨⟨hvi, hvc⟩, hvm⟩, hvmd⟩, hvyd⟩, hvsp⟩, hvh⟩, hvmin⟩, hvs⟩ := hv
  have hmd := separateMonthDays_of_pos (toArray o.bymonthday) hpos
  have hwd := separateWeekdays_of_plain (normalizeWeekdays o.byweekday) hplain
  have hv' : validateOptions (parsedAsSparse {
      freq := o.freq
      dtstart := o.dtstart.getD today
      interval := o.interval.getD 1
      wkst := o.wkst.getD 1
      count := o.count
      untilD := o.untilD
      tzid := o.tzid
      bysetpos := toArray o.bysetpos
      bymonth := toArray o.bymonth
      bymonthday := (separateMonthDays (toArray o.bymonthday)).1
      bynmonthday := (separateMonthDays (toArray o.bymonthday)).2
      byyearday := toArray o.byyearday
      byweekno := toArray o.byweekno
      byweekday := (separateWeekdays (normalizeWeekdays o.byweekday)).1
      bynweekday := (separateWeekdays (normalizeWeekdays o.byweekday)).2
      byhour := toArray o.byhour
      byminute := toArray o.byminute
      bysecond := toArray o.bysecond
      skip := o.skip.getD Skip.OMIT
      calendar := o.calendar.getD CalendarType.umalqura }) = true := by
    unfold validateOptions
    simp only [parsedAsSparse, toArray_map_many, Bool.and_eq_true, List.all_eq_true,
      decide_eq_true_eq]
    refine ⟨⟨⟨⟨⟨⟨⟨⟨?_, hvc⟩, hvm⟩, ?_⟩, hvyd⟩, hvsp⟩, hvh⟩, hvmin⟩, hvs⟩
    · cases hoi : o.interval with
      | none => simp
      | some i =>
        rw [hoi] at hvi
        simpa using hvi
    · intro d hd
      cases harr : toArray o.bymonthday with
      | none => rw [harr] at hd; simp [separateMonthDays] at hd
      | some days =>
        rw [harr] at hd
        simp only [separateMonthDays] at hd
        split at hd
        · simp only [Option.getD_some] at hd
          have : d ∈ days := (List.mem_filter.mp hd).1
          exact hvmd d (by rw [harr]; simpa using this)
        · simp at hd
  rw [parseOptions, if_pos hv']
  simp only [parsedAsSparse, toArray_map_many, normalizeWeekdays_map_spec,
    Option.getD_some, Option.some.injEq, ParsedOptions.mk.injEq,
    hmd.1, hmd.2, hwd.1, hwd.2]


/-- A sparse input with a positive month-day only. -/
def positiveMonthDayInput : SparseOptions where
  freq := Frequency.MONTHLY
  dtstart := some ⟨1446, 1, 1⟩
  interval := none
  wkst := none
  count := none
  untilD := none
  tzid := none
  bysetpos := none
  bymonth := none
  bymonthday := some (OneOrMany.one 15)
  byyearday := none
  byweekno := none
  byweekday := none
  byhour := none
  byminute := none
  bysecond := none
  skip := none
  calendar := none

/-- The normalized form of `positiveMonthDayInput`. -/
def positiveMonthDayParsed : ParsedOptions where
  freq := Frequency.MONTHLY
  dtstart := ⟨1446, 1, 1⟩
  interval := 1
  wkst := 1
  count := none
  untilD := none
  tzid := none
  bysetpos := none
  bymonth := none
  bymonthday := some [15]
  bynmonthday := none
  byyearday := none
  byweekno := none
  byweekday := none
  bynweekday := none
  byhour := none
  byminute := none
  bysecond := none
  skip := Skip.OMIT
  calendar := CalendarType.umalqura

/-- Witness for `normalization_idempotent` at the positive month-day
input. -/
theorem normalization_idempotent_witness :
    parseOptions ⟨1446, 1, 1⟩ positiveMonthDayInput = some positiveMonthDayParsed ∧
    parseOptions ⟨1446, 1, 1⟩ (parsedAsSparse positiveMonthDayParsed) =
      some positiveMonthDayParsed :=
  ⟨by decide,
   normalization_idempotent ⟨1446, 1, 1⟩ positiveMonthDayInput positiveMonthDayParsed
     (by decide) (by decide) (by decide)⟩

/-! ## C2: the calendar round trips -/

/-- The century-correction identity behind the Gregorian branch of
`julianDayToGregorian`, at 400-year-cycle granularity: subtracting a
quarter of alpha realigns the day count by the number of skipped
century leap days. -/
theorem gregAlphaCore (r u : Int) (hr1 : 0 ≤ r) (hr2 : r ≤ 399) (hu1 : 1 ≤ u) (hu2 : u ≤ 366)
    (hleap : u = 366 → r % 4 = 3 ∧ (r % 100 ≠ 99 ∨ r = 399)) :
    (4*(365*r + r/4 - r/100 + u - 32045) - 7468865) / 146097 -
      ((4*(365*r + r/4 - r/100 + u - 32045) - 7468865) / 146097) / 4
    = r/100 - 39 := by
  have h : r/100 = 0 ∨ r/100 = 1 ∨ r/100 = 2 ∨ r/100 = 3 := by omega
  rcases h with h | h | h | h <;> omega

/-- The Julian-year extraction identity of the inverse conversion at
4-year-cycle granularity. -/
theorem gregYearCore (s u : Int) (hs1 : 0 ≤ s) (hs2 : s ≤ 3) (hu1 : 1 ≤ u) (hu2 : u ≤ 366)
    (hleap : u = 366 → s = 3) :
    (20*(365*s + u - 30559) - 2442) / 7305 = s - 84 := by
  omega

theorem fdiv_ediv (a : Int) (b : Int) (hb : 0 ≤ b) : a.fdiv b = a / b :=
  Int.fdiv_eq_ediv a hb

/-- Combination step: alpha minus its quarter, in 400-year terms. -/
theorem alpha_sub_quarter (yy u z : Int)
    (halpha : (4 * z - 7468865) / 146097 = 4 * (yy / 400) +
      (4 * (365 * (yy % 400) + (yy % 400) / 4 - (yy % 400) / 100 + u - 32045) - 7468865)
        / 146097)
    (haq : (4 * z - 7468865) / 146097 / 4 = yy / 400 +
      (4 * (365 * (yy % 400) + (yy % 400) / 4 - (yy % 400) / 100 + u - 32045) - 7468865)
        / 146097 / 4)
    (hA : (4*(365*(yy % 400) + (yy % 400)/4 - (yy % 400)/100 + u - 32045) - 7468865) / 146097 -
      ((4*(365*(yy % 400) + (yy % 400)/4 - (yy % 400)/100 + u - 32045) - 7468865) / 146097) / 4
    = (yy % 400)/100 - 39) :
    (4 * z - 7468865) / 146097 - (4 * z - 7468865) / 146097 / 4 =
      3 * (yy / 400) + (yy % 400) / 100 - 39 := by
  omega

set_option maxHeartbeats 2000000 in
/-- The inverse conversion evaluated on a Gregorian-branch Julian day
expressed through its March-based year `yy` and day-of-March-year
offset `u`: the result components in closed form. -/
theorem jdnToGreg_eq (z yy u : Int) (hz : 2299161 ≤ z) (hu1 : 1 ≤ u) (hu2 : u ≤ 366)
    (hzeq : z = 365 * yy + yy / 4 - yy / 100 + yy / 400 + u - 32045)
    (hleap : u = 366 → yy % 4 = 3 ∧ (yy % 100 ≠ 99 ∨ yy % 400 = 399)) :
    julianDayToGregorian z =
      (if 2 < (if ((u + 122) * 10000) / 306001 < 14 then ((u + 122) * 10000) / 306001 - 1
               else ((u + 122) * 10000) / 306001 - 13)
        then yy - 4800 else yy - 4799,
       (if ((u + 122) * 10000) / 306001 < 14 then ((u + 122) * 10000) / 306001 - 1
        else ((u + 122) * 10000) / 306001 - 13),
       u + 122 - (306001 * (((u + 122) * 10000) / 306001)) / 10000) := by
  have hA := gregAlphaCore (yy % 400) u (by omega) (by omega) hu1 hu2 (by omega)
  have hB := gregYearCore (yy % 4) u (by omega) (by omega) hu1 hu2 (by omega)
  clear hleap
  have h1 : yy / 4 = 100 * (yy / 400) + (yy % 400) / 4 := by omega
  have h2 : yy / 100 = 4 * (yy / 400) + (yy % 400) / 100 := by omega
  have hw : z = 146097 * (yy / 400) +
      (365 * (yy % 400) + (yy % 400) / 4 - (yy % 400) / 100 + u - 32045) := by omega
  have halpha : (4 * z - 7468865) / 146097 = 4 * (yy / 400) +
      (4 * (365 * (yy % 400) + (yy % 400) / 4 - (yy % 400) / 100 + u - 32045) - 7468865)
        / 146097 := by omega
  have haq : (4 * z - 7468865) / 146097 / 4 = yy / 400 +
      (4 * (365 * (yy % 400) + (yy % 400) / 4 - (yy % 400) / 100 + u - 32045) - 7468865)
        / 146097 / 4 := by omega
  have hAz : (4 * z - 7468865) / 146097 - (4 * z - 7468865) / 146097 / 4 =
      3 * (yy / 400) + (yy % 400) / 100 - 39 := alpha_sub_quarter yy u z halpha haq hA
  have h2' : (yy % 400) / 100 = yy / 100 - 4 * (yy / 400) := by omega
  have hjul : z + 1 + (4 * z - 7468865) / 146097 - (4 * z - 7468865) / 146097 / 4 =
      365 * yy + yy / 4 + u - 32083 := by omega
  have hb : z + 1 + (4 * z - 7468865) / 146097 - (4 * z - 7468865) / 146097 / 4 + 1524 =
      365 * yy + yy / 4 + u - 30559 := by omega
  have hcsplit : (20 * (365 * yy + yy / 4 + u - 30559) - 2442) / 7305 =
      4 * (yy / 4) + (20 * (365 * (yy % 4) + u - 30559) - 2442) / 7305 := by omega
  have hc : (20 * (365 * yy + yy / 4 + u - 30559) - 2442) / 7305 = yy - 84 := by omega
  have hs4 : yy % 4 = 0 ∨ yy % 4 = 1 ∨ yy % 4 = 2 ∨ yy % 4 = 3 := by omega
  have hbd : 365 * yy + yy / 4 + u - 30559 - (1461 * (yy - 84)) / 4 = u + 122 := by
    rcases hs4 with h | h | h | h <;> omega
  simp only [julianDayToGregorian,
    fdiv_ediv _ 4 (by norm_num), fdiv_ediv _ 146097 (by norm_num),
    fdiv_ediv _ 7305 (by norm_num), fdiv_ediv _ 306001 (by norm_num),
    fdiv_ediv _ 10000 (by norm_num)]
  rw [if_pos hz, hb, hc, hbd]
  simp only [Prod.mk.injEq, and_true]
  split_ifs <;> omega


set_option maxHeartbeats 4000000 in
/-- Gregorian round trip on the Gregorian branch (Julian day at least
2299161, i.e. dates from 1582-10-15 on): converting a valid proleptic
Gregorian date to its Julian day and back reproduces it. -/
theorem gregorian_round_trip (y m d : Int) (hv : isValidGregorianDate y m d = true)
    (hz : 2299161 ≤ gregorianToJulianDay y m d) :
    julianDayToGregorian (gregorianToJulianDay y m d) = (y, m, d) := by
  simp only [isValidGregorianDate, decide_eq_true_eq] at hv
  obtain ⟨hm1, hm2, hd1, hd2⟩ := hv
  interval_cases m
  · have hzeq : gregorianToJulianDay y 1 d =
        365 * (y + 4799) + (y + 4799) / 4 - (y + 4799) / 100 + (y + 4799) / 400 +
          (306 + d) - 32045 := by
      simp only [gregorianToJulianDay, fdiv_ediv _ 12 (by norm_num),
        fdiv_ediv _ 5 (by norm_num), fdiv_ediv _ 4 (by norm_num),
        fdiv_ediv _ 100 (by norm_num), fdiv_ediv _ 400 (by norm_num)]
      omega
    rw [hzeq] at hz ⊢
    norm_num at hd2
    rw [jdnToGreg_eq _ (y + 4799) (306 + d) hz (by omega) (by omega) rfl (by omega)]
    have he : (306 + d + 122) * 10000 / 306001 = 14 := by omega
    rw [he]
    have hq : (306001 * (14:Int)) / 10000 = 428 := by omega
    rw [hq]
    simp only [Prod.mk.injEq]
    norm_num
    all_goals omega
  · have hzeq : gregorianToJulianDay y 2 d =
        365 * (y + 4799) + (y + 4799) / 4 - (y + 4799) / 100 + (y + 4799) / 400 +
          (337 + d) - 32045 := by
      simp only [gregorianToJulianDay, fdiv_ediv _ 12 (by norm_num),
        fdiv_ediv _ 5 (by norm_num), fdiv_ediv _ 4 (by norm_num),
        fdiv_ediv _ 100 (by norm_num), fdiv_ediv _ 400 (by norm_num)]
      omega
    rw [hzeq] at hz ⊢
    have hy0 : (0:Int) ≤ y := by omega
    norm_num at hd2
    simp only [Int.tmod_eq_emod hy0 (by norm_num : (0:Int) ≤ 4),
      Int.tmod_eq_emod hy0 (by norm_num : (0:Int) ≤ 100),
      Int.tmod_eq_emod hy0 (by norm_num : (0:Int) ≤ 400)] at hd2
    split at hd2 <;> rename_i hly
    · have hlp : 337 + d = 366 →
          (y + 4799) % 4 = 3 ∧ ((y + 4799) % 100 ≠ 99 ∨ (y + 4799) % 400 = 399) := by
        clear hz hzeq
        omega
      have he : (337 + d + 122) * 10000 / 306001 = 15 := by
        clear hz hzeq
        omega
      rw [jdnToGreg_eq _ (y + 4799) (337 + d) hz (by omega) (by omega) rfl hlp]
      rw [he]
      have hq : (306001 * (15:Int)) / 10000 = 459 := by omega
      rw [hq]
      simp only [Prod.mk.injEq]
      norm_num
      all_goals omega
    · have hlp : 337 + d = 366 →
          (y + 4799) % 4 = 3 ∧ ((y + 4799) % 100 ≠ 99 ∨ (y + 4799) % 400 = 399) := by
        clear hz hzeq
        omega
      have he : (337 + d + 122) * 10000 / 306001 = 15 := by
        clear hz hzeq
        omega
      rw [jdnToGreg_eq _ (y + 4799) (337 + d) hz (by omega) (by omega) rfl hlp]
      rw [he]
      have hq : (306001 * (15:Int)) / 10000 = 459 := by omega
      rw [hq]
      simp only [Prod.mk.injEq]
      norm_num
      all_goals omega
  · have hzeq : gregorianToJulianDay y 3 d =
        365 * (y + 4800) + (y + 4800) / 4 - (y + 4800) / 100 + (y + 4800) / 400 +
          (0 + d) - 32045 := by
      simp only [gregorianToJulianDay, fdiv_ediv _ 12 (by norm_num),
        fdiv_ediv _ 5 (by norm_num), fdiv_ediv _ 4 (by norm_num),
        fdiv_ediv _ 100 (by norm_num), fdiv_ediv _ 400 (by norm_num)]
      omega
    rw [hzeq] at hz ⊢
    norm_num at hd2
    rw [jdnToGreg_eq _ (y + 4800) (0 + d) hz (by omega) (by omega) rfl (by omega)]
    have he : (0 + d + 122) * 10000 / 306001 = 4 := by omega
    rw [he]
    have hq : (306001 * (4:Int)) / 10000 = 122 := by omega
    rw [hq]
    simp only [Prod.mk.injEq]
    norm_num
  · have hzeq : gregorianToJulianDay y 4 d =
        365 * (y + 4800) + (y + 4800) / 4 - (y + 4800) / 100 + (y + 4800) / 400 +
          (31 + d) - 32045 := by
      simp only [gregorianToJulianDay, fdiv_ediv _ 12 (by norm_num),
        fdiv_ediv _ 5 (by norm_num), fdiv_ediv _ 4 (by norm_num),
        fdiv_ediv _ 100 (by norm_num), fdiv_ediv _ 400 (by norm_num)]
      omega
    rw [hzeq] at hz ⊢
    norm_num at hd2
    rw [jdnToGreg_eq _ (y + 4800) (31 + d) hz (by omega) (by omega) rfl (by omega)]
    have he : (31 + d + 122) * 10000 / 306001 = 5 := by omega
    rw [he]
    have hq : (306001 * (5:Int)) / 10000 = 153 := by omega
    rw [hq]
    simp only [Prod.mk.injEq]
    norm_num
    all_goals omega
  · have hzeq : gregorianToJulianDay y 5 d =
        365 * (y + 4800) + (y + 4800) / 4 - (y + 4800) / 100 + (y + 4800) / 400 +
          (61 + d) - 32045 := by
      simp only [gregorianToJulianDay, fdiv_ediv _ 12 (by norm_num),
        fdiv_ediv _ 5 (by norm_num), fdiv_ediv _ 4 (by norm_num),
        fdiv_ediv _ 100 (by norm_num), fdiv_ediv _ 400 (by norm_num)]
      omega
    rw [hzeq] at hz ⊢
    norm_num at hd2
    rw [jdnToGreg_eq _ (y + 4800) (61 + d) hz (by omega) (by omega) rfl (by omega)]
    have he : (61 + d + 122) * 10000 / 306001 = 6 := by omega
    rw [he]
    have hq : (306001 * (6:Int)) / 10000 = 183 := by omega
    rw [hq]
    simp only [Prod.mk.injEq]
    norm_num
    all_goals omega
  · have hzeq : gregorianToJulianDay y 6 d =
        365 * (y + 4800) + (y + 4800) / 4 - (y + 4800) / 100 + (y + 4800) / 400 +
          (92 + d) - 32045 := by
      simp only [gregorianToJulianDay, fdiv_ediv _ 12 (by norm_num),
        fdiv_ediv _ 5 (by norm_num), fdiv_ediv _ 4 (by norm_num),
        fdiv_ediv _ 100 (by norm_num), fdiv_ediv _ 400 (by norm_num)]
      omega
    rw [hzeq] at hz ⊢
    norm_num at hd2
    rw [jdnToGreg_eq _ (y + 4800) (92 + d) hz (by omega) (by omega) rfl (by omega)]
    have he : (92 + d + 122) * 10000 / 306001 = 7 := by omega
    rw [he]
    have hq : (306001 * (7:Int)) / 10000 = 214 := by omega
    rw [hq]
    simp only [Prod.mk.injEq]
    norm_num
    all_goals omega
  · have hzeq : gregorianToJulianDay y 7 d =
        365 * (y + 4800) + (y + 4800) / 4 - (y + 4800) / 100 + (y + 4800) / 400 +
          (122 + d) - 32045 := by
      simp only [gregorianToJulianDay, fdiv_ediv _ 12 (by norm_num),
        fdiv_ediv _ 5 (by norm_num), fdiv_ediv _ 4 (by norm_num),
        fdiv_ediv _ 100 (by norm_num), fdiv_ediv _ 400 (by norm_num)]
      omega
    rw [hzeq] at hz ⊢
    norm_num at hd2
    rw [jdnToGreg_eq _ (y + 4800) (122 + d) hz (by omega) (by omega) rfl (by omega)]
    have he : (122 + d + 122) * 10000 / 306001 = 8 := by omega
    rw [he]
    have hq : (306001 * (8:Int)) / 10000 = 244 := by omega
    rw [hq]
    simp only [Prod.mk.injEq]
    norm_num
    all_goals omega
  · have hzeq : gregorianToJulianDay y 8 d =
        365 * (y + 4800) + (y + 4800) / 4 - (y + 4800) / 100 + (y + 4800) / 400 +
          (153 + d) - 32045 := by
      simp only [gregorianToJulianDay, fdiv_ediv _ 12 (by norm_num),
        fdiv_ediv _ 5 (by norm_num), fdiv_ediv _ 4 (by norm_num),
        fdiv_ediv _ 100 (by norm_num), fdiv_ediv _ 400 (by norm_num)]
      omega
    rw [hzeq] at hz ⊢
    norm_num at hd2
    rw [jdnToGreg_eq _ (y + 4800) (153 + d) hz (by omega) (by omega) rfl (by omega)]
    have he : (153 + d + 122) * 10000 / 306001 = 9 := by omega
    rw [he]
    have hq : (306001 * (9:Int)) / 10000 = 275 := by omega
    rw [hq]
    simp only [Prod.mk.injEq]
    norm_num
    all_goals omega
  · have hzeq : gregorianToJulianDay y 9 d =
        365 * (y + 4800) + (y + 4800) / 4 - (y + 4800) / 100 + (y + 4800) / 400 +
          (184 + d) - 32045 := by
      simp only [gregorianToJulianDay, fdiv_ediv _ 12 (by norm_num),
        fdiv_ediv _ 5 (by norm_num), fdiv_ediv _ 4 (by norm_num),
        fdiv_ediv _ 100 (by norm_num), fdiv_ediv _ 400 (by norm_num)]
      omega
    rw [hzeq] at hz ⊢
    norm_num at hd2
    rw [jdnToGreg_eq _ (y + 4800) (184 + d) hz (by omega) (by omega) rfl (by omega)]
    have he : (184 + d + 122) * 10000 / 306001 = 10 := by omega
    rw [he]
    have hq : (306001 * (10:Int)) / 10000 = 306 := by omega
    rw [hq]
    simp only [Prod.mk.injEq]
    norm_num
    all_goals omega
  · have hzeq : gregorianToJulianDay y 10 d =
        365 * (y + 4800) + (y + 4800) / 4 - (y + 4800) / 100 + (y + 4800) / 400 +
          (214 + d) - 32045 := by
      simp only [gregorianToJulianDay, fdiv_ediv _ 12 (by norm_num),
        fdiv_ediv _ 5 (by norm_num), fdiv_ediv _ 4 (by norm_num),
        fdiv_ediv _ 100 (by norm_num), fdiv_ediv _ 400 (by norm_num)]
      omega
    rw [hzeq] at hz ⊢
    norm_num at hd2
    rw [jdnToGreg_eq _ (y + 4800) (214 + d) hz (by omega) (by omega) rfl (by omega)]
    have he : (214 + d + 122) * 10000 / 306001 = 11 := by omega
    rw [he]
    have hq : (306001 * (11:Int)) / 10000 = 336 := by omega
    rw [hq]
    simp only [Prod.mk.injEq]
    norm_num
    all_goals omega
  · have hzeq : gregorianToJulianDay y 11 d =
        365 * (y + 4800) + (y + 4800) / 4 - (y + 4800) / 100 + (y + 4800) / 400 +
          (245 + d) - 32045 := by
      simp only [gregorianToJulianDay, fdiv_ediv _ 12 (by norm_num),
        fdiv_ediv _ 5 (by norm_num), fdiv_ediv _ 4 (by norm_num),
        fdiv_ediv _ 100 (by norm_num), fdiv_ediv _ 400 (by norm_num)]
      omega
    rw [hzeq] at hz ⊢
    norm_num at hd2
    rw [jdnToGreg_eq _ (y + 4800) (245 + d) hz (by omega) (by omega) rfl (by omega)]
    have he : (245 + d + 122) * 10000 / 306001 = 12 := by omega
    rw [he]
    have hq : (306001 * (12:Int)) / 10000 = 367 := by omega
    rw [hq]
    simp only [Prod.mk.injEq]
    norm_num
    all_goals omega
  · have hzeq : gregorianToJulianDay y 12 d =
        365 * (y + 4800) + (y + 4800) / 4 - (y + 4800) / 100 + (y + 4800) / 400 +
          (275 + d) - 32045 := by
      simp only [gregorianToJulianDay, fdiv_ediv _ 12 (by norm_num),
        fdiv_ediv _ 5 (by norm_num), fdiv_ediv _ 4 (by norm_num),
        fdiv_ediv _ 100 (by norm_num), fdiv_ediv _ 400 (by norm_num)]
      omega
    rw [hzeq] at hz ⊢
    norm_num at hd2
    rw [jdnToGreg_eq _ (y + 4800) (275 + d) hz (by omega) (by omega) rfl (by omega)]
    have he : (275 + d + 122) * 10000 / 306001 = 13 := by omega
    rw [he]
    have hq : (306001 * (13:Int)) / 10000 = 397 := by omega
    rw [hq]
    simp only [Prod.mk.injEq]
    norm_num
    all_goals omega


/-! ### The Hijri round trip -/

theorem scanList_append (b : Int) (bs : List Int) :
    ∀ (as : List Int) (s : Int), 0 ≤ s → s < b → (∀ a ∈ as, 0 ≤ a) →
      scanList (as ++ b :: bs) (as.sum + s) = (some ((as.length : Int) + 1), s) := by
  intro as
  induction as with
  | nil =>
    intro s h0 hb _
    simp only [List.nil_append, List.sum_nil, List.length_nil, Nat.cast_zero, zero_add]
    rw [scanList, if_pos hb]
  | cons a as ih =>
    intro s h0 hb has
    have ha : 0 ≤ a := has a (by simp)
    have has' : ∀ x ∈ as, 0 ≤ x := fun x hx => has x (by simp [hx])
    have hsum : 0 ≤ as.sum := List.sum_nonneg has'
    rw [List.cons_append, scanList, if_neg (by simp only [List.sum_cons]; omega)]
    have harg : (a :: as).sum + s - a = as.sum + s := by simp [List.sum_cons]; ring
    rw [harg, ih s h0 hb has']
    refine Prod.ext ?_ rfl
    show (some ((as.length : Int) + 1)).map (· + 1) = some (((a :: as).length : Int) + 1)
    simp only [Option.map_some', List.length_cons, Option.some.injEq]
    push_cast
    ring

theorem scanList_spec (l : List Int) (k : Nat) (hk : k < l.length) (s : Int)
    (h0 : 0 ≤ s) (hs : s < l[k]) (hnn : ∀ a ∈ l, 0 ≤ a) :
    scanList l ((l.take k).sum + s) = (some ((k : Int) + 1), s) := by
  have hdecomp : l = l.take k ++ l[k] :: l.drop (k + 1) := by
    conv_lhs => rw [← List.take_append_drop k l]
    rw [List.drop_eq_getElem_cons hk]
  have h := scanList_append l[k] (l.drop (k + 1)) (l.take k) s h0 hs
    (fun a ha => hnn a (List.mem_of_mem_take ha))
  rw [← hdecomp] at h
  rw [h, List.length_take]
  congr 2
  omega

theorem take_sum_add_lt (l : List Int) (k : Nat) (hk : k < l.length)
    (hnn : ∀ a ∈ l, 0 ≤ a) (s : Int) (hs : s < l[k]) :
    (l.take k).sum + s < l.sum := by
  have hdecomp : l = l.take k ++ l[k] :: l.drop (k + 1) := by
    conv_lhs => rw [← List.take_append_drop k l]
    rw [List.drop_eq_getElem_cons hk]
  have hdropnn : 0 ≤ (l.drop (k + 1)).sum :=
    List.sum_nonneg fun a ha => hnn a (List.mem_of_mem_drop ha)
  conv_rhs => rw [hdecomp]
  rw [List.sum_append, List.sum_cons]
  omega

theorem intOfNat_eq_cast (i : Nat) : Int.ofNat i = (i : Int) := rfl

theorem yearLengthsOfCycle_sum : yearLengthsOfCycle.sum = 10631 := by decide

theorem yearLengthsOfCycle_length : yearLengthsOfCycle.length = 30 := by
  rw [yearLengthsOfCycle, List.length_map, List.length_range]

theorem yearLengthsOfCycle_nonneg : ∀ a ∈ yearLengthsOfCycle, 0 ≤ a := by decide

theorem monthLengthsOfYear_length (year : Int) : (monthLengthsOfYear year).length = 12 := by
  rw [monthLengthsOfYear, List.length_map, List.length_range]

theorem monthLengthsOfYear_nonneg (year : Int) : ∀ a ∈ monthLengthsOfYear year, 0 ≤ a := by
  intro a ha
  simp only [monthLengthsOfYear, List.mem_map, List.mem_range] at ha
  obtain ⟨i, hi, rfl⟩ := ha
  rw [intOfNat_eq_cast]
  have := getMonthLength_pos year ((i : Int) + 1) (by omega) (by omega)
  omega

theorem monthLengthsOfYear_getElem (year : Int) (i : Nat) (hi : i < 12) :
    (monthLengthsOfYear year).get ⟨i, by rw [monthLengthsOfYear_length]; omega⟩ =
      getMonthLength year (Int.ofNat i + 1) := by
  simp only [List.get_eq_getElem, monthLengthsOfYear, List.getElem_map, List.getElem_range]

theorem yearLengthsOfCycle_getElem (i : Nat) (hi : i < 30) :
    yearLengthsOfCycle.get ⟨i, by rw [yearLengthsOfCycle_length]; omega⟩ =
      yearLengthInCycle (Int.ofNat i + 1) := by
  simp only [List.get_eq_getElem, yearLengthsOfCycle, List.getElem_map, List.getElem_range]

theorem yearLength_sum_eq_cycle (y : Int) (hy : 1 ≤ y) :
    (monthLengthsOfYear y).sum = yearLengthInCycle ((y - 1) % 30 + 1) := by
  rw [monthLengthsOfYear_sum, yearLengthInCycle, isLeapYear_eq_of_pos y hy]

theorem within_year_spec (y m d : Int) (hm1 : 1 ≤ m) (hm2 : m ≤ 12)
    (hd1 : 1 ≤ d) (hd2 : d ≤ getMonthLength y m) :
    scanList (monthLengthsOfYear y) (daysBeforeMonthInYear y m + (d - 1)) = (some m, d - 1) ∧
    0 ≤ daysBeforeMonthInYear y m + (d - 1) ∧
    daysBeforeMonthInYear y m + (d - 1) < (monthLengthsOfYear y).sum := by
  have hk : (m - 1).toNat < (monthLengthsOfYear y).length := by
    rw [monthLengthsOfYear_length]; omega
  have hget : (monthLengthsOfYear y).get ⟨(m - 1).toNat, hk⟩ = getMonthLength y m := by
    rw [monthLengthsOfYear_getElem y (m - 1).toNat (by omega), intOfNat_eq_cast]
    congr 1
    omega
  have hd2' : d - 1 < (monthLengthsOfYear y).get ⟨(m - 1).toNat, hk⟩ := by rw [hget]; omega
  have hnn := monthLengthsOfYear_nonneg y
  have htake0 : 0 ≤ ((monthLengthsOfYear y).take (m - 1).toNat).sum :=
    List.sum_nonneg fun a ha => hnn a (List.mem_of_mem_take ha)
  refine ⟨?_, ?_, ?_⟩
  · have h := scanList_spec (monthLengthsOfYear y) (m - 1).toNat hk (d - 1) (by omega) hd2' hnn
    rw [show (((m - 1).toNat : Int) + 1) = m from by omega] at h
    exact h
  · show 0 ≤ ((monthLengthsOfYear y).take (m - 1).toNat).sum + (d - 1)
    omega
  · exact take_sum_add_lt (monthLengthsOfYear y) (m - 1).toNat hk hnn (d - 1) hd2'

theorem within_cycle_spec (y : Int) (hy : 1 ≤ y) (W : Int) (hW0 : 0 ≤ W)
    (hWlt : W < (monthLengthsOfYear y).sum) :
    scanList yearLengthsOfCycle (daysInYearsOfCycle ((y - 1) % 30).toNat + W) =
      (some ((((y - 1) % 30).toNat : Int) + 1), W) ∧
    0 ≤ daysInYearsOfCycle ((y - 1) % 30).toNat + W ∧
    daysInYearsOfCycle ((y - 1) % 30).toNat + W < 10631 := by
  have hk30 : ((y - 1) % 30).toNat < 30 := by
    have h1 := Int.emod_lt_of_pos (y - 1) (show (0 : Int) < 30 by norm_num)
    have h2 := Int.emod_nonneg (y - 1) (show (30 : Int) ≠ 0 by norm_num)
    omega
  have hlen : ((y - 1) % 30).toNat < yearLengthsOfCycle.length := by
    rw [yearLengthsOfCycle_length]; exact hk30
  have hget : yearLengthsOfCycle.get ⟨((y - 1) % 30).toNat, hlen⟩ =
      yearLengthInCycle ((y - 1) % 30 + 1) := by
    rw [yearLengthsOfCycle_getElem _ hk30, intOfNat_eq_cast]
    congr 1
    have h2 := Int.emod_nonneg (y - 1) (show (30 : Int) ≠ 0 by norm_num)
    omega
  have hWlt' : W < yearLengthsOfCycle.get ⟨((y - 1) % 30).toNat, hlen⟩ := by
    rw [hget, ← yearLength_sum_eq_cycle y hy]; exact hWlt
  have hnn := yearLengthsOfCycle_nonneg
  have htake0 : 0 ≤ (yearLengthsOfCycle.take ((y - 1) % 30).toNat).sum :=
    List.sum_nonneg fun a ha => hnn a (List.mem_of_mem_take ha)
  refine ⟨?_, ?_, ?_⟩
  · exact scanList_spec yearLengthsOfCycle ((y - 1) % 30).toNat hlen W hW0 hWlt' hnn
  · show 0 ≤ (yearLengthsOfCycle.take ((y - 1) % 30).toNat).sum + W
    omega
  · have h := take_sum_add_lt yearLengthsOfCycle ((y - 1) % 30).toNat hlen hnn W hWlt'
    rw [yearLengthsOfCycle_sum] at h
    exact h

theorem julianDay_hijri_round_trip (y m d : Int) (hv : isValidHijriDate y m d = true) :
    julianDayToHijri (hijriToJulianDay ⟨y, m, d⟩) = some ⟨y, m, d⟩ := by
  have hv' : 1 ≤ y ∧ 1 ≤ m ∧ m ≤ 12 ∧ 1 ≤ d ∧ d ≤ getMonthLength y m := by
    simpa [isValidHijriDate] using hv
  obtain ⟨hy, hm1, hm2, hd1, hd2⟩ := hv'
  obtain ⟨hscanM, hW0, hWlt⟩ := within_year_spec y m d hm1 hm2 hd1 hd2
  obtain ⟨hscanY, hR0, hRlt⟩ :=
    within_cycle_spec y hy (daysBeforeMonthInYear y m + (d - 1)) hW0 hWlt
  have hc0 : 0 ≤ (y - 1) / 30 := Int.ediv_nonneg (by omega) (by norm_num)
  have hD : hijriDaysSinceEpoch y m d =
      (y - 1) / 30 * 10631 +
        (daysInYearsOfCycle ((y - 1) % 30).toNat +
          (daysBeforeMonthInYear y m + (d - 1))) := by
    rw [hijriDaysSinceEpoch, fdiv_ediv _ 30 (by norm_num),
      Int.tmod_eq_emod (by omega) (by norm_num)]
    ring
  have harg : hijriToJulianDay ⟨y, m, d⟩ - 1948439 = hijriDaysSinceEpoch y m d := by
    simp only [hijriToJulianDay]
    ring
  simp only [julianDayToHijri]
  rw [harg, hD]
  rw [if_neg (by omega)]
  have hcyc : ((y - 1) / 30 * 10631 +
      (daysInYearsOfCycle ((y - 1) % 30).toNat +
        (daysBeforeMonthInYear y m + (d - 1)))).fdiv 10631 = (y - 1) / 30 := by
    rw [fdiv_ediv _ 10631 (by norm_num)]
    omega
  have hrem : ((y - 1) / 30 * 10631 +
      (daysInYearsOfCycle ((y - 1) % 30).toNat +
        (daysBeforeMonthInYear y m + (d - 1)))).tmod 10631 =
      daysInYearsOfCycle ((y - 1) % 30).toNat + (daysBeforeMonthInYear y m + (d - 1)) := by
    rw [Int.tmod_eq_emod (by omega) (by norm_num)]
    omega
  rw [hcyc, hrem, hscanY]
  have hyear : (y - 1) / 30 * 30 + ((((y - 1) % 30).toNat : Int) + 1) = y := by
    have h2 := Int.emod_nonneg (y - 1) (show (30 : Int) ≠ 0 by norm_num)
    omega
  dsimp only
  rw [hyear, hscanM]
  dsimp only
  simp only [Option.some.injEq, HijriDate.mk.injEq, and_true, true_and]
  omega

/-- **C2** — Calendar round trips, amended.  The Hijri round trip holds
for every valid Hijri date.  The Gregorian round trip holds on the
Gregorian branch of the inverse conversion only, i.e. for dates whose
Julian day is at least 2299161 (1582-10-15 and later); the claim's
"supported epoch range" starts at the Hijri epoch (622-07-19 Gregorian,
Julian day 1948440 < 2299161), where the round trip fails — see the
counterexample below. -/
theorem calendar_round_trips :
    (∀ y m d : Int, isValidHijriDate y m d = true →
      julianDayToHijri (hijriToJulianDay ⟨y, m, d⟩) = some ⟨y, m, d⟩) ∧
    (∀ y m d : Int, isValidGregorianDate y m d = true →
      2299161 ≤ gregorianToJulianDay y m d →
      julianDayToGregorian (gregorianToJulianDay y m d) = (y, m, d)) :=
  ⟨fun y m d hv => julianDay_hijri_round_trip y m d hv,
   fun y m d hv hz => gregorian_round_trip y m d hv hz⟩

/-- Counterexample to the unamended C2: the Gregorian date 622-07-19 —
the Hijri epoch itself, hence squarely inside the supported epoch
range — is valid, its Julian day lies at (and after) the epoch's, yet
converting it to a Julian day and back yields 622-07-16: below Julian
day 2299161 the inverse conversion interprets the day number in the
Julian calendar, three days off in the 7th century. -/
theorem gregorian_round_trip_fails_in_epoch_range :
    isValidGregorianDate 622 7 19 = true ∧
    hijriToJulianDay ⟨1, 1, 1⟩ ≤ gregorianToJulianDay 622 7 19 ∧
    julianDayToGregorian (gregorianToJulianDay 622 7 19) = (622, 7, 16) := by
  refine ⟨by decide, by decide, by decide⟩

/-- Witness for `calendar_round_trips`: the Hijri date (1446, 3, 1) and
the Gregorian date 2024-09-04 both round-trip. -/
theorem calendar_round_trips_witness :
    (isValidHijriDate 1446 3 1 = true ∧
      julianDayToHijri (hijriToJulianDay ⟨1446, 3, 1⟩) = some ⟨1446, 3, 1⟩) ∧
    (isValidGregorianDate 2024 9 4 = true ∧
      (2299161 : Int) ≤ gregorianToJulianDay 2024 9 4 ∧
      julianDayToGregorian (gregorianToJulianDay 2024 9 4) = (2024, 9, 4)) :=
  ⟨⟨by decide, calendar_round_trips.1 1446 3 1 (by decide)⟩,
   ⟨by decide, by decide, calendar_round_trips.2 2024 9 4 (by decide) (by decide)⟩⟩

/-! ## C10: between-query boundary semantics -/

/-- The MONTHLY `byMonthDay = 1` rule of the between-query scenario:
start (1446, 1, 1), no count, no until, tabular backend. -/
def monthlyDay1Rule : ParsedOptions where
  freq := Frequency.MONTHLY
  dtstart := ⟨1446, 1, 1⟩
  interval := 1
  wkst := 1
  count := none
  untilD := none
  tzid := none
  bysetpos := none
  bymonth := none
  bymonthday := some [1]
  bynmonthday := none
  byyearday := none
  byweekno := none
  byweekday := none
  bynweekday := none
  byhour := none
  byminute := none
  bysecond := none
  skip := Skip.OMIT
  calendar := CalendarType.tbla

/-- Splitting the iteration budget: running `a + b` iterations equals
running `a`, then continuing with `b` from the saved count and cursor
(when the generator has not yet returned). -/
theorem iterAuxB_add (o : ParsedOptions) (b : Nat) :
    ∀ (a : Nat) (count : Int) (cur : HijriDate),
      iterAuxB o (a + b) count cur =
        ((iterAuxB o a count cur).1 ++
            (match (iterAuxB o a count cur).2 with
             | some p => (iterAuxB o b p.1 p.2).1
             | none => []),
          match (iterAuxB o a count cur).2 with
          | some p => (iterAuxB o b p.1 p.2).2
          | none => none) := by
  intro a
  induction a with
  | zero =>
    intro count cur
    rw [Nat.zero_add]
    simp only [iterAuxB, List.nil_append]
  | succ n ih =>
    intro count cur
    have h1 : n + 1 + b = (n + b) + 1 := by omega
    rw [h1]
    simp only [iterAuxB]
    split
    · simp
    · split
      · split
        · simp
        · rw [ih]
          split
          · simp [List.append_assoc]
          · simp
      · rw [ih]
        split
        · simp [List.append_assoc]
        · simp

/-- Budget splitting, solved form: when `a` iterations end with the
generator still running, the remaining `b` iterations pick up from the
saved count and cursor. -/
theorem iterAuxB_add_some (o : ParsedOptions) (a b : Nat) (count c' : Int)
    (cur cur' : HijriDate) (ys : List HijriDate)
    (h : iterAuxB o a count cur = (ys, some (c', cur'))) :
    iterAuxB o (a + b) count cur =
      (ys ++ (iterAuxB o b c' cur').1, (iterAuxB o b c' cur').2) := by
  rw [iterAuxB_add, h]

/-- Budget splitting when the generator already returned within the
first `a` iterations: extra budget changes nothing. -/
theorem iterAuxB_add_none (o : ParsedOptions) (a b : Nat) (count : Int)
    (cur : HijriDate) (ys : List HijriDate)
    (h : iterAuxB o a count cur = (ys, none)) :
    iterAuxB o (a + b) count cur = (ys, none) := by
  rw [iterAuxB_add, h]
  simp

/-- The MONTHLY `byMonthDay = 1` rule with a count of zero. -/
def countZeroRule : ParsedOptions where
  freq := Frequency.MONTHLY
  dtstart := ⟨1446, 1, 1⟩
  interval := 1
  wkst := 1
  count := some 0
  untilD := none
  tzid := none
  bysetpos := none
  bymonth := none
  bymonthday := some [1]
  bynmonthday := none
  byyearday := none
  byweekno := none
  byweekday := none
  bynweekday := none
  byhour := none
  byminute := none
  bysecond := none
  skip := Skip.OMIT
  calendar := CalendarType.tbla

theorem countZero_one_step :
    iterAuxB countZeroRule 1 0 ⟨1446, 1, 1⟩ = ([⟨1446, 1, 1⟩], none) := by decide

/-- Counterexample to the unamended C6: with a set count of zero the
iteration ceiling is not proportional to the count — a JavaScript `0`
is falsy, so the source falls back to the fixed 100000 ceiling — and
the enumeration still advances a period and yields one date (the count
check runs only after a candidate is yielded), where a count-
proportional bound of `0 * 100` would advance none and yield none. -/
theorem count_zero_still_enumerates :
    countZeroRule.count = some 0 ∧
    maxIterations countZeroRule = 100000 ∧
    iterate countZeroRule = [⟨1446, 1, 1⟩] := by
  refine ⟨rfl, by decide, ?_⟩
  have hmax : maxIterations countZeroRule = 1 + 99999 := by decide
  have hds : countZeroRule.dtstart = ⟨1446, 1, 1⟩ := rfl
  rw [iterate, hmax, hds, iterAuxB_add_none countZeroRule 1 99999 0 ⟨1446, 1, 1⟩
    [⟨1446, 1, 1⟩] countZero_one_step]

/-- The consuming loop of `betweenHijri` ignores everything after an
element that triggers its break condition. -/
theorem betweenLoop_append_of_break (afterH beforeH : HijriDate) (inc : Bool) :
    ∀ (xs ys : List HijriDate),
      (∃ x ∈ xs,
        (if inc then x.isAfter beforeH else x.isOnOrAfter beforeH) = true ∧
          (¬ x.equals beforeH = true ∨ ¬ inc = true)) →
      betweenLoop afterH beforeH inc (xs ++ ys) = betweenLoop afterH beforeH inc xs := by
  intro xs
  induction xs with
  | nil =>
    intro ys h
    simp at h
  | cons x rest ih =>
    intro ys h
    rw [List.cons_append]
    simp only [betweenLoop]
    by_cases hbrk :
        (if inc then x.isAfter beforeH else x.isOnOrAfter beforeH) = true ∧
          (¬ x.equals beforeH = true ∨ ¬ inc = true)
    · rw [if_pos hbrk, if_pos hbrk]
    · rw [if_neg hbrk, if_neg hbrk]
      have h' : ∃ z ∈ rest,
          (if inc then z.isAfter beforeH else z.isOnOrAfter beforeH) = true ∧
            (¬ z.equals beforeH = true ∨ ¬ inc = true) := by
        rcases h with ⟨z, hz, hp⟩
        rcases List.mem_cons.mp hz with hzx | hz'
        · subst hzx
          exact absurd hp hbrk
        · exact ⟨z, hz', hp⟩
      by_cases hsel :
          (if inc then x.isOnOrAfter afterH else x.isAfter afterH) = true ∧
            (if inc then x.isOnOrBefore beforeH else x.isBefore beforeH) = true
      · rw [if_pos hsel, if_pos hsel, ih ys h']
      · rw [if_neg hsel, if_neg hsel]
        exact ih ys h'

/-- The first seven dates the MONTHLY `byMonthDay = 1` rule yields. -/
def firstSevenYields : List HijriDate :=
  [⟨1446, 1, 1⟩, ⟨1446, 2, 1⟩, ⟨1446, 3, 1⟩, ⟨1446, 4, 1⟩, ⟨1446, 5, 1⟩,
   ⟨1446, 6, 1⟩, ⟨1446, 7, 1⟩]

/-- Seven iterations of the rule: the first seven month-starts of 1446,
with count 7 and cursor (1446, 8, 1) saved. -/
theorem monthlyDay1_first_seven :
    iterAuxB monthlyDay1Rule 7 0 ⟨1446, 1, 1⟩ =
      (firstSevenYields, some (7, ⟨1446, 8, 1⟩)) := by decide

/-- The full enumeration of the rule starts with those seven dates. -/
theorem iterate_monthlyDay1 :
    iterate monthlyDay1Rule =
      firstSevenYields ++ (iterAuxB monthlyDay1Rule 99993 7 ⟨1446, 8, 1⟩).1 := by
  have hsplit := iterAuxB_add_some monthlyDay1Rule 7 99993 0 7 ⟨1446, 1, 1⟩ ⟨1446, 8, 1⟩
    firstSevenYields monthlyDay1_first_seven
  have hmax : maxIterations monthlyDay1Rule = 7 + 99993 := by decide
  have hds : monthlyDay1Rule.dtstart = ⟨1446, 1, 1⟩ := rfl
  rw [iterate, hmax, hds, hsplit]

/-- **C10** — Between-query boundary semantics: on the tabular-backend
MONTHLY rule with `byMonthDay = 1` starting (1446, 1, 1), the query
between (1446, 3, 1) and (1446, 6, 1) returns exactly
[(1446, 4, 1), (1446, 5, 1)] when not inclusive (both boundaries
excluded) and exactly
[(1446, 3, 1), (1446, 4, 1), (1446, 5, 1), (1446, 6, 1)] when
inclusive (both boundaries included). -/
theorem between_boundary_semantics :
    betweenHijri monthlyDay1Rule ⟨1446, 3, 1⟩ ⟨1446, 6, 1⟩ false =
      [⟨1446, 4, 1⟩, ⟨1446, 5, 1⟩] ∧
    betweenHijri monthlyDay1Rule ⟨1446, 3, 1⟩ ⟨1446, 6, 1⟩ true =
      [⟨1446, 3, 1⟩, ⟨1446, 4, 1⟩, ⟨1446, 5, 1⟩, ⟨1446, 6, 1⟩] := by
  constructor
  · rw [betweenHijri, iterate_monthlyDay1,
      betweenLoop_append_of_break _ _ _ firstSevenYields _
        ⟨⟨1446, 6, 1⟩, by decide, by decide, by decide⟩]
    decide
  · rw [betweenHijri, iterate_monthlyDay1,
      betweenLoop_append_of_break _ _ _ firstSevenYields _
        ⟨⟨1446, 7, 1⟩, by decide, by decide, by decide⟩]
    decide

/-! ## C9: generation never constructs an invalid date -/

theorem mem_insertDate (x a : HijriDate) :
    ∀ l : List HijriDate, x ∈ insertDate a l → x = a ∨ x ∈ l := by
  intro l
  induction l with
  | nil =>
    intro h
    simp only [insertDate, List.mem_singleton] at h
    exact Or.inl h
  | cons y ys ih =>
    intro h
    rw [insertDate] at h
    by_cases hc : a.compare y ≤ 0
    · rw [if_pos hc] at h
      rcases List.mem_cons.mp h with h1 | h2
      · exact Or.inl h1
      · exact Or.inr h2
    · rw [if_neg hc] at h
      rcases List.mem_cons.mp h with h1 | h2
      · exact Or.inr (by simp [h1])
      · rcases ih h2 with h3 | h4
        · exact Or.inl h3
        · exact Or.inr (by simp [h4])

theorem mem_sortDates (x : HijriDate) :
    ∀ l : List HijriDate, x ∈ sortDates l → x ∈ l := by
  intro l
  induction l with
  | nil => intro h; simp [sortDates] at h
  | cons y ys ih =>
    intro h
    rw [sortDates] at h
    rcases mem_insertDate x y (sortDates ys) h with h1 | h2
    · simp [h1]
    · simp [ih h2]

theorem mem_dedupeAux (x : HijriDate) :
    ∀ (p : HijriDate) (l : List HijriDate), x ∈ dedupeAux p l → x ∈ l := by
  intro p l
  induction l generalizing p with
  | nil => intro h; simp [dedupeAux] at h
  | cons y ys ih =>
    intro h
    rw [dedupeAux] at h
    by_cases hc : p.equals y = true
    · rw [if_pos hc] at h
      simp [ih p h]
    · rw [if_neg hc] at h
      rcases List.mem_cons.mp h with h1 | h2
      · simp [h1]
      · simp [ih y h2]

theorem mem_sortAndDedupe (x : HijriDate) (l : List HijriDate)
    (h : x ∈ sortAndDedupe l) : x ∈ l := by
  rw [sortAndDedupe] at h
  rcases hs : sortDates l with _ | ⟨y, ys⟩
  · rw [hs] at h; simp at h
  · rw [hs] at h
    rcases List.mem_cons.mp h with h1 | h2
    · apply mem_sortDates x l
      rw [hs, h1]
      simp
    · apply mem_sortDates x l
      rw [hs]
      simp [mem_dedupeAux x y ys h2]

theorem opt_get_aux (l : List HijriDate) (c : Prop) (inst : Decidable c) (i : Nat)
    (x : HijriDate) (h : (if c then l.get? i else none) = some x) : x ∈ l := by
  split at h
  · exact List.get?_mem h
  · simp at h

theorem mem_applyBySetPos (x : HijriDate) (l : List HijriDate) (ps : List Int)
    (h : x ∈ applyBySetPos l ps) : x ∈ l := by
  rw [applyBySetPos] at h
  have h2 := mem_sortAndDedupe _ _ h
  rw [List.mem_filterMap] at h2
  obtain ⟨pos, hp, hsel⟩ := h2
  exact opt_get_aux l _ _ _ x hsel

theorem yieldLoop_mem (o : ParsedOptions) (x : HijriDate) :
    ∀ (l : List HijriDate) (count : Int), x ∈ (yieldLoop o l count).1 → x ∈ l := by
  intro l
  induction l with
  | nil => intro count h; simp [yieldLoop] at h
  | cons c rest ih =>
    intro count h
    rw [yieldLoop] at h
    by_cases h1 : c.isBefore o.dtstart = true
    · rw [if_pos h1] at h
      simp [ih count h]
    · rw [if_neg h1] at h
      by_cases h2 : (match o.untilD with | some u => c.isAfter u | none => false) = true
      · rw [if_pos h2] at h
        simp at h
      · rw [if_neg h2] at h
        by_cases h3 : (match o.count with
            | some n => decide (n ≤ count + 1) | none => false) = true
        · rw [if_pos h3] at h
          simp only [List.mem_singleton] at h
          simp [h]
        · rw [if_neg h3] at h
          rcases List.mem_cons.mp h with h4 | h5
          · simp [h4]
          · simp [ih (count + 1) h5]

theorem untilTail_mem (o : ParsedOptions) (u : HijriDate) (x : HijriDate) :
    ∀ (l : List HijriDate) (count : Int), x ∈ untilTail o u l count → x ∈ l := by
  intro l
  induction l with
  | nil => intro count h; simp [untilTail] at h
  | cons c rest ih =>
    intro count h
    rw [untilTail] at h
    by_cases h1 : (c.isOnOrBefore u = true ∧ c.isOnOrAfter o.dtstart = true)
    · rw [if_pos h1] at h
      by_cases h2 : (match o.count with
          | some n => decide (n ≤ count + 1) | none => false) = true
      · rw [if_pos h2] at h
        simp only [List.mem_singleton] at h
        simp [h]
      · rw [if_neg h2] at h
        rcases List.mem_cons.mp h with h3 | h4
        · simp [h3]
        · simp [ih (count + 1) h4]
    · rw [if_neg h1] at h
      simp [ih count h]

theorem nthMatch_mem (pred : Int → Bool) (d : Int) :
    ∀ (l : List Int) (k : Int), nthMatch pred l k = some d → d ∈ l := by
  intro l
  induction l with
  | nil => intro k h; simp [nthMatch] at h
  | cons a rest ih =>
    intro k h
    rw [nthMatch] at h
    by_cases h1 : pred a = true
    · rw [if_pos h1] at h
      by_cases h2 : k = 1
      · rw [if_pos h2] at h
        simp only [Option.some.injEq] at h
        simp [h]
      · rw [if_neg h2] at h
        simp [ih (k - 1) h]
    · rw [if_neg h1] at h
      simp [ih k h]

theorem scanList_complete :
    ∀ (l : List Int) (rem : Int), 0 ≤ rem → rem < l.sum → (∀ a ∈ l, 0 ≤ a) →
      ∃ k, ∃ hk : k < l.length, ∃ s : Int,
        scanList l rem = (some ((k : Int) + 1), s) ∧ 0 ≤ s ∧ s < l.get ⟨k, hk⟩ ∧
          (l.take k).sum + s = rem := by
  intro l
  induction l with
  | nil =>
    intro rem h0 hlt _
    simp only [List.sum_nil] at hlt
    omega
  | cons a rest ih =>
    intro rem h0 hlt hnn
    by_cases hca : rem < a
    · refine ⟨0, by simp, rem, ?_, h0, by simpa using hca, by simp⟩
      rw [scanList, if_pos hca]
      norm_num
    · have ha : 0 ≤ a := hnn a (by simp)
      have hrest : ∀ b ∈ rest, 0 ≤ b := fun b hb => hnn b (by simp [hb])
      have h0' : 0 ≤ rem - a := by omega
      have hlt' : rem - a < rest.sum := by
        simp only [List.sum_cons] at hlt
        omega
      obtain ⟨k, hk, s, heq, hs0, hslt, hsum⟩ := ih (rem - a) h0' hlt' hrest
      refine ⟨k + 1, by simpa using hk, s, ?_, hs0, by simpa using hslt, ?_⟩
      · rw [scanList, if_neg (by omega)]
        simp only [heq, Option.map_some']
        refine Prod.ext ?_ rfl
        simp only [Option.some.injEq]
        push_cast
        ring
      · rw [List.take_succ_cons, List.sum_cons]
        omega

theorem julianDayToHijri_valid (jdn : Int) (h : 1948439 ≤ jdn) :
    ∃ dte : HijriDate, julianDayToHijri jdn = some dte ∧ dte.valid = true := by
  have hD0 : 0 ≤ jdn - 1948439 := by omega
  have hc0 : 0 ≤ (jdn - 1948439) / 10631 := Int.ediv_nonneg hD0 (by norm_num)
  have hr0 : 0 ≤ (jdn - 1948439) % 10631 := Int.emod_nonneg _ (by norm_num)
  have hrlt : (jdn - 1948439) % 10631 < yearLengthsOfCycle.sum := by
    rw [yearLengthsOfCycle_sum]
    exact Int.emod_lt_of_pos _ (by norm_num)
  obtain ⟨k, hk, s, heqY, hs0, hslt, hsumY⟩ :=
    scanList_complete yearLengthsOfCycle ((jdn - 1948439) % 10631) hr0 hrlt
      yearLengthsOfCycle_nonneg
  have hk30 : k < 30 := by
    have hlen := yearLengthsOfCycle_length
    omega
  have hy1 : 1 ≤ (jdn - 1948439) / 10631 * 30 + ((k : Int) + 1) := by omega
  have hcycle : yearLengthsOfCycle.get ⟨k, hk⟩ = yearLengthInCycle ((k : Int) + 1) := by
    rw [yearLengthsOfCycle_getElem k hk30, intOfNat_eq_cast]
  have hmod : ((jdn - 1948439) / 10631 * 30 + ((k : Int) + 1) - 1) % 30 = (k : Int) := by
    omega
  have hsum : (monthLengthsOfYear ((jdn - 1948439) / 10631 * 30 + ((k : Int) + 1))).sum
      = yearLengthInCycle ((k : Int) + 1) := by
    rw [yearLength_sum_eq_cycle _ hy1, hmod]
  have hslt' : s <
      (monthLengthsOfYear ((jdn - 1948439) / 10631 * 30 + ((k : Int) + 1))).sum := by
    rw [hsum, ← hcycle]
    exact hslt
  obtain ⟨j, hj, t, heqM, ht0, htlt, hsumM⟩ :=
    scanList_complete (monthLengthsOfYear ((jdn - 1948439) / 10631 * 30 + ((k : Int) + 1)))
      s hs0 hslt' (monthLengthsOfYear_nonneg _)
  have hj12 : j < 12 := by
    have hlen := monthLengthsOfYear_length ((jdn - 1948439) / 10631 * 30 + ((k : Int) + 1))
    omega
  have hmonlen :
      (monthLengthsOfYear ((jdn - 1948439) / 10631 * 30 + ((k : Int) + 1))).get ⟨j, hj⟩
        = getMonthLength ((jdn - 1948439) / 10631 * 30 + ((k : Int) + 1)) ((j : Int) + 1) := by
    rw [monthLengthsOfYear_getElem _ j hj12, intOfNat_eq_cast]
  refine ⟨⟨(jdn - 1948439) / 10631 * 30 + ((k : Int) + 1), (j : Int) + 1, t + 1⟩, ?_, ?_⟩
  · simp only [julianDayToHijri]
    rw [if_neg (by omega)]
    have hfd : (jdn - 1948439).fdiv 10631 = (jdn - 1948439) / 10631 :=
      fdiv_ediv _ 10631 (by norm_num)
    have htm : (jdn - 1948439).tmod 10631 = (jdn - 1948439) % 10631 :=
      Int.tmod_eq_emod hD0 (by norm_num)
    rw [hfd, htm, heqY]
    dsimp only
    rw [heqM]
  · simp only [HijriDate.valid, isValidHijriDate, decide_eq_true_eq]
    rw [hmonlen] at htlt
    refine ⟨hy1, by omega, by omega, by omega, by omega⟩

theorem hijriDaysSinceEpoch_nonneg (y m d : Int) (hv : isValidHijriDate y m d = true) :
    0 ≤ hijriDaysSinceEpoch y m d := by
  simp only [isValidHijriDate, decide_eq_true_eq] at hv
  obtain ⟨hy, hm1, hm2, hd1, hd2⟩ := hv
  rw [hijriDaysSinceEpoch, fdiv_ediv _ 30 (by norm_num),
    Int.tmod_eq_emod (by omega) (by norm_num)]
  have h1 : 0 ≤ (y - 1) / 30 := Int.ediv_nonneg (by omega) (by norm_num)
  have h2 : 0 ≤ daysInYearsOfCycle ((y - 1) % 30).toNat :=
    List.sum_nonneg fun a ha => yearLengthsOfCycle_nonneg a (List.mem_of_mem_take ha)
  have h3 : 0 ≤ daysBeforeMonthInYear y m :=
    List.sum_nonneg fun a ha => monthLengthsOfYear_nonneg y a (List.mem_of_mem_take ha)
  omega

theorem addDays_valid (date : HijriDate) (hv : date.valid = true) (days : Int)
    (hd : 0 ≤ days) : (addDays date days).valid = true := by
  rw [addDays]
  by_cases h0 : days = 0
  · rw [if_pos h0]
    exact hv
  · rw [if_neg h0]
    have harg : 1948439 ≤ hijriToJulianDay date + days := by
      have := hijriDaysSinceEpoch_nonneg date.year date.month date.day hv
      rw [hijriToJulianDay]
      omega
    obtain ⟨dte, heq, hval⟩ := julianDayToHijri_valid _ harg
    rw [heq]
    exact hval

theorem addMonths_valid (date : HijriDate) (hv : date.valid = true) (months : Int)
    (hm : 1 ≤ months) :
    ∃ dte, addMonths date months true = some dte ∧ dte.valid = true := by
  have hv' : 1 ≤ date.year ∧ 1 ≤ date.month ∧ date.month ≤ 12 ∧ 1 ≤ date.day ∧
      date.day ≤ getMonthLength date.year date.month := by
    have h := hv
    simp only [HijriDate.valid, isValidHijriDate, decide_eq_true_eq] at h
    exact h
  obtain ⟨hy, hm1, hm2, hd1, hd2⟩ := hv'
  simp only [addMonths]
  rw [if_neg (by omega : ¬ months = 0)]
  set T := (date.year - 1) * 12 + (date.month - 1) + months with hT
  have hT1 : 1 ≤ T := by
    rw [hT]
    have h12 : 0 ≤ (date.year - 1) * 12 := mul_nonneg (by omega) (by norm_num)
    omega
  rw [fdiv_ediv T 12 (by norm_num), Int.tmod_eq_emod (by omega) (by norm_num)]
  have hmod : 0 ≤ T % 12 ∧ T % 12 < 12 :=
    ⟨Int.emod_nonneg _ (by norm_num), Int.emod_lt_of_pos _ (by norm_num)⟩
  have hdivnn : 0 ≤ T / 12 := Int.ediv_nonneg (by omega) (by norm_num)
  simp only [if_neg (by omega : ¬ T % 12 + 1 ≤ 0)]
  rw [if_neg (by omega : ¬ T / 12 + 1 < 1)]
  have h29 := getMonthLength_pos (T / 12 + 1) (T % 12 + 1) (by omega) (by omega)
  by_cases hclamp : getMonthLength (T / 12 + 1) (T % 12 + 1) < date.day
  · rw [if_pos hclamp]
    refine ⟨_, rfl, ?_⟩
    simp only [HijriDate.valid, isValidHijriDate, decide_eq_true_eq]
    refine ⟨by omega, by omega, by omega, by omega, le_refl _⟩
  · rw [if_neg hclamp]
    refine ⟨_, rfl, ?_⟩
    simp only [HijriDate.valid, isValidHijriDate, decide_eq_true_eq]
    refine ⟨by omega, by omega, by omega, by omega, by omega⟩

theorem addYears_valid (date : HijriDate) (hv : date.valid = true) (years : Int)
    (hys : 1 ≤ years) :
    ∃ dte, addYears date years true = some dte ∧ dte.valid = true := by
  have hv' : 1 ≤ date.year ∧ 1 ≤ date.month ∧ date.month ≤ 12 ∧ 1 ≤ date.day ∧
      date.day ≤ getMonthLength date.year date.month := by
    have h := hv
    simp only [HijriDate.valid, isValidHijriDate, decide_eq_true_eq] at h
    exact h
  obtain ⟨hy, hm1, hm2, hd1, hd2⟩ := hv'
  simp only [addYears]
  rw [if_neg (by omega : ¬ years = 0), if_neg (by omega : ¬ date.year + years < 1)]
  have h29 := getMonthLength_pos (date.year + years) date.month (by omega) (by omega)
  by_cases hclamp : getMonthLength (date.year + years) date.month < date.day
  · rw [if_pos hclamp]
    refine ⟨_, rfl, ?_⟩
    simp only [HijriDate.valid, isValidHijriDate, decide_eq_true_eq]
    refine ⟨by omega, by omega, by omega, by omega, le_refl _⟩
  · rw [if_neg hclamp]
    refine ⟨_, rfl, ?_⟩
    simp only [HijriDate.valid, isValidHijriDate, decide_eq_true_eq]
    refine ⟨by omega, by omega, by omega, by omega, by omega⟩

theorem advancePeriod_valid (cur : HijriDate) (hv : cur.valid = true) (freq : Frequency)
    (interval : Int) (hi : 1 ≤ interval) :
    (advancePeriod cur freq interval).valid = true := by
  cases freq with
  | YEARLY =>
    obtain ⟨dte, heq, hval⟩ := addYears_valid cur hv interval hi
    simp only [advancePeriod, heq, Option.getD_some]
    exact hval
  | MONTHLY =>
    obtain ⟨dte, heq, hval⟩ := addMonths_valid cur hv interval hi
    simp only [advancePeriod, heq, Option.getD_some]
    exact hval
  | WEEKLY =>
    simp only [advancePeriod]
    exact addDays_valid cur hv (interval * 7) (by omega)
  | DAILY =>
    simp only [advancePeriod]
    exact addDays_valid cur hv interval (by omega)
  | HOURLY =>
    simp only [advancePeriod]
    exact addDays_valid cur hv 1 (by omega)
  | MINUTELY =>
    simp only [advancePeriod]
    exact addDays_valid cur hv 1 (by omega)
  | SECONDLY =>
    simp only [advancePeriod]
    exact addDays_valid cur hv 1 (by omega)

theorem tryCreateDate_valid (year month day : Int) (strategy : Skip)
    (hy : 1 ≤ year) (hm1 : 1 ≤ month) (hm2 : month ≤ 12) :
    ∀ dte, tryCreateDate year month day strategy = some dte → dte.valid = true := by
  intro dte h
  simp only [tryCreateDate] at h
  by_cases h1 : day < 1
  · rw [if_pos h1] at h
    simp at h
  · rw [if_neg h1] at h
    by_cases h2 : getMonthLength year month < day
    · rw [if_pos h2] at h
      have h29 := getMonthLength_pos year month hm1 hm2
      cases strategy
      · simp at h
      · by_cases h12 : month = 12
        · rw [if_pos h12] at h
          simp only [Option.some.injEq] at h
          subst h
          simp only [HijriDate.valid, isValidHijriDate, decide_eq_true_eq]
          have h29' := getMonthLength_pos (year + 1) 1 (by omega) (by omega)
          refine ⟨by omega, by omega, by omega, by omega, by omega⟩
        · rw [if_neg h12] at h
          simp only [Option.some.injEq] at h
          subst h
          simp only [HijriDate.valid, isValidHijriDate, decide_eq_true_eq]
          have h29' := getMonthLength_pos year (month + 1) (by omega) (by omega)
          refine ⟨by omega, by omega, by omega, by omega, by omega⟩
      · simp only [Option.some.injEq] at h
        subst h
        simp only [HijriDate.valid, isValidHijriDate, decide_eq_true_eq]
        refine ⟨by omega, by omega, by omega, by omega, le_refl _⟩
    · rw [if_neg h2] at h
      split at h
      · rename_i hval
        simp only [Option.some.injEq] at h
        subst h
        exact hval
      · simp at h

theorem nthWeekdayOfMonth_valid (year month weekday n : Int)
    (hy : 1 ≤ year) (hm1 : 1 ≤ month) (hm2 : month ≤ 12) :
    ∀ dte, nthWeekdayOfMonth year month weekday n = some dte → dte.valid = true := by
  intro dte h
  simp only [nthWeekdayOfMonth] at h
  have hdays : ∀ d ∈ (List.range (getMonthLength year month).toNat).map
      (fun i => Int.ofNat i + 1), 1 ≤ d ∧ d ≤ getMonthLength year month := by
    intro d hd
    simp only [List.mem_map, List.mem_range] at hd
    obtain ⟨i, hi, rfl⟩ := hd
    rw [intOfNat_eq_cast]
    omega
  by_cases hn0 : n = 0
  · rw [if_pos hn0] at h
    simp at h
  · rw [if_neg hn0] at h
    by_cases hpos : 0 < n
    · rw [if_pos hpos] at h
      rw [Option.map_eq_some'] at h
      obtain ⟨d, hmatch, hdte⟩ := h
      subst hdte
      have hd := hdays d (nthMatch_mem _ d _ n hmatch)
      simp only [HijriDate.valid, isValidHijriDate, decide_eq_true_eq]
      exact ⟨hy, hm1, hm2, hd.1, hd.2⟩
    · rw [if_neg hpos] at h
      rw [Option.map_eq_some'] at h
      obtain ⟨d, hmatch, hdte⟩ := h
      subst hdte
      have hmem := nthMatch_mem _ d _ (-n) hmatch
      rw [List.mem_reverse] at hmem
      have hd := hdays d hmem
      simp only [HijriDate.valid, isValidHijriDate, decide_eq_true_eq]
      exact ⟨hy, hm1, hm2, hd.1, hd.2⟩

theorem dayOfYearToDate_valid (year dayOfYear : Int) :
    ∀ dte, dayOfYearToDate year dayOfYear = some dte → dte.valid = true := by
  intro dte h
  rw [dayOfYearToDate] at h
  rw [Option.bind_eq_some] at h
  obtain ⟨p, _, hp⟩ := h
  split at hp
  · rename_i hval
    simp only [Option.some.injEq] at hp
    subst hp
    exact hval
  · simp at hp

theorem monthday_filterMap_valid (year month : Int) (skip : Skip)
    (hy : 1 ≤ year) (hm1 : 1 ≤ month) (hm2 : month ≤ 12) (days : List Int) :
    ∀ c ∈ days.filterMap (fun day => tryCreateDate year month day skip), c.valid = true := by
  intro c hc
  rw [List.mem_filterMap] at hc
  obtain ⟨d, _, hd⟩ := hc
  exact tryCreateDate_valid year month d skip hy hm1 hm2 c hd

theorem nmonthday_filterMap_valid (year month : Int)
    (hy : 1 ≤ year) (hm1 : 1 ≤ month) (hm2 : month ≤ 12) (ndays : List Int)
    (hneg : ∀ d ∈ ndays, d ≤ -1) :
    ∀ c ∈ ndays.filterMap (fun nday =>
        if 1 ≤ getMonthLength year month + nday + 1
        then some (⟨year, month, getMonthLength year month + nday + 1⟩ : HijriDate)
        else none),
      c.valid = true := by
  intro c hc
  rw [List.mem_filterMap] at hc
  obtain ⟨nd, hmem, hnd⟩ := hc
  split at hnd
  · rename_i hday
    simp only [Option.some.injEq] at hnd
    subst hnd
    have hn := hneg nd hmem
    have h29 := getMonthLength_pos year month hm1 hm2
    simp only [HijriDate.valid, isValidHijriDate, decide_eq_true_eq]
    refine ⟨hy, hm1, hm2, by omega, by omega⟩
  · simp at hnd

theorem nweekday_filterMap_valid (year month : Int)
    (hy : 1 ≤ year) (hm1 : 1 ≤ month) (hm2 : month ≤ 12) (wds : List WeekdaySpec) :
    ∀ c ∈ wds.filterMap (fun wd =>
        match wd.n with
        | some n => nthWeekdayOfMonth year month wd.weekday n
        | none => none), c.valid = true := by
  intro c hc
  rw [List.mem_filterMap] at hc
  obtain ⟨wd, _, hwd⟩ := hc
  rcases hn : wd.n with _ | n
  · rw [hn] at hwd
    simp at hwd
  · rw [hn] at hwd
    exact nthWeekdayOfMonth_valid year month wd.weekday n hy hm1 hm2 c hwd

theorem weekday_scan_valid (year month : Int) (wds : List WeekdaySpec)
    (hy : 1 ≤ year) (hm1 : 1 ≤ month) (hm2 : month ≤ 12) :
    ∀ c ∈ ((List.range (getMonthLength year month).toNat).map
        fun i => Int.ofNat i + 1).filterMap
        (fun d => if wds.any (fun wd => wd.weekday = dayOfWeek ⟨year, month, d⟩)
                  then some (⟨year, month, d⟩ : HijriDate) else none),
      c.valid = true := by
  intro c hc
  rw [List.mem_filterMap] at hc
  obtain ⟨d, hmem, hd⟩ := hc
  simp only [List.mem_map, List.mem_range] at hmem
  obtain ⟨i, hi, rfl⟩ := hmem
  split at hd
  · simp only [Option.some.injEq] at hd
    subst hd
    have h29 := getMonthLength_pos year month hm1 hm2
    simp only [HijriDate.valid, isValidHijriDate, decide_eq_true_eq, intOfNat_eq_cast]
    refine ⟨hy, hm1, hm2, by omega, by omega⟩
  · simp at hd

theorem mem_of_filter_if (P : Prop) (inst : Decidable P) (l : List HijriDate)
    (p : HijriDate → Bool) (x : HijriDate)
    (h : x ∈ (if P then l.filter p else l)) : x ∈ l := by
  split at h
  · exact (List.mem_filter.mp h).1
  · exact h

theorem generateMonthlyCandidates_valid (o : ParsedOptions) (cur : HijriDate)
    (hv : cur.valid = true)
    (hnmd : ∀ d ∈ o.bynmonthday.getD [], d ≤ -1) :
    ∀ c ∈ generateMonthlyCandidates cur o, c.valid = true := by
  have hv' : 1 ≤ cur.year ∧ 1 ≤ cur.month ∧ cur.month ≤ 12 ∧ 1 ≤ cur.day ∧
      cur.day ≤ getMonthLength cur.year cur.month := by
    have h := hv
    simp only [HijriDate.valid, isValidHijriDate, decide_eq_true_eq] at h
    exact h
  obtain ⟨hy, hcm1, hcm2, hd1, hd2⟩ := hv'
  intro c hc
  simp only [generateMonthlyCandidates] at hc
  have hc2 := mem_sortAndDedupe c _ hc
  by_cases h1 : hasSome o.bymonthday = true
  · rw [if_pos h1] at hc2
    exact monthday_filterMap_valid cur.year cur.month o.skip hy hcm1 hcm2 _ c hc2
  · rw [if_neg h1] at hc2
    by_cases h2 : hasSome o.bynmonthday = true
    · rw [if_pos h2] at hc2
      exact nmonthday_filterMap_valid cur.year cur.month hy hcm1 hcm2 _ hnmd c hc2
    · rw [if_neg h2] at hc2
      by_cases h3 : hasSome o.bynweekday = true
      · rw [if_pos h3] at hc2
        exact nweekday_filterMap_valid cur.year cur.month hy hcm1 hcm2 _ c hc2
      · rw [if_neg h3] at hc2
        by_cases h4 : hasSome o.byweekday = true
        · rw [if_pos h4] at hc2
          exact weekday_scan_valid cur.year cur.month _ hy hcm1 hcm2 c hc2
        · rw [if_neg h4] at hc2
          simp only [List.mem_singleton] at hc2
          subst hc2
          have h29 := getMonthLength_pos cur.year cur.month hcm1 hcm2
          simp only [HijriDate.valid, isValidHijriDate, decide_eq_true_eq]
          refine ⟨hy, hcm1, hcm2, by omega, by omega⟩

theorem generateYearlyCandidates_valid (o : ParsedOptions) (cur : HijriDate)
    (hv : cur.valid = true)
    (hbm : ∀ m ∈ o.bymonth.getD [], 1 ≤ m ∧ m ≤ 12)
    (hnmd : ∀ d ∈ o.bynmonthday.getD [], d ≤ -1) :
    ∀ c ∈ generateYearlyCandidates cur o, c.valid = true := by
  have hv' : 1 ≤ cur.year ∧ 1 ≤ cur.month ∧ cur.month ≤ 12 ∧ 1 ≤ cur.day ∧
      cur.day ≤ getMonthLength cur.year cur.month := by
    have h := hv
    simp only [HijriDate.valid, isValidHijriDate, decide_eq_true_eq] at h
    exact h
  obtain ⟨hy, hcm1, hcm2, hd1, hd2⟩ := hv'
  intro c hc
  simp only [generateYearlyCandidates] at hc
  have hc2 := mem_sortAndDedupe c _ hc
  have hc3 := mem_of_filter_if _ _ _ _ c hc2
  by_cases h1 : hasSome o.bymonth = true
  · rw [if_pos h1] at hc3
    rw [List.mem_flatMap] at hc3
    obtain ⟨month, hmm, hcm⟩ := hc3
    obtain ⟨hm1, hm2⟩ := hbm month hmm
    by_cases h2 : hasSome o.bymonthday = true
    · rw [if_pos h2] at hcm
      exact monthday_filterMap_valid cur.year month o.skip hy hm1 hm2 _ c hcm
    · rw [if_neg h2] at hcm
      by_cases h3 : hasSome o.bynmonthday = true
      · rw [if_pos h3] at hcm
        exact nmonthday_filterMap_valid cur.year month hy hm1 hm2 _ hnmd c hcm
      · rw [if_neg h3] at hcm
        by_cases h4 : hasSome o.bynweekday = true
        · rw [if_pos h4] at hcm
          exact nweekday_filterMap_valid cur.year month hy hm1 hm2 _ c hcm
        · rw [if_neg h4] at hcm
          by_cases h5 : hasSome o.byweekday = true
          · rw [if_pos h5] at hcm
            exact weekday_scan_valid cur.year month _ hy hm1 hm2 c hcm
          · rw [if_neg h5] at hcm
            simp only [List.mem_singleton] at hcm
            subst hcm
            have h29 := getMonthLength_pos cur.year month hm1 hm2
            simp only [HijriDate.valid, isValidHijriDate, decide_eq_true_eq]
            refine ⟨hy, hm1, hm2, by omega, by omega⟩
  · rw [if_neg h1] at hc3
    by_cases h2 : hasSome o.bymonthday = true
    · rw [if_pos h2] at hc3
      exact monthday_filterMap_valid cur.year cur.month o.skip hy hcm1 hcm2 _ c hc3
    · rw [if_neg h2] at hc3
      by_cases h3 : hasSome o.byyearday = true
      · rw [if_pos h3] at hc3
        rw [List.mem_filterMap] at hc3
        obtain ⟨yday, hym, hyd⟩ := hc3
        split at hyd <;> split at hyd <;>
          first
            | exact dayOfYearToDate_valid cur.year _ c hyd
            | simp at hyd
      · rw [if_neg h3] at hc3
        simp only [List.mem_singleton] at hc3
        subst hc3
        have h29 := getMonthLength_pos cur.year cur.month hcm1 hcm2
        simp only [HijriDate.valid, isValidHijriDate, decide_eq_true_eq]
        refine ⟨hy, hcm1, hcm2, by omega, by omega⟩

theorem generateWeeklyCandidates_valid (o : ParsedOptions) (cur : HijriDate)
    (hv : cur.valid = true) :
    ∀ c ∈ generateWeeklyCandidates cur o, c.valid = true := by
  intro c hc
  simp only [generateWeeklyCandidates] at hc
  have hc2 := mem_sortAndDedupe c _ hc
  split at hc2
  · have hc3 := (List.mem_filter.mp hc2).1
    simp only [List.mem_map, List.mem_range] at hc3
    obtain ⟨i, hi, rfl⟩ := hc3
    refine addDays_valid cur hv (Int.ofNat i) ?_
    rw [intOfNat_eq_cast]
    omega
  · simp only [List.mem_singleton] at hc2
    subst hc2
    exact hv

theorem generateDailyCandidates_valid (o : ParsedOptions) (cur : HijriDate)
    (hv : cur.valid = true) :
    ∀ c ∈ generateDailyCandidates cur o, c.valid = true := by
  intro c hc
  rw [generateDailyCandidates] at hc
  split at hc
  · simp at hc
  · split at hc
    · simp at hc
    · split at hc
      · simp at hc
      · simp only [List.mem_singleton] at hc
        subst hc
        exact hv

theorem generateCandidates_valid (o : ParsedOptions) (cur : HijriDate) (hv : cur.valid = true)
    (hbm : ∀ m ∈ o.bymonth.getD [], 1 ≤ m ∧ m ≤ 12)
    (hnmd : ∀ d ∈ o.bynmonthday.getD [], d ≤ -1) :
    ∀ c ∈ generateCandidates cur o, c.valid = true := by
  intro c hc
  rcases hfreq : o.freq with _ | _ | _ | _ | _ | _ | _ <;>
    simp only [generateCandidates, hfreq] at hc
  · exact generateYearlyCandidates_valid o cur hv hbm hnmd c hc
  · exact generateMonthlyCandidates_valid o cur hv hnmd c hc
  · exact generateWeeklyCandidates_valid o cur hv c hc
  · exact generateDailyCandidates_valid o cur hv c hc
  · simp only [List.mem_singleton] at hc
    subst hc
    exact hv
  · simp only [List.mem_singleton] at hc
    subst hc
    exact hv
  · simp only [List.mem_singleton] at hc
    subst hc
    exact hv

/-- The invariant `parseOptions` establishes for the fields the
generator's date constructions depend on: a valid start date, a
positive interval (validated), months within `[1, 12]` (validated), and
the sign separation of the month-day lists. -/
def WellFormed (o : ParsedOptions) : Prop :=
  o.dtstart.valid = true ∧
  1 ≤ o.interval ∧
  (∀ m ∈ o.bymonth.getD [], 1 ≤ m ∧ m ≤ 12) ∧
  (∀ d ∈ o.bymonthday.getD [], 1 ≤ d) ∧
  (∀ d ∈ o.bynmonthday.getD [], d ≤ -1)

theorem iterAuxB_valid (o : ParsedOptions) (hwf : WellFormed o) :
    ∀ (fuel : Nat) (count : Int) (cur : HijriDate), cur.valid = true →
      ∀ x ∈ (iterAuxB o fuel count cur).1, x.valid = true := by
  obtain ⟨hds, hint, hbm, hmd, hnmd⟩ := hwf
  intro fuel
  induction fuel with
  | zero =>
    intro count cur hcur x hx
    simp [iterAuxB] at hx
  | succ n ih =>
    intro count cur hcur x hx
    simp only [iterAuxB] at hx
    have hcand : ∀ c ∈ generateCandidates cur o, c.valid = true :=
      generateCandidates_valid o cur hcur hbm hnmd
    have hfilt : ∀ c ∈ (match o.bysetpos with
        | some ps => applyBySetPos (generateCandidates cur o) ps
        | none => generateCandidates cur o), c.valid = true := by
      intro c hc
      rcases hbs : o.bysetpos with _ | ps
      · rw [hbs] at hc
        exact hcand c hc
      · rw [hbs] at hc
        exact hcand c (mem_applyBySetPos c _ ps hc)
    have hcur' : (advancePeriod cur o.freq o.interval).valid = true :=
      advancePeriod_valid cur hcur o.freq o.interval hint
    split at hx
    · dsimp only at hx
      exact hfilt x (yieldLoop_mem o x _ count hx)
    · split at hx
      · split at hx
        · dsimp only at hx
          rw [List.mem_append] at hx
          rcases hx with hx | hx
          · exact hfilt x (yieldLoop_mem o x _ count hx)
          · have hcand' := generateCandidates_valid o _ hcur' hbm hnmd
            exact hcand' x (untilTail_mem o _ x _ _ hx)
        · dsimp only at hx
          rw [List.mem_append] at hx
          rcases hx with hx | hx
          · exact hfilt x (yieldLoop_mem o x _ count hx)
          · exact ih _ _ hcur' x hx
      · dsimp only at hx
        rw [List.mem_append] at hx
        rcases hx with hx | hx
        · exact hfilt x (yieldLoop_mem o x _ count hx)
        · exact ih _ _ hcur' x hx

/-- **C9** — Generation never constructs an invalid date: for every
well-formed rule (valid start date, validated interval and months,
sign-separated month-day lists — the invariant the options parser
establishes), every candidate the generator constructs from a valid
cursor is a valid tabular Hijri date, and every date the full
enumeration yields is valid.  The unguarded constructions (the
BACKWARD/FORWARD substitutes, negative month-day resolution, weekday
scans, year-day resolution and the clamped fallback) all stay within
`1 ≤ day ≤ monthLength(year, month)`. -/
theorem generation_never_invalid (o : ParsedOptions) (hwf : WellFormed o) :
    (∀ cur : HijriDate, cur.valid = true →
      ∀ c ∈ generateCandidates cur o, c.valid = true) ∧
    (∀ d ∈ iterate o, d.valid = true) := by
  obtain ⟨hds, hint, hbm, hmd, hnmd⟩ := hwf
  refine ⟨fun cur hcur => generateCandidates_valid o cur hcur hbm hnmd, ?_⟩
  intro d hd
  exact iterAuxB_valid o ⟨hds, hint, hbm, hmd, hnmd⟩ (maxIterations o) 0 o.dtstart hds d hd

/-- A concrete well-formed rule for the C9 witness: MONTHLY on the last
day of each month (`byMonthDay = -1`), start (1446, 1, 1). -/
def lastDayRule : ParsedOptions where
  freq := Frequency.MONTHLY
  dtstart := ⟨1446, 1, 1⟩
  interval := 1
  wkst := 1
  count := some 3
  untilD := none
  tzid := none
  bysetpos := none
  bymonth := none
  bymonthday := none
  bynmonthday := some [-1]
  byyearday := none
  byweekno := none
  byweekday := none
  bynweekday := none
  byhour := none
  byminute := none
  bysecond := none
  skip := Skip.OMIT
  calendar := CalendarType.tbla

/-- Witness for `generation_never_invalid` at the last-day rule. -/
theorem generation_never_invalid_witness :
    WellFormed lastDayRule ∧ (∀ d ∈ iterate lastDayRule, d.valid = true) :=
  ⟨⟨by decide, by decide, by decide, by decide, by decide⟩,
   (generation_never_invalid lastDayRule
      ⟨by decide, by decide, by decide, by decide, by decide⟩).2⟩

/-! ## C4: monotonicity of the enumeration -/

theorem isBefore_iff (a b : HijriDate) :
    a.isBefore b = true ↔
      (a.year < b.year ∨ (a.year = b.year ∧
        (a.month < b.month ∨ (a.month = b.month ∧ a.day < b.day)))) := by
  rw [HijriDate.isBefore]
  split
  · rename_i h1
    simp only [decide_eq_true_eq]
    constructor
    · intro h
      exact Or.inl h
    · rintro (h | ⟨h, _⟩)
      · exact h
      · exact absurd h h1
  · rename_i h1
    push_neg at h1
    split
    · rename_i h2
      simp only [decide_eq_true_eq]
      constructor
      · intro h
        exact Or.inr ⟨h1, Or.inl h⟩
      · rintro (h | ⟨_, h | ⟨h, _⟩⟩)
        · omega
        · exact h
        · exact absurd h h2
    · rename_i h2
      push_neg at h2
      simp only [decide_eq_true_eq]
      constructor
      · intro h
        exact Or.inr ⟨h1, Or.inr ⟨h2, h⟩⟩
      · rintro (h | ⟨_, h | ⟨_, h⟩⟩)
        · omega
        · omega
        · exact h

theorem equals_iff (a b : HijriDate) :
    a.equals b = true ↔ a.year = b.year ∧ a.month = b.month ∧ a.day = b.day := by
  rw [HijriDate.equals]
  simp

theorem isOnOrBefore_iff (a b : HijriDate) :
    a.isOnOrBefore b = true ↔
      (a.year < b.year ∨ (a.year = b.year ∧
        (a.month < b.month ∨ (a.month = b.month ∧ a.day ≤ b.day)))) := by
  rw [HijriDate.isOnOrBefore, Bool.or_eq_true, equals_iff, isBefore_iff]
  omega

theorem isAfter_iff (a b : HijriDate) :
    a.isAfter b = true ↔
      (b.year < a.year ∨ (b.year = a.year ∧
        (b.month < a.month ∨ (b.month = a.month ∧ b.day < a.day)))) := by
  rw [HijriDate.isAfter]
  split
  · rename_i h1
    simp only [decide_eq_true_eq]
    omega
  · rename_i h1
    push_neg at h1
    split
    · rename_i h2
      simp only [decide_eq_true_eq]
      omega
    · rename_i h2
      push_neg at h2
      simp only [decide_eq_true_eq]
      omega

/-- The integer day index of a date, the quantity the order proofs
compare. -/
def dk (d : HijriDate) : Int := hijriDaysSinceEpoch d.year d.month d.day

theorem sum_take_succ (l : List Int) (k : Nat) (hk : k < l.length) :
    (l.take (k + 1)).sum = (l.take k).sum + l.get ⟨k, hk⟩ := by
  rw [List.take_succ, List.sum_append, List.getElem?_eq_getElem hk]
  simp [List.get_eq_getElem]

theorem sum_take_mono (l : List Int) (hnn : ∀ a ∈ l, 0 ≤ a) (i j : Nat) (hij : i ≤ j) :
    (l.take i).sum ≤ (l.take j).sum := by
  have hdecomp : l.take j = l.take i ++ (l.drop i).take (j - i) := by
    rw [← List.take_add]
    congr 1
    omega
  rw [hdecomp, List.sum_append]
  have : 0 ≤ ((l.drop i).take (j - i)).sum :=
    List.sum_nonneg fun a ha => hnn a (List.mem_of_mem_drop (List.mem_of_mem_take ha))
  omega

theorem sum_take_le_sum (l : List Int) (hnn : ∀ a ∈ l, 0 ≤ a) (i : Nat) :
    (l.take i).sum ≤ l.sum := by
  conv_rhs => rw [← List.take_append_drop i l]
  rw [List.sum_append]
  have h : 0 ≤ (l.drop i).sum :=
    List.sum_nonneg fun a ha => hnn a (List.mem_of_mem_drop ha)
  omega

/-- Within a year, the day offset is strictly below the next month
boundary and the boundaries are monotone. -/
theorem within_year_offset_lt (y m d : Int) (hm1 : 1 ≤ m) (hm2 : m ≤ 12)
    (hd1 : 1 ≤ d) (hd2 : d ≤ getMonthLength y m) :
    daysBeforeMonthInYear y m + (d - 1) < daysBeforeMonthInYear y (m + 1) ∧
    0 ≤ daysBeforeMonthInYear y m + (d - 1) := by
  have hk : (m - 1).toNat < (monthLengthsOfYear y).length := by
    rw [monthLengthsOfYear_length]
    omega
  have hget : (monthLengthsOfYear y).get ⟨(m - 1).toNat, hk⟩ = getMonthLength y m := by
    rw [monthLengthsOfYear_getElem y (m - 1).toNat (by omega), intOfNat_eq_cast]
    congr 1
    omega
  have hsucc := sum_take_succ (monthLengthsOfYear y) (m - 1).toNat hk
  have hnn := monthLengthsOfYear_nonneg y
  have h0 : 0 ≤ ((monthLengthsOfYear y).take (m - 1).toNat).sum :=
    List.sum_nonneg fun a ha => hnn a (List.mem_of_mem_take ha)
  have heq : (m + 1 - 1).toNat = (m - 1).toNat + 1 := by omega
  constructor
  · show daysBeforeMonthInYear y m + (d - 1) <
      ((monthLengthsOfYear y).take (m + 1 - 1).toNat).sum
    rw [heq, hsucc, hget]
    show ((monthLengthsOfYear y).take (m - 1).toNat).sum + (d - 1) < _
    omega
  · show 0 ≤ ((monthLengthsOfYear y).take (m - 1).toNat).sum + (d - 1)
    omega

theorem daysBeforeMonth_mono (y : Int) (m m' : Int) (hmm : m ≤ m') :
    daysBeforeMonthInYear y m ≤ daysBeforeMonthInYear y m' := by
  show ((monthLengthsOfYear y).take (m - 1).toNat).sum ≤
    ((monthLengthsOfYear y).take (m' - 1).toNat).sum
  exact sum_take_mono _ (monthLengthsOfYear_nonneg y) _ _ (by omega)

theorem daysBeforeMonth_le_yearSum (y : Int) (m : Int) :
    daysBeforeMonthInYear y m ≤ (monthLengthsOfYear y).sum := by
  show ((monthLengthsOfYear y).take (m - 1).toNat).sum ≤ _
  exact sum_take_le_sum _ (monthLengthsOfYear_nonneg y) _

/-- The day index of the first day of a year, as a function of the
year: complete cycles plus years within the cycle. -/
theorem dk_year_base (y : Int) (hy : 1 ≤ y) :
    hijriDaysSinceEpoch y 1 1 =
      (y - 1) / 30 * 10631 + (yearLengthsOfCycle.take ((y - 1) % 30).toNat).sum := by
  rw [hijriDaysSinceEpoch, fdiv_ediv _ 30 (by norm_num),
    Int.tmod_eq_emod (by omega) (by norm_num)]
  have h1 : daysBeforeMonthInYear y 1 = 0 := by
    show ((monthLengthsOfYear y).take ((1:Int) - 1).toNat).sum = 0
    norm_num
  rw [h1]
  show (y - 1) / 30 * 10631 + (yearLengthsOfCycle.take ((y - 1) % 30).toNat).sum + 0 + (1 - 1) = _
  ring

/-- The first-of-year day indexes are monotone with gaps of at least a
year: `dk (y, 1, 1) + yearLength y ≤ dk (y + 1, 1, 1)` with equality,
and monotonicity across arbitrary year steps. -/
theorem dk_next_year (y : Int) (hy : 1 ≤ y) :
    hijriDaysSinceEpoch (y + 1) 1 1 =
      hijriDaysSinceEpoch y 1 1 + (monthLengthsOfYear y).sum := by
  rw [dk_year_base y hy, dk_year_base (y + 1) (by omega)]
  have hmod : 0 ≤ (y - 1) % 30 ∧ (y - 1) % 30 < 30 :=
    ⟨Int.emod_nonneg _ (by norm_num), Int.emod_lt_of_pos _ (by norm_num)⟩
  have hsumty : (monthLengthsOfYear y).sum = yearLengthInCycle ((y - 1) % 30 + 1) :=
    yearLength_sum_eq_cycle y hy
  have hk : ((y - 1) % 30).toNat < yearLengthsOfCycle.length := by
    rw [yearLengthsOfCycle_length]
    omega
  have hget : yearLengthsOfCycle.get ⟨((y - 1) % 30).toNat, hk⟩ =
      yearLengthInCycle ((y - 1) % 30 + 1) := by
    rw [yearLengthsOfCycle_getElem _ (by omega), intOfNat_eq_cast]
    congr 1
    omega
  have hsucc := sum_take_succ yearLengthsOfCycle ((y - 1) % 30).toNat hk
  by_cases hwrap : (y - 1) % 30 = 29
  · have hq : (y + 1 - 1) / 30 = (y - 1) / 30 + 1 := by omega
    have hr : (y + 1 - 1) % 30 = 0 := by omega
    rw [hq, hr]
    have h29 : ((y - 1) % 30).toNat + 1 = 30 := by omega
    have hfull : (yearLengthsOfCycle.take (((y - 1) % 30).toNat + 1)).sum = 10631 := by
      rw [h29]
      have : yearLengthsOfCycle.take 30 = yearLengthsOfCycle := by
        apply List.take_of_length_le
        rw [yearLengthsOfCycle_length]
      rw [this, yearLengthsOfCycle_sum]
    rw [hsucc, hget, ← hsumty] at hfull
    simp only [show ((0:Int)).toNat = 0 from rfl, List.take_zero, List.sum_nil]
    omega
  · have hq : (y + 1 - 1) / 30 = (y - 1) / 30 := by omega
    have hr : (y + 1 - 1) % 30 = (y - 1) % 30 + 1 := by omega
    rw [hq, hr]
    have ht : ((y - 1) % 30 + 1).toNat = ((y - 1) % 30).toNat + 1 := by omega
    rw [ht, hsucc, hget, ← hsumty]
    ring

theorem valid_fields (a : HijriDate) (h : a.valid = true) :
    1 ≤ a.year ∧ 1 ≤ a.month ∧ a.month ≤ 12 ∧ 1 ≤ a.day ∧
      a.day ≤ getMonthLength a.year a.month := by
  have h2 := h
  simp only [HijriDate.valid, isValidHijriDate, decide_eq_true_eq] at h2
  exact h2

theorem monthSum_pos (y : Int) : 0 < (monthLengthsOfYear y).sum := by
  rw [monthLengthsOfYear_sum]
  split <;> norm_num

theorem dk_year_mono (a b : Int) (ha : 1 ≤ a) (hab : a ≤ b) :
    hijriDaysSinceEpoch a 1 1 ≤ hijriDaysSinceEpoch b 1 1 := by
  refine @Int.le_induction
    (fun n => hijriDaysSinceEpoch a 1 1 ≤ hijriDaysSinceEpoch n 1 1) a ?_ ?_ b hab
  · exact le_refl _
  · intro n hn ih
    have hstep := dk_next_year n (by omega)
    have hpos := monthSum_pos n
    omega

theorem dk_split (y m d : Int) :
    hijriDaysSinceEpoch y m d =
      hijriDaysSinceEpoch y 1 1 + (daysBeforeMonthInYear y m + (d - 1)) := by
  rw [hijriDaysSinceEpoch, hijriDaysSinceEpoch]
  have h1 : daysBeforeMonthInYear y 1 = 0 := by
    show ((monthLengthsOfYear y).take ((1:Int) - 1).toNat).sum = 0
    norm_num
  rw [h1]
  ring

theorem within_year_lt_sum (y m d : Int) (hm1 : 1 ≤ m) (hm2 : m ≤ 12)
    (hd1 : 1 ≤ d) (hd2 : d ≤ getMonthLength y m) :
    daysBeforeMonthInYear y m + (d - 1) < (monthLengthsOfYear y).sum := by
  obtain ⟨hlt, _⟩ := within_year_offset_lt y m d hm1 hm2 hd1 hd2
  have h2 := daysBeforeMonth_le_yearSum y (m + 1)
  omega

theorem dk_lt_of_isBefore (a b : HijriDate) (ha : a.valid = true) (hb : b.valid = true)
    (hab : a.isBefore b = true) : dk a < dk b := by
  obtain ⟨hay, ham1, ham2, had1, had2⟩ := valid_fields a ha
  obtain ⟨hby, hbm1, hbm2, hbd1, hbd2⟩ := valid_fields b hb
  rw [isBefore_iff] at hab
  rw [dk, dk, dk_split a.year a.month a.day, dk_split b.year b.month b.day]
  obtain ⟨haW, haW0⟩ :=
    within_year_offset_lt a.year a.month a.day ham1 ham2 had1 had2
  obtain ⟨hbW, hbW0⟩ :=
    within_year_offset_lt b.year b.month b.day hbm1 hbm2 hbd1 hbd2
  rcases hab with hy | ⟨hy, hm | ⟨hm, hd⟩⟩
  · have h1 : daysBeforeMonthInYear a.year a.month + (a.day - 1) <
        (monthLengthsOfYear a.year).sum :=
      within_year_lt_sum a.year a.month a.day ham1 ham2 had1 had2
    have h2 := dk_next_year a.year hay
    have h3 := dk_year_mono (a.year + 1) b.year (by omega) (by omega)
    omega
  · have h1 := daysBeforeMonth_mono a.year (a.month + 1) b.month (by omega)
    rw [hy] at haW h1 ⊢
    omega
  · rw [hy, hm]
    omega

theorem dk_eq_of_equals (a b : HijriDate) (hab : a.equals b = true) : dk a = dk b := by
  rw [equals_iff] at hab
  rw [dk, dk, hab.1, hab.2.1, hab.2.2]

theorem date_trichotomy (a b : HijriDate) :
    a.isBefore b = true ∨ a.equals b = true ∨ b.isBefore a = true := by
  rw [isBefore_iff, equals_iff, isBefore_iff]
  omega

theorem isOnOrBefore_of_dk_le (a b : HijriDate) (ha : a.valid = true) (hb : b.valid = true)
    (h : dk a ≤ dk b) : a.isOnOrBefore b = true := by
  rcases date_trichotomy a b with hlt | heq | hgt
  · rw [HijriDate.isOnOrBefore, Bool.or_eq_true]
    exact Or.inr hlt
  · rw [HijriDate.isOnOrBefore, Bool.or_eq_true]
    exact Or.inl heq
  · have := dk_lt_of_isBefore b a hb ha hgt
    omega

theorem isBefore_of_dk_lt (a b : HijriDate) (ha : a.valid = true) (hb : b.valid = true)
    (h : dk a < dk b) : a.isBefore b = true := by
  rcases date_trichotomy a b with hlt | heq | hgt
  · exact hlt
  · have := dk_eq_of_equals a b heq
    omega
  · have := dk_lt_of_isBefore b a hb ha hgt
    omega

theorem dk_le_of_isOnOrBefore (a b : HijriDate) (ha : a.valid = true) (hb : b.valid = true)
    (h : a.isOnOrBefore b = true) : dk a ≤ dk b := by
  rw [HijriDate.isOnOrBefore, Bool.or_eq_true] at h
  rcases h with h | h
  · exact le_of_eq (dk_eq_of_equals a b h)
  · exact le_of_lt (dk_lt_of_isBefore a b ha hb h)

/-- `julianDayToHijri` inverts `hijriToJulianDay` on the epoch-or-later
range: the produced date is valid and maps back to the same Julian
day. -/
theorem julianDayToHijri_spec (jdn : Int) (h : 1948439 ≤ jdn) :
    ∃ dte : HijriDate, julianDayToHijri jdn = some dte ∧ dte.valid = true ∧
      hijriToJulianDay dte = jdn := by
  have hD0 : 0 ≤ jdn - 1948439 := by omega
  have hc0 : 0 ≤ (jdn - 1948439) / 10631 := Int.ediv_nonneg hD0 (by norm_num)
  have hr0 : 0 ≤ (jdn - 1948439) % 10631 := Int.emod_nonneg _ (by norm_num)
  have hrlt : (jdn - 1948439) % 10631 < yearLengthsOfCycle.sum := by
    rw [yearLengthsOfCycle_sum]
    exact Int.emod_lt_of_pos _ (by norm_num)
  obtain ⟨k, hk, s, heqY, hs0, hslt, hsumY⟩ :=
    scanList_complete yearLengthsOfCycle ((jdn - 1948439) % 10631) hr0 hrlt
      yearLengthsOfCycle_nonneg
  have hk30 : k < 30 := by
    have hlen := yearLengthsOfCycle_length
    omega
  have hy1 : 1 ≤ (jdn - 1948439) / 10631 * 30 + ((k : Int) + 1) := by omega
  have hcycle : yearLengthsOfCycle.get ⟨k, hk⟩ = yearLengthInCycle ((k : Int) + 1) := by
    rw [yearLengthsOfCycle_getElem k hk30, intOfNat_eq_cast]
  have hmod : ((jdn - 1948439) / 10631 * 30 + ((k : Int) + 1) - 1) % 30 = (k : Int) := by
    omega
  have hsum : (monthLengthsOfYear ((jdn - 1948439) / 10631 * 30 + ((k : Int) + 1))).sum
      = yearLengthInCycle ((k : Int) + 1) := by
    rw [yearLength_sum_eq_cycle _ hy1, hmod]
  have hslt' : s <
      (monthLengthsOfYear ((jdn - 1948439) / 10631 * 30 + ((k : Int) + 1))).sum := by
    rw [hsum, ← hcycle]
    exact hslt
  obtain ⟨j, hj, t, heqM, ht0, htlt, hsumM⟩ :=
    scanList_complete (monthLengthsOfYear ((jdn - 1948439) / 10631 * 30 + ((k : Int) + 1)))
      s hs0 hslt' (monthLengthsOfYear_nonneg _)
  have hj12 : j < 12 := by
    have hlen := monthLengthsOfYear_length ((jdn - 1948439) / 10631 * 30 + ((k : Int) + 1))
    omega
  have hmonlen :
      (monthLengthsOfYear ((jdn - 1948439) / 10631 * 30 + ((k : Int) + 1))).get ⟨j, hj⟩
        = getMonthLength ((jdn - 1948439) / 10631 * 30 + ((k : Int) + 1)) ((j : Int) + 1) := by
    rw [monthLengthsOfYear_getElem _ j hj12, intOfNat_eq_cast]
  refine ⟨⟨(jdn - 1948439) / 10631 * 30 + ((k : Int) + 1), (j : Int) + 1, t + 1⟩, ?_, ?_, ?_⟩
  · simp only [julianDayToHijri]
    rw [if_neg (by omega)]
    have hfd : (jdn - 1948439).fdiv 10631 = (jdn - 1948439) / 10631 :=
      fdiv_ediv _ 10631 (by norm_num)
    have htm : (jdn - 1948439).tmod 10631 = (jdn - 1948439) % 10631 :=
      Int.tmod_eq_emod hD0 (by norm_num)
    rw [hfd, htm, heqY]
    dsimp only
    rw [heqM]
  · simp only [HijriDate.valid, isValidHijriDate, decide_eq_true_eq]
    rw [hmonlen] at htlt
    refine ⟨hy1, by omega, by omega, by omega, by omega⟩
  · rw [hijriToJulianDay]
    dsimp only
    rw [hijriDaysSinceEpoch, fdiv_ediv _ 30 (by norm_num),
      Int.tmod_eq_emod (by omega) (by norm_num)]
    have hYdiv : ((jdn - 1948439) / 10631 * 30 + ((k : Int) + 1) - 1) / 30 =
        (jdn - 1948439) / 10631 := by omega
    have hargY : (((jdn - 1948439) / 10631 * 30 + ((k : Int) + 1) - 1) % 30).toNat = k := by
      omega
    have hA : daysInYearsOfCycle
        ((((jdn - 1948439) / 10631 * 30 + ((k : Int) + 1) - 1) % 30)).toNat =
        (yearLengthsOfCycle.take k).sum := by
      show (yearLengthsOfCycle.take
        ((((jdn - 1948439) / 10631 * 30 + ((k : Int) + 1) - 1) % 30)).toNat).sum = _
      rw [hargY]
    have hargM : (((j : Int) + 1) - 1).toNat = j := by omega
    have hB : daysBeforeMonthInYear ((jdn - 1948439) / 10631 * 30 + ((k : Int) + 1))
        ((j : Int) + 1) =
        ((monthLengthsOfYear ((jdn - 1948439) / 10631 * 30 + ((k : Int) + 1))).take j).sum := by
      show ((monthLengthsOfYear ((jdn - 1948439) / 10631 * 30 + ((k : Int) + 1))).take
        (((j : Int) + 1 - 1)).toNat).sum = _
      rw [hargM]
    rw [hYdiv, hA, hB]
    omega

theorem addDays_dk (date : HijriDate) (hv : date.valid = true) (days : Int)
    (hd : 0 ≤ days) : dk (addDays date days) = dk date + days := by
  rw [addDays]
  by_cases h0 : days = 0
  · rw [if_pos h0, h0]
    ring
  · rw [if_neg h0]
    have harg : 1948439 ≤ hijriToJulianDay date + days := by
      have h1 := hijriDaysSinceEpoch_nonneg date.year date.month date.day hv
      rw [hijriToJulianDay]
      omega
    obtain ⟨dte, heq, hval, hinv⟩ := julianDayToHijri_spec _ harg
    rw [heq]
    simp only [Option.getD_some]
    have h1 : hijriToJulianDay dte = 1948439 + dk dte := rfl
    have h2 : hijriToJulianDay date = 1948439 + dk date := rfl
    omega

theorem compare_nonpos_iff (a b : HijriDate) :
    a.compare b ≤ 0 ↔ a.isOnOrBefore b = true := by
  rw [HijriDate.compare, isOnOrBefore_iff]
  split
  · rename_i h
    omega
  · rename_i h
    split
    · rename_i h2
      omega
    · rename_i h2
      omega

theorem compare_pos_iff (a b : HijriDate) :
    0 < a.compare b ↔ b.isBefore a = true := by
  rw [HijriDate.compare, isBefore_iff]
  split
  · rename_i h
    omega
  · rename_i h
    split
    · rename_i h2
      omega
    · rename_i h2
      omega

theorem isOnOrBefore_trans (a b c : HijriDate) (h1 : a.isOnOrBefore b = true)
    (h2 : b.isOnOrBefore c = true) : a.isOnOrBefore c = true := by
  rw [isOnOrBefore_iff] at h1 h2 ⊢
  omega

theorem isBefore_trans (a b c : HijriDate) (h1 : a.isBefore b = true)
    (h2 : b.isBefore c = true) : a.isBefore c = true := by
  rw [isBefore_iff] at h1 h2 ⊢
  omega

theorem isOnOrBefore_of_isBefore (a b : HijriDate) (h : a.isBefore b = true) :
    a.isOnOrBefore b = true := by
  rw [HijriDate.isOnOrBefore, Bool.or_eq_true]
  exact Or.inr h

theorem isBefore_of_le_not_equals (a b : HijriDate) (h1 : a.isOnOrBefore b = true)
    (h2 : ¬ a.equals b = true) : a.isBefore b = true := by
  rw [isOnOrBefore_iff] at h1
  rw [equals_iff] at h2
  rw [isBefore_iff]
  omega

theorem le_of_equals_left (p y z : HijriDate) (h1 : p.equals y = true)
    (h2 : y.isOnOrBefore z = true) : p.isOnOrBefore z = true := by
  rw [equals_iff] at h1
  rw [isOnOrBefore_iff] at h2 ⊢
  omega

theorem isBefore_trans_left (p y z : HijriDate) (h1 : p.isBefore y = true)
    (h2 : y.isBefore z = true) : p.isBefore z = true :=
  isBefore_trans p y z h1 h2

theorem pairwise_insertDate (x : HijriDate) :
    ∀ l : List HijriDate, l.Pairwise (fun a b => a.isOnOrBefore b = true) →
      (insertDate x l).Pairwise (fun a b => a.isOnOrBefore b = true) := by
  intro l
  induction l with
  | nil =>
    intro _
    simp [insertDate]
  | cons y ys ih =>
    intro hp
    rw [List.pairwise_cons] at hp
    obtain ⟨hy, hys⟩ := hp
    rw [insertDate]
    by_cases hc : x.compare y ≤ 0
    · rw [if_pos hc]
      have hxy : x.isOnOrBefore y = true := (compare_nonpos_iff x y).mp hc
      rw [List.pairwise_cons]
      refine ⟨?_, List.pairwise_cons.mpr ⟨hy, hys⟩⟩
      intro z hz
      rcases List.mem_cons.mp hz with rfl | hz'
      · exact hxy
      · exact isOnOrBefore_trans x y z hxy (hy z hz')
    · rw [if_neg hc]
      have hyx : y.isBefore x = true := (compare_pos_iff x y).mp (by omega)
      rw [List.pairwise_cons]
      refine ⟨?_, ih hys⟩
      intro z hz
      rcases mem_insertDate z x ys hz with rfl | hz'
      · exact isOnOrBefore_of_isBefore y z hyx
      · exact hy z hz'

theorem sortDates_pairwise :
    ∀ l : List HijriDate, (sortDates l).Pairwise (fun a b => a.isOnOrBefore b = true) := by
  intro l
  induction l with
  | nil => simp [sortDates]
  | cons y ys ih =>
    rw [sortDates]
    exact pairwise_insertDate y (sortDates ys) ih

theorem dedupeAux_pairwise :
    ∀ (l : List HijriDate) (p : HijriDate),
      l.Pairwise (fun a b => a.isOnOrBefore b = true) →
      (∀ z ∈ l, p.isOnOrBefore z = true) →
      (dedupeAux p l).Pairwise (fun a b => a.isBefore b = true) ∧
        ∀ z ∈ dedupeAux p l, p.isBefore z = true := by
  intro l
  induction l with
  | nil =>
    intro p _ _
    exact ⟨by simp [dedupeAux], by simp [dedupeAux]⟩
  | cons y ys ih =>
    intro p hp hall
    rw [List.pairwise_cons] at hp
    obtain ⟨hyys, hys⟩ := hp
    rw [dedupeAux]
    by_cases hc : p.equals y = true
    · rw [if_pos hc]
      exact ih p hys fun z hz => le_of_equals_left p y z hc (hyys z hz)
    · rw [if_neg hc]
      have hpy : p.isBefore y = true :=
        isBefore_of_le_not_equals p y (hall y (by simp)) hc
      obtain ⟨hrec, hbound⟩ := ih y hys hyys
      refine ⟨List.pairwise_cons.mpr ⟨hbound, hrec⟩, ?_⟩
      intro z hz
      rcases List.mem_cons.mp hz with rfl | hz'
      · exact hpy
      · exact isBefore_trans p y z hpy (hbound z hz')

theorem sortAndDedupe_pairwise (l : List HijriDate) :
    (sortAndDedupe l).Pairwise (fun a b => a.isBefore b = true) := by
  rw [sortAndDedupe]
  rcases hs : sortDates l with _ | ⟨x, xs⟩
  · simp
  · have hp : (x :: xs).Pairwise (fun a b => a.isOnOrBefore b = true) := by
      rw [← hs]
      exact sortDates_pairwise l
    rw [List.pairwise_cons] at hp
    obtain ⟨hx, hxs⟩ := hp
    obtain ⟨hrec, hbound⟩ := dedupeAux_pairwise xs x hxs hx
    exact List.pairwise_cons.mpr ⟨hbound, hrec⟩

theorem yieldLoop_sublist (o : ParsedOptions) :
    ∀ (l : List HijriDate) (count : Int), (yieldLoop o l count).1.Sublist l := by
  intro l
  induction l with
  | nil =>
    intro count
    simp [yieldLoop]
  | cons c rest ih =>
    intro count
    rw [yieldLoop]
    by_cases h1 : c.isBefore o.dtstart = true
    · rw [if_pos h1]
      exact (ih count).cons c
    · rw [if_neg h1]
      by_cases h2 : (match o.untilD with | some u => c.isAfter u | none => false) = true
      · rw [if_pos h2]
        exact List.nil_sublist _
      · rw [if_neg h2]
        by_cases h3 : (match o.count with
            | some n => decide (n ≤ count + 1) | none => false) = true
        · rw [if_pos h3]
          exact (List.nil_sublist rest).cons₂ c
        · rw [if_neg h3]
          exact (ih (count + 1)).cons₂ c

theorem untilTail_sublist (o : ParsedOptions) (u : HijriDate) :
    ∀ (l : List HijriDate) (count : Int), (untilTail o u l count).Sublist l := by
  intro l
  induction l with
  | nil =>
    intro count
    simp [untilTail]
  | cons c rest ih =>
    intro count
    rw [untilTail]
    by_cases h1 : (c.isOnOrBefore u = true ∧ c.isOnOrAfter o.dtstart = true)
    · rw [if_pos h1]
      by_cases h2 : (match o.count with
          | some n => decide (n ≤ count + 1) | none => false) = true
      · rw [if_pos h2]
        exact (List.nil_sublist rest).cons₂ c
      · rw [if_neg h2]
        exact (ih (count + 1)).cons₂ c
    · rw [if_neg h1]
      exact (ih count).cons c

theorem generateCandidates_pairwise (o : ParsedOptions) (cur : HijriDate) :
    (generateCandidates cur o).Pairwise (fun a b => a.isBefore b = true) := by
  rcases hfreq : o.freq with _ | _ | _ | _ | _ | _ | _ <;>
    simp only [generateCandidates, hfreq]
  · simp only [generateYearlyCandidates]
    exact sortAndDedupe_pairwise _
  · simp only [generateMonthlyCandidates]
    exact sortAndDedupe_pairwise _
  · simp only [generateWeeklyCandidates]
    exact sortAndDedupe_pairwise _
  · rw [generateDailyCandidates]
    split
    · simp
    · split
      · simp
      · split
        · simp
        · simp
  · simp
  · simp
  · simp

theorem filtered_pairwise (o : ParsedOptions) (cur : HijriDate) :
    ((match o.bysetpos with
      | some ps => applyBySetPos (generateCandidates cur o) ps
      | none => generateCandidates cur o : List HijriDate)).Pairwise
        (fun a b => a.isBefore b = true) := by
  rcases hbs : o.bysetpos with _ | ps
  · exact generateCandidates_pairwise o cur
  · show (applyBySetPos (generateCandidates cur o) ps).Pairwise
      (fun a b => a.isBefore b = true)
    rw [applyBySetPos]
    exact sortAndDedupe_pairwise _

theorem dk_day_offset (y m d : Int) :
    hijriDaysSinceEpoch y m d = hijriDaysSinceEpoch y m 1 + (d - 1) := by
  rw [hijriDaysSinceEpoch, hijriDaysSinceEpoch]
  ring

theorem daysBefore_succ (y m : Int) (hm1 : 1 ≤ m) (hm2 : m ≤ 12) :
    daysBeforeMonthInYear y (m + 1) = daysBeforeMonthInYear y m + getMonthLength y m := by
  have hk : (m - 1).toNat < (monthLengthsOfYear y).length := by
    rw [monthLengthsOfYear_length]
    omega
  have hget : (monthLengthsOfYear y).get ⟨(m - 1).toNat, hk⟩ = getMonthLength y m := by
    rw [monthLengthsOfYear_getElem y (m - 1).toNat (by omega), intOfNat_eq_cast]
    congr 1
    omega
  have hsucc := sum_take_succ (monthLengthsOfYear y) (m - 1).toNat hk
  have heq : (m + 1 - 1).toNat = (m - 1).toNat + 1 := by omega
  show ((monthLengthsOfYear y).take (m + 1 - 1).toNat).sum = _
  rw [heq, hsucc, hget]
  rfl

theorem dk_first_next_month (y m : Int) (hy : 1 ≤ y) (hm1 : 1 ≤ m) (hm2 : m ≤ 12) :
    dk (if m = 12 then (⟨y + 1, 1, 1⟩ : HijriDate) else ⟨y, m + 1, 1⟩) =
      hijriDaysSinceEpoch y m 1 + getMonthLength y m := by
  by_cases h12 : m = 12
  · rw [if_pos h12]
    subst h12
    show hijriDaysSinceEpoch (y + 1) 1 1 = _
    rw [dk_next_year y hy, dk_split y 12 1]
    have h13 := daysBefore_succ y 12 (by norm_num) (by norm_num)
    have hfull : daysBeforeMonthInYear y (12 + 1) = (monthLengthsOfYear y).sum := by
      show ((monthLengthsOfYear y).take (((12:Int) + 1) - 1).toNat).sum = _
      have harg : (((12:Int) + 1) - 1).toNat = 12 := by decide
      rw [harg]
      have hlen : (monthLengthsOfYear y).length = 12 := monthLengthsOfYear_length y
      rw [List.take_of_length_le (by omega)]
    omega
  · rw [if_neg h12]
    show hijriDaysSinceEpoch y (m + 1) 1 = _
    rw [dk_split y (m + 1) 1, dk_split y m 1, daysBefore_succ y m hm1 hm2]
    ring

theorem first_of_month_valid (y m : Int) (hy : 1 ≤ y) (hm1 : 1 ≤ m) (hm2 : m ≤ 12) :
    (⟨y, m, 1⟩ : HijriDate).valid = true := by
  simp only [HijriDate.valid, isValidHijriDate, decide_eq_true_eq]
  have := getMonthLength_pos y m hm1 hm2
  refine ⟨hy, hm1, hm2, by norm_num, by omega⟩

theorem dk_first_of_month_mono (y m y' m' : Int) (hy : 1 ≤ y) (hm1 : 1 ≤ m) (hm2 : m ≤ 12)
    (hy' : 1 ≤ y') (hm1' : 1 ≤ m') (hm2' : m' ≤ 12)
    (hidx : (y - 1) * 12 + (m - 1) ≤ (y' - 1) * 12 + (m' - 1)) :
    hijriDaysSinceEpoch y m 1 ≤ hijriDaysSinceEpoch y' m' 1 := by
  have hle : (⟨y, m, 1⟩ : HijriDate).isOnOrBefore ⟨y', m', 1⟩ = true := by
    rw [isOnOrBefore_iff]
    show y < y' ∨ (y = y' ∧ (m < m' ∨ (m = m' ∧ (1:Int) ≤ 1)))
    omega
  exact dk_le_of_isOnOrBefore ⟨y, m, 1⟩ ⟨y', m', 1⟩ (first_of_month_valid y m hy hm1 hm2)
    (first_of_month_valid y' m' hy' hm1' hm2') hle

theorem addMonths_shape (date : HijriDate) (hv : date.valid = true) (months : Int)
    (hm : 1 ≤ months) :
    ∃ dte : HijriDate, addMonths date months true = some dte ∧ dte.valid = true ∧
      (dte.year - 1) * 12 + (dte.month - 1) =
        (date.year - 1) * 12 + (date.month - 1) + months := by
  obtain ⟨hy, hm1, hm2, hd1, hd2⟩ := valid_fields date hv
  simp only [addMonths]
  rw [if_neg (by omega : ¬ months = 0)]
  set T := (date.year - 1) * 12 + (date.month - 1) + months with hT
  have hT1 : 1 ≤ T := by
    rw [hT]
    have h12 : 0 ≤ (date.year - 1) * 12 := mul_nonneg (by omega) (by norm_num)
    omega
  rw [fdiv_ediv T 12 (by norm_num), Int.tmod_eq_emod (by omega) (by norm_num)]
  have hmod : 0 ≤ T % 12 ∧ T % 12 < 12 :=
    ⟨Int.emod_nonneg _ (by norm_num), Int.emod_lt_of_pos _ (by norm_num)⟩
  have hdivnn : 0 ≤ T / 12 := Int.ediv_nonneg (by omega) (by norm_num)
  simp only [if_neg (by omega : ¬ T % 12 + 1 ≤ 0)]
  rw [if_neg (by omega : ¬ T / 12 + 1 < 1)]
  have h29 := getMonthLength_pos (T / 12 + 1) (T % 12 + 1) (by omega) (by omega)
  by_cases hclamp : getMonthLength (T / 12 + 1) (T % 12 + 1) < date.day
  · rw [if_pos hclamp]
    refine ⟨_, rfl, ?_, ?_⟩
    · simp only [HijriDate.valid, isValidHijriDate, decide_eq_true_eq]
      refine ⟨by omega, by omega, by omega, by omega, le_refl _⟩
    · dsimp only
      omega
  · rw [if_neg hclamp]
    refine ⟨_, rfl, ?_, ?_⟩
    · simp only [HijriDate.valid, isValidHijriDate, decide_eq_true_eq]
      refine ⟨by omega, by omega, by omega, by omega, by omega⟩
    · dsimp only
      omega

theorem addYears_shape (date : HijriDate) (hv : date.valid = true) (years : Int)
    (hys : 1 ≤ years) :
    ∃ dte : HijriDate, addYears date years true = some dte ∧ dte.valid = true ∧
      dte.year = date.year + years := by
  obtain ⟨hy, hm1, hm2, hd1, hd2⟩ := valid_fields date hv
  simp only [addYears]
  rw [if_neg (by omega : ¬ years = 0), if_neg (by omega : ¬ date.year + years < 1)]
  have h29 := getMonthLength_pos (date.year + years) date.month (by omega) (by omega)
  by_cases hclamp : getMonthLength (date.year + years) date.month < date.day
  · rw [if_pos hclamp]
    refine ⟨_, rfl, ?_, rfl⟩
    simp only [HijriDate.valid, isValidHijriDate, decide_eq_true_eq]
    refine ⟨by omega, by omega, by omega, by omega, le_refl _⟩
  · rw [if_neg hclamp]
    refine ⟨_, rfl, ?_, rfl⟩
    simp only [HijriDate.valid, isValidHijriDate, decide_eq_true_eq]
    refine ⟨by omega, by omega, by omega, by omega, by omega⟩

/-- The floor of a period: the day index below which the period's
candidates cannot lie.  Years for YEARLY, months for MONTHLY, the
cursor itself otherwise. -/
def pFloor (o : ParsedOptions) (cur : HijriDate) : Int :=
  match o.freq with
  | Frequency.YEARLY => hijriDaysSinceEpoch cur.year 1 1
  | Frequency.MONTHLY => hijriDaysSinceEpoch cur.year cur.month 1
  | _ => dk cur

theorem advancePeriod_monthly_idx (cur : HijriDate) (hv : cur.valid = true)
    (interval : Int) (hi : 1 ≤ interval) :
    ((advancePeriod cur Frequency.MONTHLY interval).year - 1) * 12 +
      ((advancePeriod cur Frequency.MONTHLY interval).month - 1) =
      (cur.year - 1) * 12 + (cur.month - 1) + interval := by
  obtain ⟨dte, heq, hval, hidx⟩ := addMonths_shape cur hv interval hi
  simp only [advancePeriod, heq, Option.getD_some]
  exact hidx

theorem advancePeriod_yearly_year (cur : HijriDate) (hv : cur.valid = true)
    (interval : Int) (hi : 1 ≤ interval) :
    (advancePeriod cur Frequency.YEARLY interval).year = cur.year + interval := by
  obtain ⟨dte, heq, hval, hyr⟩ := addYears_shape cur hv interval hi
  simp only [advancePeriod, heq, Option.getD_some]
  exact hyr

theorem tryCreateDate_shape (year month day : Int) (strategy : Skip)
    (hy : 1 ≤ year) (hm1 : 1 ≤ month) (hm2 : month ≤ 12) :
    ∀ c, tryCreateDate year month day strategy = some c →
      (c.valid = true ∧ c.year = year ∧ c.month = month) ∨
      c = (if month = 12 then (⟨year + 1, 1, 1⟩ : HijriDate) else ⟨year, month + 1, 1⟩) := by
  intro c h
  simp only [tryCreateDate] at h
  by_cases h1 : day < 1
  · rw [if_pos h1] at h
    simp at h
  · rw [if_neg h1] at h
    by_cases h2 : getMonthLength year month < day
    · rw [if_pos h2] at h
      have h29 := getMonthLength_pos year month hm1 hm2
      cases strategy
      · simp at h
      · by_cases h12 : month = 12
        · rw [if_pos h12] at h
          simp only [Option.some.injEq] at h
          subst h
          rw [if_pos h12]
          exact Or.inr rfl
        · rw [if_neg h12] at h
          simp only [Option.some.injEq] at h
          subst h
          rw [if_neg h12]
          exact Or.inr rfl
      · simp only [Option.some.injEq] at h
        subst h
        refine Or.inl ⟨?_, rfl, rfl⟩
        simp only [HijriDate.valid, isValidHijriDate, decide_eq_true_eq]
        refine ⟨by omega, by omega, by omega, by omega, le_refl _⟩
    · rw [if_neg h2] at h
      split at h
      · rename_i hval
        simp only [Option.some.injEq] at h
        subst h
        exact Or.inl ⟨hval, rfl, rfl⟩
      · simp at h

theorem nthWeekdayOfMonth_shape (year month weekday n : Int)
    (hy : 1 ≤ year) (hm1 : 1 ≤ month) (hm2 : month ≤ 12) :
    ∀ c, nthWeekdayOfMonth year month weekday n = some c →
      c.valid = true ∧ c.year = year ∧ c.month = month := by
  intro c h
  simp only [nthWeekdayOfMonth] at h
  have hdays : ∀ d ∈ (List.range (getMonthLength year month).toNat).map
      (fun i => Int.ofNat i + 1), 1 ≤ d ∧ d ≤ getMonthLength year month := by
    intro d hd
    simp only [List.mem_map, List.mem_range] at hd
    obtain ⟨i, hi, rfl⟩ := hd
    rw [intOfNat_eq_cast]
    omega
  by_cases hn0 : n = 0
  · rw [if_pos hn0] at h
    simp at h
  · rw [if_neg hn0] at h
    by_cases hpos : 0 < n
    · rw [if_pos hpos] at h
      rw [Option.map_eq_some'] at h
      obtain ⟨d, hmatch, hdte⟩ := h
      subst hdte
      have hd := hdays d (nthMatch_mem _ d _ n hmatch)
      refine ⟨?_, rfl, rfl⟩
      simp only [HijriDate.valid, isValidHijriDate, decide_eq_true_eq]
      exact ⟨hy, hm1, hm2, hd.1, hd.2⟩
    · rw [if_neg hpos] at h
      rw [Option.map_eq_some'] at h
      obtain ⟨d, hmatch, hdte⟩ := h
      subst hdte
      have hmem := nthMatch_mem _ d _ (-n) hmatch
      rw [List.mem_reverse] at hmem
      have hd := hdays d hmem
      refine ⟨?_, rfl, rfl⟩
      simp only [HijriDate.valid, isValidHijriDate, decide_eq_true_eq]
      exact ⟨hy, hm1, hm2, hd.1, hd.2⟩

theorem dayOfYearToDate_shape (year dayOfYear : Int) :
    ∀ c, dayOfYearToDate year dayOfYear = some c → c.valid = true ∧ c.year = year := by
  intro c h
  rw [dayOfYearToDate] at h
  rw [Option.bind_eq_some] at h
  obtain ⟨p, _, hp⟩ := h
  split at hp
  · rename_i hval
    simp only [Option.some.injEq] at hp
    subst hp
    exact ⟨hval, rfl⟩
  · simp at hp

theorem monthday_filterMap_shape (year month : Int) (skip : Skip)
    (hy : 1 ≤ year) (hm1 : 1 ≤ month) (hm2 : month ≤ 12) (days : List Int) :
    ∀ c ∈ days.filterMap (fun day => tryCreateDate year month day skip),
      (c.valid = true ∧ c.year = year ∧ c.month = month) ∨
      c = (if month = 12 then (⟨year + 1, 1, 1⟩ : HijriDate) else ⟨year, month + 1, 1⟩) := by
  intro c hc
  rw [List.mem_filterMap] at hc
  obtain ⟨d, _, hd⟩ := hc
  exact tryCreateDate_shape year month d skip hy hm1 hm2 c hd

theorem nmonthday_filterMap_shape (year month : Int)
    (hy : 1 ≤ year) (hm1 : 1 ≤ month) (hm2 : month ≤ 12) (ndays : List Int)
    (hneg : ∀ d ∈ ndays, d ≤ -1) :
    ∀ c ∈ ndays.filterMap (fun nday =>
        if 1 ≤ getMonthLength year month + nday + 1
        then some (⟨year, month, getMonthLength year month + nday + 1⟩ : HijriDate)
        else none),
      c.valid = true ∧ c.year = year ∧ c.month = month := by
  intro c hc
  rw [List.mem_filterMap] at hc
  obtain ⟨nd, hmem, hnd⟩ := hc
  split at hnd
  · rename_i hday
    simp only [Option.some.injEq] at hnd
    subst hnd
    have hn := hneg nd hmem
    have h29 := getMonthLength_pos year month hm1 hm2
    refine ⟨?_, rfl, rfl⟩
    simp only [HijriDate.valid, isValidHijriDate, decide_eq_true_eq]
    refine ⟨hy, hm1, hm2, by omega, by omega⟩
  · simp at hnd

theorem nweekday_filterMap_shape (year month : Int)
    (hy : 1 ≤ year) (hm1 : 1 ≤ month) (hm2 : month ≤ 12) (wds : List WeekdaySpec) :
    ∀ c ∈ wds.filterMap (fun wd =>
        match wd.n with
        | some n => nthWeekdayOfMonth year month wd.weekday n
        | none => none),
      c.valid = true ∧ c.year = year ∧ c.month = month := by
  intro c hc
  rw [List.mem_filterMap] at hc
  obtain ⟨wd, _, hwd⟩ := hc
  rcases hn : wd.n with _ | n
  · rw [hn] at hwd
    simp at hwd
  · rw [hn] at hwd
    exact nthWeekdayOfMonth_shape year month wd.weekday n hy hm1 hm2 c hwd

theorem weekday_scan_shape (year month : Int) (wds : List WeekdaySpec)
    (hy : 1 ≤ year) (hm1 : 1 ≤ month) (hm2 : month ≤ 12) :
    ∀ c ∈ ((List.range (getMonthLength year month).toNat).map
        fun i => Int.ofNat i + 1).filterMap
        (fun d => if wds.any (fun wd => wd.weekday = dayOfWeek ⟨year, month, d⟩)
                  then some (⟨year, month, d⟩ : HijriDate) else none),
      c.valid = true ∧ c.year = year ∧ c.month = month := by
  intro c hc
  rw [List.mem_filterMap] at hc
  obtain ⟨d, hmem, hd⟩ := hc
  simp only [List.mem_map, List.mem_range] at hmem
  obtain ⟨i, hi, rfl⟩ := hmem
  split at hd
  · simp only [Option.some.injEq] at hd
    subst hd
    have h29 := getMonthLength_pos year month hm1 hm2
    refine ⟨?_, rfl, rfl⟩
    simp only [HijriDate.valid, isValidHijriDate, decide_eq_true_eq, intOfNat_eq_cast]
    refine ⟨hy, hm1, hm2, by omega, by omega⟩
  · simp at hd

theorem generateMonthlyCandidates_shape (o : ParsedOptions) (cur : HijriDate)
    (hv : cur.valid = true)
    (hnmd : ∀ d ∈ o.bynmonthday.getD [], d ≤ -1) :
    ∀ c ∈ generateMonthlyCandidates cur o,
      (c.valid = true ∧ c.year = cur.year ∧ c.month = cur.month) ∨
      c = (if cur.month = 12 then (⟨cur.year + 1, 1, 1⟩ : HijriDate)
           else ⟨cur.year, cur.month + 1, 1⟩) := by
  obtain ⟨hy, hcm1, hcm2, hd1, hd2⟩ := valid_fields cur hv
  intro c hc
  simp only [generateMonthlyCandidates] at hc
  have hc2 := mem_sortAndDedupe c _ hc
  by_cases h1 : hasSome o.bymonthday = true
  · rw [if_pos h1] at hc2
    exact monthday_filterMap_shape cur.year cur.month o.skip hy hcm1 hcm2 _ c hc2
  · rw [if_neg h1] at hc2
    by_cases h2 : hasSome o.bynmonthday = true
    · rw [if_pos h2] at hc2
      exact Or.inl (nmonthday_filterMap_shape cur.year cur.month hy hcm1 hcm2 _ hnmd c hc2)
    · rw [if_neg h2] at hc2
      by_cases h3 : hasSome o.bynweekday = true
      · rw [if_pos h3] at hc2
        exact Or.inl (nweekday_filterMap_shape cur.year cur.month hy hcm1 hcm2 _ c hc2)
      · rw [if_neg h3] at hc2
        by_cases h4 : hasSome o.byweekday = true
        · rw [if_pos h4] at hc2
          exact Or.inl (weekday_scan_shape cur.year cur.month _ hy hcm1 hcm2 c hc2)
        · rw [if_neg h4] at hc2
          simp only [List.mem_singleton] at hc2
          subst hc2
          have h29 := getMonthLength_pos cur.year cur.month hcm1 hcm2
          refine Or.inl ⟨?_, rfl, rfl⟩
          simp only [HijriDate.valid, isValidHijriDate, decide_eq_true_eq]
          refine ⟨hy, hcm1, hcm2, by omega, by omega⟩

theorem tryCreateDate_year_shape (year month day : Int) (strategy : Skip)
    (hy : 1 ≤ year) (hm1 : 1 ≤ month) (hm2 : month ≤ 12) :
    ∀ c, tryCreateDate year month day strategy = some c →
      (c.valid = true ∧ c.year = year) ∨ c = (⟨year + 1, 1, 1⟩ : HijriDate) := by
  intro c h
  rcases tryCreateDate_shape year month day strategy hy hm1 hm2 c h with ⟨hval, hyr, _⟩ | hfn
  · exact Or.inl ⟨hval, hyr⟩
  · by_cases h12 : month = 12
    · rw [if_pos h12] at hfn
      exact Or.inr hfn
    · rw [if_neg h12] at hfn
      subst hfn
      refine Or.inl ⟨?_, rfl⟩
      simp only [HijriDate.valid, isValidHijriDate, decide_eq_true_eq]
      have h29 := getMonthLength_pos year (month + 1) (by omega) (by omega)
      refine ⟨hy, by omega, by omega, by norm_num, by omega⟩

theorem generateYearlyCandidates_shape (o : ParsedOptions) (cur : HijriDate)
    (hv : cur.valid = true)
    (hbm : ∀ m ∈ o.bymonth.getD [], 1 ≤ m ∧ m ≤ 12)
    (hnmd : ∀ d ∈ o.bynmonthday.getD [], d ≤ -1) :
    ∀ c ∈ generateYearlyCandidates cur o,
      (c.valid = true ∧ c.year = cur.year) ∨ c = (⟨cur.year + 1, 1, 1⟩ : HijriDate) := by
  obtain ⟨hy, hcm1, hcm2, hd1, hd2⟩ := valid_fields cur hv
  intro c hc
  simp only [generateYearlyCandidates] at hc
  have hc2 := mem_sortAndDedupe c _ hc
  have hc3 := mem_of_filter_if _ _ _ _ c hc2
  by_cases h1 : hasSome o.bymonth = true
  · rw [if_pos h1] at hc3
    rw [List.mem_flatMap] at hc3
    obtain ⟨month, hmm, hcm⟩ := hc3
    obtain ⟨hm1, hm2⟩ := hbm month hmm
    by_cases h2 : hasSome o.bymonthday = true
    · rw [if_pos h2] at hcm
      rw [List.mem_filterMap] at hcm
      obtain ⟨d, _, hd⟩ := hcm
      exact tryCreateDate_year_shape cur.year month d o.skip hy hm1 hm2 c hd
    · rw [if_neg h2] at hcm
      by_cases h3 : hasSome o.bynmonthday = true
      · rw [if_pos h3] at hcm
        obtain ⟨hval, hyr, _⟩ :=
          nmonthday_filterMap_shape cur.year month hy hm1 hm2 _ hnmd c hcm
        exact Or.inl ⟨hval, hyr⟩
      · rw [if_neg h3] at hcm
        by_cases h4 : hasSome o.bynweekday = true
        · rw [if_pos h4] at hcm
          obtain ⟨hval, hyr, _⟩ :=
            nweekday_filterMap_shape cur.year month hy hm1 hm2 _ c hcm
          exact Or.inl ⟨hval, hyr⟩
        · rw [if_neg h4] at hcm
          by_cases h5 : hasSome o.byweekday = true
          · rw [if_pos h5] at hcm
            obtain ⟨hval, hyr, _⟩ :=
              weekday_scan_shape cur.year month _ hy hm1 hm2 c hcm
            exact Or.inl ⟨hval, hyr⟩
          · rw [if_neg h5] at hcm
            simp only [List.mem_singleton] at hcm
            subst hcm
            have h29 := getMonthLength_pos cur.year month hm1 hm2
            refine Or.inl ⟨?_, rfl⟩
            simp only [HijriDate.valid, isValidHijriDate, decide_eq_true_eq]
            refine ⟨hy, hm1, hm2, by omega, by omega⟩
  · rw [if_neg h1] at hc3
    by_cases h2 : hasSome o.bymonthday = true
    · rw [if_pos h2] at hc3
      rw [List.mem_filterMap] at hc3
      obtain ⟨d, _, hd⟩ := hc3
      exact tryCreateDate_year_shape cur.year cur.month d o.skip hy hcm1 hcm2 c hd
    · rw [if_neg h2] at hc3
      by_cases h3 : hasSome o.byyearday = true
      · rw [if_pos h3] at hc3
        rw [List.mem_filterMap] at hc3
        obtain ⟨yday, hym, hyd⟩ := hc3
        split at hyd <;> split at hyd <;>
          first
            | exact Or.inl (dayOfYearToDate_shape cur.year _ c hyd)
            | simp at hyd
      · rw [if_neg h3] at hc3
        simp only [List.mem_singleton] at hc3
        subst hc3
        have h29 := getMonthLength_pos cur.year cur.month hcm1 hcm2
        refine Or.inl ⟨?_, rfl⟩
        simp only [HijriDate.valid, isValidHijriDate, decide_eq_true_eq]
        refine ⟨hy, hcm1, hcm2, by omega, by omega⟩

theorem generateWeeklyCandidates_shape (o : ParsedOptions) (cur : HijriDate) :
    ∀ c ∈ generateWeeklyCandidates cur o,
      ∃ i : Nat, i ≤ 6 ∧ c = addDays cur (Int.ofNat i) := by
  intro c hc
  simp only [generateWeeklyCandidates] at hc
  have hc2 := mem_sortAndDedupe c _ hc
  split at hc2
  · have hc3 := (List.mem_filter.mp hc2).1
    simp only [List.mem_map, List.mem_range] at hc3
    obtain ⟨i, hi, rfl⟩ := hc3
    exact ⟨i, by omega, rfl⟩
  · simp only [List.mem_singleton] at hc2
    subst hc2
    refine ⟨0, by omega, ?_⟩
    rw [addDays, if_pos (show Int.ofNat 0 = 0 from rfl)]

theorem generateDailyCandidates_shape (o : ParsedOptions) (cur : HijriDate) :
    ∀ c ∈ generateDailyCandidates cur o, c = cur := by
  intro c hc
  rw [generateDailyCandidates] at hc
  split at hc
  · simp at hc
  · split at hc
    · simp at hc
    · split at hc
      · simp at hc
      · simp only [List.mem_singleton] at hc
        exact hc

theorem pFloor_mono (o : ParsedOptions) (cur : HijriDate) (hv : cur.valid = true)
    (hint : 1 ≤ o.interval) :
    pFloor o cur ≤ pFloor o (advancePeriod cur o.freq o.interval) := by
  obtain ⟨hy, hcm1, hcm2, hd1, hd2⟩ := valid_fields cur hv
  rcases hfreq : o.freq with _ | _ | _ | _ | _ | _ | _ <;> simp only [pFloor, hfreq]
  · rw [advancePeriod_yearly_year cur hv o.interval hint]
    exact dk_year_mono cur.year (cur.year + o.interval) hy (by omega)
  · have hA := advancePeriod_monthly_idx cur hv o.interval hint
    have hAv := advancePeriod_valid cur hv Frequency.MONTHLY o.interval hint
    obtain ⟨hay, ham1, ham2, _, _⟩ := valid_fields _ hAv
    exact dk_first_of_month_mono cur.year cur.month
      (advancePeriod cur Frequency.MONTHLY o.interval).year
      (advancePeriod cur Frequency.MONTHLY o.interval).month
      hy hcm1 hcm2 hay ham1 ham2 (by omega)
  · simp only [advancePeriod]
    rw [addDays_dk cur hv (o.interval * 7) (by omega)]
    omega
  · simp only [advancePeriod]
    rw [addDays_dk cur hv o.interval (by omega)]
    omega
  · simp only [advancePeriod]
    rw [addDays_dk cur hv 1 (by omega)]
    omega
  · simp only [advancePeriod]
    rw [addDays_dk cur hv 1 (by omega)]
    omega
  · simp only [advancePeriod]
    rw [addDays_dk cur hv 1 (by omega)]
    omega

theorem candidates_bounds (o : ParsedOptions) (cur : HijriDate) (hv : cur.valid = true)
    (hbm : ∀ m ∈ o.bymonth.getD [], 1 ≤ m ∧ m ≤ 12)
    (hnmd : ∀ d ∈ o.bynmonthday.getD [], d ≤ -1)
    (hint : 1 ≤ o.interval) :
    ∀ c ∈ generateCandidates cur o,
      pFloor o cur ≤ dk c ∧ dk c ≤ pFloor o (advancePeriod cur o.freq o.interval) := by
  obtain ⟨hy, hcm1, hcm2, hd1, hd2⟩ := valid_fields cur hv
  intro c hc
  rcases hfreq : o.freq with _ | _ | _ | _ | _ | _ | _ <;>
    simp only [generateCandidates, hfreq] at hc <;>
    simp only [pFloor, hfreq]
  · -- YEARLY
    have hAdv := advancePeriod_yearly_year cur hv o.interval hint
    rw [hAdv]
    have hnext := dk_next_year cur.year hy
    have hmono := dk_year_mono (cur.year + 1) (cur.year + o.interval) (by omega) (by omega)
    have hpos := monthSum_pos cur.year
    rcases generateYearlyCandidates_shape o cur hv hbm hnmd c hc with ⟨hcv, hcy⟩ | rfl
    · obtain ⟨hcy1, hcm1f, hcm2f, hcd1, hcd2⟩ := valid_fields c hcv
      have hdk : dk c = hijriDaysSinceEpoch c.year 1 1 +
          (daysBeforeMonthInYear c.year c.month + (c.day - 1)) := dk_split c.year c.month c.day
      have hWs : daysBeforeMonthInYear c.year c.month + (c.day - 1) <
          (monthLengthsOfYear c.year).sum :=
        within_year_lt_sum c.year c.month c.day hcm1f hcm2f hcd1 hcd2
      obtain ⟨hWlt, hW0⟩ := within_year_offset_lt c.year c.month c.day hcm1f hcm2f hcd1 hcd2
      rw [hcy] at hdk hWs hW0
      constructor
      · omega
      · omega
    · have hdkc : dk (⟨cur.year + 1, 1, 1⟩ : HijriDate) =
          hijriDaysSinceEpoch (cur.year + 1) 1 1 := rfl
      rw [hdkc]
      constructor
      · omega
      · omega
  · -- MONTHLY
    have hA := advancePeriod_monthly_idx cur hv o.interval hint
    have hAv := advancePeriod_valid cur hv Frequency.MONTHLY o.interval hint
    obtain ⟨hay, ham1, ham2, _, _⟩ := valid_fields _ hAv
    have hlen := getMonthLength_pos cur.year cur.month hcm1 hcm2
    have hfnm := dk_first_next_month cur.year cur.month hy hcm1 hcm2
    have hfnm_le : dk (if cur.month = 12 then (⟨cur.year + 1, 1, 1⟩ : HijriDate)
        else ⟨cur.year, cur.month + 1, 1⟩) ≤
        hijriDaysSinceEpoch (advancePeriod cur Frequency.MONTHLY o.interval).year
          (advancePeriod cur Frequency.MONTHLY o.interval).month 1 := by
      by_cases h12 : cur.month = 12
      · rw [if_pos h12]
        have hdkc : dk (⟨cur.year + 1, 1, 1⟩ : HijriDate) =
            hijriDaysSinceEpoch (cur.year + 1) 1 1 := rfl
        rw [hdkc]
        exact dk_first_of_month_mono (cur.year + 1) 1
          (advancePeriod cur Frequency.MONTHLY o.interval).year
          (advancePeriod cur Frequency.MONTHLY o.interval).month
          (by omega) (by norm_num) (by norm_num) hay ham1 ham2 (by omega)
      · rw [if_neg h12]
        have hdkc : dk (⟨cur.year, cur.month + 1, 1⟩ : HijriDate) =
            hijriDaysSinceEpoch cur.year (cur.month + 1) 1 := rfl
        rw [hdkc]
        exact dk_first_of_month_mono cur.year (cur.month + 1)
          (advancePeriod cur Frequency.MONTHLY o.interval).year
          (advancePeriod cur Frequency.MONTHLY o.interval).month
          hy (by omega) (by omega) hay ham1 ham2 (by omega)
    rcases generateMonthlyCandidates_shape o cur hv hnmd c hc with ⟨hcv, hcy, hcm⟩ | rfl
    · obtain ⟨hcy1, hcm1f, hcm2f, hcd1, hcd2⟩ := valid_fields c hcv
      have hdk : dk c = hijriDaysSinceEpoch c.year c.month 1 + (c.day - 1) :=
        dk_day_offset c.year c.month c.day
      rw [hcy, hcm] at hdk hcd2
      constructor
      · omega
      · omega
    · constructor
      · omega
      · omega
  · -- WEEKLY
    simp only [advancePeriod]
    obtain ⟨i, hi6, rfl⟩ := generateWeeklyCandidates_shape o cur c hc
    have hcast : Int.ofNat i = (i : Int) := intOfNat_eq_cast i
    rw [hcast]
    rw [addDays_dk cur hv (i : Int) (by omega), addDays_dk cur hv (o.interval * 7) (by omega)]
    omega
  · -- DAILY
    simp only [advancePeriod]
    have hcc := generateDailyCandidates_shape o cur c hc
    rw [hcc]
    rw [addDays_dk cur hv o.interval (by omega)]
    omega
  · simp only [List.mem_singleton] at hc
    rw [hc]
    simp only [advancePeriod]
    rw [addDays_dk cur hv 1 (by omega)]
    omega
  · simp only [List.mem_singleton] at hc
    rw [hc]
    simp only [advancePeriod]
    rw [addDays_dk cur hv 1 (by omega)]
    omega
  · simp only [List.mem_singleton] at hc
    rw [hc]
    simp only [advancePeriod]
    rw [addDays_dk cur hv 1 (by omega)]
    omega

theorem mem_of_mem_getLast? {l : List HijriDate} {x : HijriDate}
    (h : x ∈ l.getLast?) : x ∈ l := by
  obtain ⟨hne, rfl⟩ := List.mem_getLast?_eq_getLast h
  exact List.getLast_mem hne

theorem iterAuxB_chain (o : ParsedOptions) (hwf : WellFormed o) :
    ∀ (fuel : Nat) (count : Int) (cur : HijriDate), cur.valid = true →
      List.Chain' (fun a b => a.isOnOrBefore b = true) (iterAuxB o fuel count cur).1 ∧
      ∀ x ∈ (iterAuxB o fuel count cur).1, pFloor o cur ≤ dk x := by
  obtain ⟨hds, hint, hbm, hmd, hnmd⟩ := hwf
  intro fuel
  induction fuel with
  | zero =>
    intro count cur hcur
    simp [iterAuxB]
  | succ n ih =>
    intro count cur hcur
    have hfbounds : ∀ c ∈ (match o.bysetpos with
        | some ps => applyBySetPos (generateCandidates cur o) ps
        | none => generateCandidates cur o : List HijriDate),
        pFloor o cur ≤ dk c ∧ dk c ≤ pFloor o (advancePeriod cur o.freq o.interval) := by
      intro c hc
      rcases hbs : o.bysetpos with _ | ps
      · rw [hbs] at hc
        exact candidates_bounds o cur hcur hbm hnmd hint c hc
      · rw [hbs] at hc
        exact candidates_bounds o cur hcur hbm hnmd hint c (mem_applyBySetPos c _ ps hc)
    have hfvalid : ∀ c ∈ (match o.bysetpos with
        | some ps => applyBySetPos (generateCandidates cur o) ps
        | none => generateCandidates cur o : List HijriDate), c.valid = true := by
      intro c hc
      rcases hbs : o.bysetpos with _ | ps
      · rw [hbs] at hc
        exact generateCandidates_valid o cur hcur hbm hnmd c hc
      · rw [hbs] at hc
        exact generateCandidates_valid o cur hcur hbm hnmd c (mem_applyBySetPos c _ ps hc)
    have hfpair := filtered_pairwise o cur
    have hylsub := yieldLoop_sublist o (match o.bysetpos with
        | some ps => applyBySetPos (generateCandidates cur o) ps
        | none => generateCandidates cur o : List HijriDate) count
    have hylpair : List.Chain' (fun a b => a.isOnOrBefore b = true)
        (yieldLoop o (match o.bysetpos with
          | some ps => applyBySetPos (generateCandidates cur o) ps
          | none => generateCandidates cur o : List HijriDate) count).1 :=
      ((hfpair.sublist hylsub).imp fun hab => isOnOrBefore_of_isBefore _ _ hab).chain'
    have hylmem : ∀ x ∈ (yieldLoop o (match o.bysetpos with
        | some ps => applyBySetPos (generateCandidates cur o) ps
        | none => generateCandidates cur o : List HijriDate) count).1,
        x ∈ (match o.bysetpos with
        | some ps => applyBySetPos (generateCandidates cur o) ps
        | none => generateCandidates cur o : List HijriDate) :=
      fun x hx => yieldLoop_mem o x _ count hx
    have hcv' : (advancePeriod cur o.freq o.interval).valid = true :=
      advancePeriod_valid cur hcur o.freq o.interval hint
    have hpm := pFloor_mono o cur hcur hint
    simp only [iterAuxB]
    split
    · constructor
      · exact hylpair
      · intro x hx
        exact (hfbounds x (hylmem x hx)).1
    · split
      · split
        · -- until tail appended
          rename_i u hu hafter
          have hBsub := untilTail_sublist o u
            (generateCandidates (advancePeriod cur o.freq o.interval) o)
            (yieldLoop o (match o.bysetpos with
              | some ps => applyBySetPos (generateCandidates cur o) ps
              | none => generateCandidates cur o : List HijriDate) count).2.1
          have hBpair : List.Chain' (fun a b => a.isOnOrBefore b = true)
              (untilTail o u (generateCandidates (advancePeriod cur o.freq o.interval) o)
                (yieldLoop o (match o.bysetpos with
                  | some ps => applyBySetPos (generateCandidates cur o) ps
                  | none => generateCandidates cur o : List HijriDate) count).2.1) :=
            (((generateCandidates_pairwise o
              (advancePeriod cur o.freq o.interval)).sublist hBsub).imp
                fun hab => isOnOrBefore_of_isBefore _ _ hab).chain'
          constructor
          · refine List.Chain'.append hylpair hBpair ?_
            intro x hxl y hyh
            have hxm := hylmem x (mem_of_mem_getLast? hxl)
            have hym := untilTail_mem o u y _ _ (List.mem_of_mem_head? hyh)
            have hxv := hfvalid x hxm
            have hyv := generateCandidates_valid o _ hcv' hbm hnmd y hym
            have h1 := (hfbounds x hxm).2
            have h2 := (candidates_bounds o _ hcv' hbm hnmd hint y hym).1
            exact isOnOrBefore_of_dk_le x y hxv hyv (by omega)
          · intro x hx
            rw [List.mem_append] at hx
            rcases hx with hx | hx
            · exact (hfbounds x (hylmem x hx)).1
            · have hym := untilTail_mem o u x _ _ hx
              have h2 := (candidates_bounds o _ hcv' hbm hnmd hint x hym).1
              omega
        · -- continue with remaining fuel
          obtain ⟨ihc, ihb⟩ := ih _ (advancePeriod cur o.freq o.interval) hcv'
          constructor
          · refine List.Chain'.append hylpair ihc ?_
            intro x hxl y hyh
            have hxm := hylmem x (mem_of_mem_getLast? hxl)
            have hym := List.mem_of_mem_head? hyh
            have hxv := hfvalid x hxm
            have hyv := iterAuxB_valid o ⟨hds, hint, hbm, hmd, hnmd⟩ n _
              (advancePeriod cur o.freq o.interval) hcv' y hym
            have h1 := (hfbounds x hxm).2
            have h2 := ihb y hym
            exact isOnOrBefore_of_dk_le x y hxv hyv (by omega)
          · intro x hx
            rw [List.mem_append] at hx
            rcases hx with hx | hx
            · exact (hfbounds x (hylmem x hx)).1
            · have h2 := ihb x hx
              omega
      · obtain ⟨ihc, ihb⟩ := ih _ (advancePeriod cur o.freq o.interval) hcv'
        constructor
        · refine List.Chain'.append hylpair ihc ?_
          intro x hxl y hyh
          have hxm := hylmem x (mem_of_mem_getLast? hxl)
          have hym := List.mem_of_mem_head? hyh
          have hxv := hfvalid x hxm
          have hyv := iterAuxB_valid o ⟨hds, hint, hbm, hmd, hnmd⟩ n _
            (advancePeriod cur o.freq o.interval) hcv' y hym
          have h1 := (hfbounds x hxm).2
          have h2 := ihb y hym
          exact isOnOrBefore_of_dk_le x y hxv hyv (by omega)
        · intro x hx
          rw [List.mem_append] at hx
          rcases hx with hx | hx
          · exact (hfbounds x (hylmem x hx)).1
          · have h2 := ihb x hx
            omega

theorem chain'_le_pairwise :
    ∀ l : List HijriDate, List.Chain' (fun a b => a.isOnOrBefore b = true) l →
      l.Pairwise (fun a b => a.isOnOrBefore b = true) := by
  intro l
  induction l with
  | nil =>
    intro _
    exact List.Pairwise.nil
  | cons x xs ih =>
    intro h
    rw [List.chain'_cons'] at h
    obtain ⟨hhd, htl⟩ := h
    have hp := ih htl
    rw [List.pairwise_cons]
    refine ⟨?_, hp⟩
    intro z hz
    rcases xs with _ | ⟨y, ys⟩
    · simp at hz
    · have hxy : x.isOnOrBefore y = true := hhd y rfl
      rcases List.mem_cons.mp hz with rfl | hz'
      · exact hxy
      · rw [List.pairwise_cons] at hp
        exact isOnOrBefore_trans x y z hxy (hp.1 z hz')

/-- "Removing duplicates" from an enumeration: drop every date equal to
the previously kept one (for a non-decreasing list this removes all
duplicates).  The pass is the same one `sortAndDedupe` applies after
sorting. -/
def collapseDups : List HijriDate → List HijriDate
  | [] => []
  | x :: xs => x :: dedupeAux x xs

theorem collapseDups_pairwise (l : List HijriDate)
    (h : l.Pairwise (fun a b => a.isOnOrBefore b = true)) :
    (collapseDups l).Pairwise (fun a b => a.isBefore b = true) := by
  rcases l with _ | ⟨x, xs⟩
  · simp [collapseDups]
  · rw [List.pairwise_cons] at h
    obtain ⟨hx, hxs⟩ := h
    obtain ⟨hrec, hbound⟩ := dedupeAux_pairwise xs x hxs hx
    rw [collapseDups]
    exact List.pairwise_cons.mpr ⟨hbound, hrec⟩

/-- **C4** — Monotonicity: for every well-formed rule, the full
enumeration is non-decreasing in (year, month, day) order — no
later-yielded date is ever strictly earlier than a previously yielded
one, across period boundaries, under any skip policy and BY-filter
combination — and after removing duplicates it is strictly
increasing. -/
theorem monotonic_generation (o : ParsedOptions) (hwf : WellFormed o) :
    List.Pairwise (fun a b => a.isOnOrBefore b = true) (iterate o) ∧
    List.Pairwise (fun a b => a.isBefore b = true) (collapseDups (iterate o)) := by
  have hchain : List.Chain' (fun a b => a.isOnOrBefore b = true) (iterate o) := by
    obtain ⟨hds, hint, hbm, hmd, hnmd⟩ := hwf
    exact (iterAuxB_chain o ⟨hds, hint, hbm, hmd, hnmd⟩ (maxIterations o) 0 o.dtstart hds).1
  have hpair := chain'_le_pairwise _ hchain
  exact ⟨hpair, collapseDups_pairwise _ hpair⟩

/-- Witness for `monotonic_generation` at the last-day rule. -/
theorem monotonic_generation_witness :
    WellFormed lastDayRule ∧
      (List.Pairwise (fun a b => a.isOnOrBefore b = true) (iterate lastDayRule) ∧
       List.Pairwise (fun a b => a.isBefore b = true) (collapseDups (iterate lastDayRule))) :=
  ⟨⟨by decide, by decide, by decide, by decide, by decide⟩,
   monotonic_generation lastDayRule ⟨by decide, by decide, by decide, by decide, by decide⟩⟩
